import Mathlib

/-!
# libtermkey: the byte buffer and the UTF-8 / C0 decoder of `termkey.c`

A shallow embedding of `src/termkey.c`.

Conventions of the embedding

* `size_t` values (`buffstart`, `buffcount`, `buffsize`, lengths) are `Nat`; none of the
  operations modelled here can wrap for sizes that fit an address space.
* `unsigned char` values are `Nat`; the buffer is a `List Nat` whose length is the size of
  the allocation, and `CHARAT` reads it at `buffstart + i`.
* Bit sets held in an `int` (`flags`, `modifiers`, `modifier_set`) are `Nat` bit patterns.
* `long codepoint` is `Nat`: every value the decoder computes is a byte, `0xFFFD`, or at
  most 31 payload bits, hence never negative.
* The union `key->code` (`codepoint` / `number` / `sym`) is the single field `code : Int`;
  a member is read after the same member (or the zeroing of the whole union) was written,
  with one exception: `termkey_snprint_key` reads the `int` member `code.number` of a Unicode
  key, whose `long` member `code.codepoint` was written; that read is `code_number`.
* C `int` values that are not bit sets (`sym`, `nkeynames`, `waittime`) are `Int` with exact
  arithmetic; the source computes `sym + 1` in `int`, so what is proved about that sum is
  stated for ids below `INT_MAX`.
* Memory that C leaves uninitialised (`malloc`, the tail of a `realloc`) is filled with `0`
  (bytes, modifier sets) or `none` (name pointers).
* `termkey.h` and `termkey-internal.h` are not among the sources: the constants, enums and
  struct layouts they declare are modelled below, each marked as such.
* The conversion of the `ssize_t` result of `read` to `size_t` in `termkey_advisereadable`
  is explicit: the value is taken modulo `2 ^ 64`.
* Text written by `snprintf` is a `List Nat` of bytes without the terminating NUL; the output
  area of `termkey_snprint_key` is large enough, so nothing is truncated.
* The CSI driver is not among the sources: its `getkey` method is modelled after the spec and
  marked as such; `termkey_getkey` takes the driver method as a parameter.
-/

namespace Termkey

/-! ## Declarations of the missing headers -/

/-- Modelled from the spec: the header declaring `termkey_result` is missing; these are the
four results of spec section 4.3. -/
inductive termkey_result where
  | TERMKEY_RES_NONE
  | TERMKEY_RES_KEY
  | TERMKEY_RES_EOF
  | TERMKEY_RES_AGAIN
  deriving DecidableEq

/-- Modelled from the spec: the header declaring `termkey_type` is missing; these are the
three variants of a key event of spec section 3. -/
inductive termkey_type where
  | TERMKEY_TYPE_UNICODE
  | TERMKEY_TYPE_FUNCTION
  | TERMKEY_TYPE_KEYSYM
  deriving DecidableEq

/-- Modelled from the spec: `termkey_key` of the missing header, spec section 3. The field
`code` is the union of `codepoint`, `number` and `sym`; `utf8` is the array `char utf8[7]`. -/
structure termkey_key where
  type : termkey_type
  code : Int
  modifiers : Nat
  utf8 : List Nat
  deriving DecidableEq

/-- Modelled from the spec: modifier bit `Shift = 1` of spec section 3. -/
def TERMKEY_KEYMOD_SHIFT : Nat := 1

/-- Modelled from the spec: modifier bit `Alt = 2` of spec section 3. -/
def TERMKEY_KEYMOD_ALT : Nat := 2

/-- Modelled from the spec: modifier bit `Ctrl = 4` of spec section 3. -/
def TERMKEY_KEYMOD_CTRL : Nat := 4

/-- Modelled from the spec: flag `NoInterpret` of the missing header; the spec names the
flag and not its bit, which is taken to be bit 0. -/
def TERMKEY_FLAG_NOINTERPRET : Nat := 0x01

/-- Modelled from the spec: flag `Raw` of the missing header, taken to be bit 2. -/
def TERMKEY_FLAG_RAW : Nat := 0x04

/-- Modelled from the spec: flag `Utf8` of the missing header, taken to be bit 3. -/
def TERMKEY_FLAG_UTF8 : Nat := 0x08

/-- Modelled from the spec: flag `NoTermios` of the missing header, taken to be bit 4. -/
def TERMKEY_FLAG_NOTERMIOS : Nat := 0x10

/-- Modelled from the spec: the sentinel keysym `UNKNOWN` of the missing header, taken to
be `-1`. -/
def TERMKEY_SYM_UNKNOWN : Int := -1

/-- Modelled from the spec: the reserved keysym id `NONE = 0` of spec section 3. -/
def TERMKEY_SYM_NONE : Int := 0

/-- Modelled from the spec: the keysym enum of the missing header; the named keys are
numbered from 1 in the order of the pre-registered names of spec section 3, which is the
order of the `keynames` table of `termkey.c`. -/
def TERMKEY_SYM_BACKSPACE : Int := 1

/-- Modelled from the spec: keysym `Tab`, second named key of the enum. -/
def TERMKEY_SYM_TAB : Int := 2

/-- Modelled from the spec: keysym `Enter`, third named key of the enum. -/
def TERMKEY_SYM_ENTER : Int := 3

/-- Modelled from the spec: keysym `Escape`, fourth named key of the enum. -/
def TERMKEY_SYM_ESCAPE : Int := 4

/-- Modelled from the spec: keysym `Space`, fifth named key of the enum. -/
def TERMKEY_SYM_SPACE : Int := 5

/-- Modelled from the spec: keysym `DEL`, sixth named key of the enum. -/
def TERMKEY_SYM_DEL : Int := 6

/-- Modelled from the spec: one entry of the 32-entry C0 table,
`{ sym, modifier_set, modifier_mask }` of spec section 3. -/
structure keyinfo where
  sym : Int
  modifier_mask : Nat
  modifier_set : Nat
  deriving DecidableEq

/-- Modelled from the spec: the decoder state `termkey_t` of the missing internal header,
spec section 3, without the driver, its method table and the saved termios. A `NULL` name
pointer is `none`. -/
structure termkey_t where
  fd : Int
  flags : Nat
  buffer : List Nat
  buffstart : Nat
  buffcount : Nat
  buffsize : Nat
  waittime : Int
  is_closed : Bool
  nkeynames : Int
  keynames : List (Option String)
  c0 : List keyinfo
  deriving DecidableEq

/-! ## `termkey.c` -/

/-- The static table `keynames[]` of `termkey.c`, up to its `{ 0, NULL }` terminator. The
ids after `DEL` continue the numbering of the enum. -/
def keynames : List (Int × String) :=
  [ (TERMKEY_SYM_NONE, "NONE"), (TERMKEY_SYM_BACKSPACE, "Backspace"), (TERMKEY_SYM_TAB, "Tab"),
    (TERMKEY_SYM_ENTER, "Enter"), (TERMKEY_SYM_ESCAPE, "Escape"), (TERMKEY_SYM_SPACE, "Space"),
    (TERMKEY_SYM_DEL, "DEL"), (7, "Up"), (8, "Down"), (9, "Left"), (10, "Right"), (11, "Begin"),
    (12, "Find"), (13, "Insert"), (14, "Delete"), (15, "Select"), (16, "PageUp"),
    (17, "PageDown"), (18, "Home"), (19, "End"), (20, "KP0"), (21, "KP1"), (22, "KP2"),
    (23, "KP3"), (24, "KP4"), (25, "KP5"), (26, "KP6"), (27, "KP7"), (28, "KP8"), (29, "KP9"),
    (30, "KPEnter"), (31, "KPPlus"), (32, "KPMinus"), (33, "KPMult"), (34, "KPDiv"),
    (35, "KPComma"), (36, "KPPeriod"), (37, "KPEquals") ]

/-- The C library call `memcpy(dst + d, src + s, n)` on byte lists: `n` bytes of `src` from
offset `s` replace the `n` bytes of `dst` from offset `d`. -/
def memcpy (dst : List Nat) (d : Nat) (src : List Nat) (s n : Nat) : List Nat :=
  dst.take d ++ (src.drop s).take n ++ dst.drop (d + n)

/-- The C library call `realloc(p, n)` on a list: the old content is kept and the new tail is
filled with `fill`. -/
def realloc {α : Type} (p : List α) (n : Nat) (fill : α) : List α :=
  p.take n ++ List.replicate (n - p.length) fill

/-- The hole-filling loop of `termkey_register_keyname`:
`for(i = from; i < from + n; i++) names[i] = NULL`. -/
def fill_holes (names : List (Option String)) (start : Nat) : Nat → List (Option String)
  | 0 => names
  | n + 1 => fill_holes (names.set start none) (start + 1) n

/-- The constant `INT_MAX` of `limits.h` for the 32-bit `int` of the target. -/
def INT_MAX : Int := 2147483647

/-- The function `termkey_register_keyname` (termkey.c:500-520); returns the new state and
the id. `sym + 1` (termkey.c:506, 514) is the exact sum: it is the value the `int` expression
has for every id below `INT_MAX`, and the expression overflows at `INT_MAX`. -/
def termkey_register_keyname (tk : termkey_t) (sym : Int) (name : Option String) :
    termkey_t × Int :=
  let sym := if sym = 0 then tk.nkeynames else sym
  let tk :=
    if sym ≥ tk.nkeynames then
      let new_keynames := realloc tk.keynames (sym + 1).toNat none
      let new_keynames := fill_holes new_keynames tk.nkeynames.toNat (sym - tk.nkeynames).toNat
      { tk with keynames := new_keynames, nkeynames := sym + 1 }
    else tk
  ({ tk with keynames := tk.keynames.set sym.toNat name }, sym)

/-- The function `termkey_get_keyname` (termkey.c:522-531); a `NULL` slot is `none`. -/
def termkey_get_keyname (tk : termkey_t) (sym : Int) : Option String :=
  if sym = TERMKEY_SYM_UNKNOWN then some "UNKNOWN"
  else if sym < tk.nkeynames then tk.keynames.getD sym.toNat none
  else some "UNKNOWN"

/-- The function `register_c0_full` (termkey.c:538-553); returns the new state and the id,
`-1` with the state untouched when `ctrl` is out of bounds. -/
def register_c0_full (tk : termkey_t) (sym : Int) (modifier_set modifier_mask : Nat)
    (ctrl : Nat) (name : Option String) : termkey_t × Int :=
  if ctrl ≥ 0x20 then (tk, -1)
  else
    let r := if name.isSome then termkey_register_keyname tk sym name else (tk, sym)
    let tk := r.1
    let sym := r.2
    let entry : keyinfo :=
      { sym := sym, modifier_set := modifier_set, modifier_mask := modifier_mask }
    ({ tk with c0 := tk.c0.set ctrl entry }, sym)

/-- The function `register_c0` (termkey.c:533-536). -/
def register_c0 (tk : termkey_t) (sym : Int) (ctrl : Nat) (name : Option String) :
    termkey_t × Int :=
  register_c0_full tk sym 0 0 ctrl name

/-- The function `termkey_new_full` (termkey.c:70-134), on the path where every allocation
succeeds, up to the point where a driver is probed; `locale_is_utf8` is the outcome of the
three `getenv` tests. Driver selection and termios set-up are outside this model. -/
def termkey_new_full (fd : Int) (flags : Nat) (buffsize : Nat) (waittime : Int)
    (locale_is_utf8 : Bool) : termkey_t :=
  let flags :=
    if flags &&& (TERMKEY_FLAG_RAW ||| TERMKEY_FLAG_UTF8) = 0 then
      if locale_is_utf8 then flags ||| TERMKEY_FLAG_UTF8 else flags ||| TERMKEY_FLAG_RAW
    else flags
  let tk : termkey_t :=
    { fd := fd, flags := flags,
      buffer := List.replicate buffsize 0, buffstart := 0, buffcount := 0, buffsize := buffsize,
      waittime := waittime, is_closed := false,
      nkeynames := 64, keynames := List.replicate 64 none,
      c0 := List.replicate 32 { sym := TERMKEY_SYM_NONE, modifier_mask := 0, modifier_set := 0 } }
  let tk := keynames.foldl (fun t e => (termkey_register_keyname t e.1 (some e.2)).1) tk
  let tk := (register_c0 tk TERMKEY_SYM_BACKSPACE 0x08 none).1
  let tk := (register_c0 tk TERMKEY_SYM_TAB 0x09 none).1
  let tk := (register_c0 tk TERMKEY_SYM_ENTER 0x0d none).1
  let tk := (register_c0 tk TERMKEY_SYM_ESCAPE 0x1b none).1
  tk

/-- The function `termkey_new` (termkey.c:180-183). -/
def termkey_new (fd : Int) (flags : Nat) (locale_is_utf8 : Bool) : termkey_t :=
  termkey_new_full fd flags 256 50 locale_is_utf8

/-- The function `termkey_setwaittime` (termkey.c:204-207). -/
def termkey_setwaittime (tk : termkey_t) (msec : Int) : termkey_t :=
  { tk with waittime := msec }

/-- The function `termkey_getwaittime` (termkey.c:209-212). -/
def termkey_getwaittime (tk : termkey_t) : Int :=
  tk.waittime

/-- Modelled from the spec: `termkey_get_buffer_remaining` is called by the test and is not
in `termkey.c`; spec section 4.1 gives `remaining() = size - count`. -/
def termkey_get_buffer_remaining (tk : termkey_t) : Nat :=
  tk.buffsize - tk.buffcount

/-- The function `eat_bytes` (termkey.c:214-231). -/
def eat_bytes (tk : termkey_t) (count : Nat) : termkey_t :=
  if count ≥ tk.buffcount then
    { tk with buffstart := 0, buffcount := 0 }
  else
    let tk := { tk with buffstart := tk.buffstart + count, buffcount := tk.buffcount - count }
    let halfsize := tk.buffsize / 2
    if tk.buffstart > halfsize then
      { tk with
        buffer := memcpy tk.buffer 0 tk.buffer halfsize halfsize,
        buffstart := tk.buffstart - halfsize }
    else tk

/-- The function `utf8_seqlen` (termkey.c:233-241). -/
def utf8_seqlen (codepoint : Nat) : Nat :=
  if codepoint < 0x0000080 then 1
  else if codepoint < 0x0000800 then 2
  else if codepoint < 0x0010000 then 3
  else if codepoint < 0x0200000 then 4
  else if codepoint < 0x4000000 then 5
  else 6

/-- The `while(b > 1)` loop of `fill_utf8` (termkey.c:251-256), started at `b`; returns the
shifted code point and the array. -/
def fill_utf8_loop : Nat → Nat → List Nat → Nat × List Nat
  | 0, codepoint, utf8 => (codepoint, utf8)
  | b + 1, codepoint, utf8 =>
    if b + 1 > 1 then
      fill_utf8_loop b (codepoint >>> 6) (utf8.set b (0x80 ||| (codepoint &&& 0x3f)))
    else (codepoint, utf8)

/-- The function `fill_utf8` (termkey.c:243-266). -/
def fill_utf8 (key : termkey_key) : termkey_key :=
  let codepoint := key.code.toNat
  let nbytes := utf8_seqlen codepoint
  let utf8 := key.utf8.set nbytes 0
  let r := fill_utf8_loop nbytes codepoint utf8
  let codepoint := r.1
  let utf8 := r.2
  let utf8 :=
    match nbytes with
    | 1 => utf8.set 0 (codepoint &&& 0x7f)
    | 2 => utf8.set 0 (0xc0 ||| (codepoint &&& 0x1f))
    | 3 => utf8.set 0 (0xe0 ||| (codepoint &&& 0x0f))
    | 4 => utf8.set 0 (0xf0 ||| (codepoint &&& 0x07))
    | 5 => utf8.set 0 (0xf8 ||| (codepoint &&& 0x03))
    | 6 => utf8.set 0 (0xfc ||| (codepoint &&& 0x01))
    | _ => utf8
  { key with utf8 := utf8 }

/-- The function `emit_codepoint` (termkey.c:268-322); the key is passed in and returned,
since the C function writes only some of its fields. -/
def emit_codepoint (tk : termkey_t) (codepoint : Nat) (key : termkey_key) : termkey_key :=
  let key :=
    if codepoint < 0x20 then
      let key := { key with code := 0, modifiers := 0 }
      let entry := tk.c0.getD codepoint { sym := 0, modifier_mask := 0, modifier_set := 0 }
      let key :=
        if tk.flags &&& TERMKEY_FLAG_NOINTERPRET = 0 ∧ entry.sym ≠ TERMKEY_SYM_UNKNOWN then
          { key with code := entry.sym, modifiers := key.modifiers ||| entry.modifier_set }
        else key
      if key.code = 0 then
        { key with
          type := termkey_type.TERMKEY_TYPE_UNICODE,
          code := (codepoint : Int) + 0x40,
          modifiers := TERMKEY_KEYMOD_CTRL }
      else
        { key with type := termkey_type.TERMKEY_TYPE_KEYSYM }
    else if codepoint = 0x20 ∧ tk.flags &&& TERMKEY_FLAG_NOINTERPRET = 0 then
      { key with
        type := termkey_type.TERMKEY_TYPE_KEYSYM, code := TERMKEY_SYM_SPACE, modifiers := 0 }
    else if codepoint = 0x7f ∧ tk.flags &&& TERMKEY_FLAG_NOINTERPRET = 0 then
      { key with
        type := termkey_type.TERMKEY_TYPE_KEYSYM, code := TERMKEY_SYM_DEL, modifiers := 0 }
    else if codepoint ≥ 0x20 ∧ codepoint < 0x80 then
      { key with
        type := termkey_type.TERMKEY_TYPE_UNICODE, code := (codepoint : Int), modifiers := 0 }
    else if codepoint ≥ 0x80 ∧ codepoint < 0xa0 then
      { key with
        type := termkey_type.TERMKEY_TYPE_UNICODE,
        code := (codepoint : Int) - 0x40,
        modifiers := TERMKEY_KEYMOD_CTRL ||| TERMKEY_KEYMOD_ALT }
    else
      { key with
        type := termkey_type.TERMKEY_TYPE_UNICODE, code := (codepoint : Int), modifiers := 0 }
  if key.type = termkey_type.TERMKEY_TYPE_UNICODE then fill_utf8 key else key

/-- The constant `UTF8_INVALID` (termkey.c:324). -/
def UTF8_INVALID : Nat := 0xFFFD

/-- The accessor `CHARAT(i)` (termkey.c:326): `tk->buffer[tk->buffstart + (i)]`. -/
def CHARAT (tk : termkey_t) (i : Nat) : Nat :=
  tk.buffer.getD (tk.buffstart + i) 0

/-- The continuation loop `for(b = 1; b < nbytes; b++)` of `getkey_simple`
(termkey.c:381-391), entered at index `b` with `n = nbytes - b` iterations left: `.error b`
when the byte at `b` is not a continuation byte, else the accumulated code point. -/
def getkey_simple_loop (tk : termkey_t) : Nat → Nat → Nat → Except Nat Nat
  | 0, _, codepoint => .ok codepoint
  | n + 1, b, codepoint =>
    let cb := CHARAT tk b
    if cb < 0x80 ∨ cb ≥ 0xc0 then .error b
    else getkey_simple_loop tk n (b + 1) ((codepoint <<< 6) ||| (cb &&& 0x3f))

/-- The part of `getkey_simple` after the lead byte has fixed `nbytes` and the initial
`codepoint` (termkey.c:378-405). -/
def getkey_simple_multibyte (tk : termkey_t) (key : termkey_key) (nbytes codepoint : Nat) :
    termkey_result × termkey_t × termkey_key :=
  if tk.buffcount < nbytes then
    (if tk.waittime ≠ 0 then termkey_result.TERMKEY_RES_AGAIN
      else termkey_result.TERMKEY_RES_NONE, tk, key)
  else
    match getkey_simple_loop tk (nbytes - 1) 1 codepoint with
    | .error b =>
      let key := emit_codepoint tk UTF8_INVALID key
      let tk := eat_bytes tk (b - 1)
      (termkey_result.TERMKEY_RES_KEY, tk, key)
    | .ok codepoint =>
      let codepoint := if nbytes > utf8_seqlen codepoint then UTF8_INVALID else codepoint
      let codepoint :=
        if (codepoint ≥ 0xD800 ∧ codepoint ≤ 0xDFFF) ∨ codepoint = 0xFFFE ∨ codepoint = 0xFFFF
        then UTF8_INVALID else codepoint
      let key := emit_codepoint tk codepoint key
      let tk := eat_bytes tk nbytes
      (termkey_result.TERMKEY_RES_KEY, tk, key)

/-- The function `getkey_simple` (termkey.c:328-420); returns the result code, the state and
the key, both of which the C function updates in place. -/
def getkey_simple (tk : termkey_t) (key : termkey_key) :
    termkey_result × termkey_t × termkey_key :=
  let b0 := CHARAT tk 0
  if b0 < 0xa0 then
    let key := emit_codepoint tk b0 key
    let tk := eat_bytes tk 1
    (termkey_result.TERMKEY_RES_KEY, tk, key)
  else if tk.flags &&& TERMKEY_FLAG_UTF8 ≠ 0 then
    let key := { key with type := termkey_type.TERMKEY_TYPE_UNICODE, modifiers := 0 }
    if b0 < 0xc0 then
      let key := emit_codepoint tk UTF8_INVALID key
      let tk := eat_bytes tk 1
      (termkey_result.TERMKEY_RES_KEY, tk, key)
    else if b0 < 0xe0 then getkey_simple_multibyte tk key 2 (b0 &&& 0x1f)
    else if b0 < 0xf0 then getkey_simple_multibyte tk key 3 (b0 &&& 0x0f)
    else if b0 < 0xf8 then getkey_simple_multibyte tk key 4 (b0 &&& 0x07)
    else if b0 < 0xfc then getkey_simple_multibyte tk key 5 (b0 &&& 0x03)
    else if b0 < 0xfe then getkey_simple_multibyte tk key 6 (b0 &&& 0x01)
    else
      let key := emit_codepoint tk UTF8_INVALID key
      let tk := eat_bytes tk 1
      (termkey_result.TERMKEY_RES_KEY, tk, key)
  else
    let key :=
      { key with type := termkey_type.TERMKEY_TYPE_UNICODE, code := (b0 : Int), modifiers := 0 }
    let key := { key with utf8 := (key.utf8.set 0 key.code.toNat).set 1 0 }
    let tk := eat_bytes tk 1
    (termkey_result.TERMKEY_RES_KEY, tk, key)

/-- The loop `while(buffstart + buffcount + inputlen > buffsize) buffsize *= 2` of
`termkey_pushinput` (termkey.c:470-471), with `need = buffstart + buffcount + inputlen`. The
loop has no bound of its own, so it runs on `fuel`: `none` when the fuel runs out before the
test fails. -/
def pushinput_grow (need : Nat) : Nat → Nat → Option Nat
  | fuel, buffsize =>
    if need > buffsize then
      match fuel with
      | 0 => none
      | fuel + 1 => pushinput_grow need fuel (buffsize * 2)
    else some buffsize

/-- The function `termkey_pushinput` (termkey.c:467-481), `realloc` succeeding; `none` when
the growth loop does not end within `fuel` doublings. -/
def termkey_pushinput (fuel : Nat) (tk : termkey_t) (input : List Nat) : Option termkey_t :=
  let inputlen := input.length
  let grown : Option termkey_t :=
    if tk.buffstart + tk.buffcount + inputlen > tk.buffsize then
      match pushinput_grow (tk.buffstart + tk.buffcount + inputlen) fuel tk.buffsize with
      | none => none
      | some buffsize =>
        some { tk with buffsize := buffsize, buffer := realloc tk.buffer buffsize 0 }
    else some tk
  match grown with
  | none => none
  | some tk =>
    some { tk with
      buffer := memcpy tk.buffer (tk.buffstart + tk.buffcount) input 0 inputlen,
      buffcount := tk.buffcount + inputlen }

/-! ## Spec-side definitions -/

/-- The canonical UTF-8 encoding of a Unicode code point (at most `0x10FFFF`), which spec
section 8 property 4 and the `C1` round trip push into the decoder; written with `/` and `%`,
independently of `fill_utf8`. -/
def spec_utf8_encode (cp : Nat) : List Nat :=
  if cp < 0x80 then [cp]
  else if cp < 0x800 then [0xC0 + cp / 64, 0x80 + cp % 64]
  else if cp < 0x10000 then [0xE0 + cp / 4096, 0x80 + cp / 64 % 64, 0x80 + cp % 64]
  else [0xF0 + cp / 262144, 0x80 + cp / 4096 % 64, 0x80 + cp / 64 % 64, 0x80 + cp % 64]

/-- The buffer invariant of spec section 3, `start + count ≤ size`, together with the fact
that the allocation `buffer` has `size` bytes. -/
def buffer_inv (tk : termkey_t) : Prop :=
  tk.buffstart + tk.buffcount ≤ tk.buffsize ∧ tk.buffer.length = tk.buffsize

instance (tk : termkey_t) : Decidable (buffer_inv tk) := by
  unfold buffer_inv; infer_instance

/-- The readable window `[start, start + count)` of the buffer. -/
def window (tk : termkey_t) : List Nat :=
  (tk.buffer.drop tk.buffstart).take tk.buffcount

/-- The sequence length that spec section 4.2 reads off the lead byte:
`[C0..DF]→2, [E0..EF]→3, [F0..F7]→4, [F8..FB]→5, [FC..FD]→6`. -/
def spec_seq_nbytes (b0 : Nat) : Nat :=
  if b0 ≤ 0xDF then 2 else if b0 ≤ 0xEF then 3 else if b0 ≤ 0xF7 then 4
  else if b0 ≤ 0xFB then 5 else 6

/-- Big-endian concatenation of the six payload bits of the `n` buffered bytes from offset `b`
on, appended to `acc`. -/
def spec_payload (tk : termkey_t) : Nat → Nat → Nat → Nat
  | 0, _, acc => acc
  | n + 1, b, acc => spec_payload tk n (b + 1) (acc * 64 + CHARAT tk b % 64)

/-- The value a multi-byte sequence of `nbytes` bytes at the head of the buffer decodes to:
the `7 - nbytes` payload bits of the lead byte followed by six bits of each continuation
byte (spec section 4.2). -/
def spec_seq_value (tk : termkey_t) (nbytes : Nat) : Nat :=
  spec_payload tk (nbytes - 1) 1 (CHARAT tk 0 % 2 ^ (7 - nbytes))

/-- The scenario "push `input`, then decode one key": `termkey_pushinput` followed by
`getkey_simple`. -/
def push_then_getkey (fuel : Nat) (tk : termkey_t) (input : List Nat) (key : termkey_key) :
    Option (termkey_result × termkey_t × termkey_key) :=
  (termkey_pushinput fuel tk input).map (fun tk1 => getkey_simple tk1 key)

/-- A key object before any decode: the test declares it on the stack and reads it only
after `getkey` has filled it. -/
def blank_key : termkey_key :=
  { type := termkey_type.TERMKEY_TYPE_KEYSYM, code := 0, modifiers := 0,
    utf8 := List.replicate 7 0 }

/-- A fresh decoder (`termkey_new`, 256-byte buffer) into which `input` has been pushed with
`termkey_pushinput`, as the test does through the pipe; the fresh decoder itself if the push
does not return. -/
def decoder_holding (flags : Nat) (input : List Nat) : termkey_t :=
  (termkey_pushinput input.length (termkey_new 0 flags false) input).getD
    (termkey_new 0 flags false)

/-- The two checks of spec section 4.2 on a value `v` decoded from `nbytes` bytes: an
overlong form (`nbytes` above the minimal length of `v`), a surrogate `D800..DFFF` and the
non-characters `FFFE`, `FFFF` are replaced with `U+FFFD`. -/
def spec_checked (nbytes v : Nat) : Nat :=
  if utf8_seqlen v < nbytes then 0xFFFD
  else if (0xD800 ≤ v ∧ v ≤ 0xDFFF) ∨ v = 0xFFFE ∨ v = 0xFFFF then 0xFFFD
  else v

/-! ## Definitions for the registry, the readiness pump, the formatter and the driver -/

/-- Well-formed registry: the table `keynames` has `nkeynames` slots. -/
def registry_inv (tk : termkey_t) : Prop :=
  0 ≤ tk.nkeynames ∧ (tk.keynames.length : Int) = tk.nkeynames

instance (tk : termkey_t) : Decidable (registry_inv tk) := by
  unfold registry_inv; infer_instance

/-- System constant `EAGAIN` of `errno.h` (11 on Linux); the code only compares `errno` with
it. -/
def EAGAIN : Int := 11

/-- How a call of `termkey_advisereadable` ends: it returns a result code and the state; or
the growth loop of `termkey_pushinput` has not ended within the fuel; or
`termkey_pushinput` was called with an `inputlen` above the 64 bytes of the local array, whose
`memcpy` reads past the array (undefined behaviour). -/
inductive advise_outcome where
  | returned (res : termkey_result) (tk : termkey_t)
  | out_of_fuel
  | undefined_copy (inputlen : Nat)
  deriving DecidableEq

/-- The function `termkey_advisereadable` (termkey.c:483-498). The call
`read(tk->fd, buffer, sizeof buffer)` is an input: `ret` is its return value (`-1`, or the
number of bytes read, at most 64), `errno` the error number it left, and `buffer` the local
array after the call. `size_t len = read(...)` converts `ret` modulo `2 ^ 64`, and `len == -1`
compares `len` with `(size_t)-1`. -/
def termkey_advisereadable (fuel : Nat) (tk : termkey_t) (ret errno : Int) (buffer : List Nat) :
    advise_outcome :=
  let len : Nat := (ret % 2 ^ 64).toNat
  if len = 2 ^ 64 - 1 ∧ errno = EAGAIN then
    advise_outcome.returned termkey_result.TERMKEY_RES_NONE tk
  else if len < 1 then
    advise_outcome.returned termkey_result.TERMKEY_RES_NONE { tk with is_closed := true }
  else if len ≤ 64 then
    match termkey_pushinput fuel tk (buffer.take len) with
    | none => advise_outcome.out_of_fuel
    | some tk => advise_outcome.returned termkey_result.TERMKEY_RES_AGAIN tk
  else advise_outcome.undefined_copy len

/-- The canonical (shortest-form) UTF-8 encoding of a value below `2 ^ 31` in the 1 to 6 byte
scheme that `utf8_seqlen` counts (RFC 2279), written with `/` and `%`, independently of
`fill_utf8`; it agrees with `spec_utf8_encode` up to `0x10FFFF`. -/
def spec_utf8_encode_long (cp : Nat) : List Nat :=
  if cp < 0x80 then [cp]
  else if cp < 0x800 then [0xC0 + cp / 64, 0x80 + cp % 64]
  else if cp < 0x10000 then [0xE0 + cp / 4096, 0x80 + cp / 64 % 64, 0x80 + cp % 64]
  else if cp < 0x200000 then
    [0xF0 + cp / 262144, 0x80 + cp / 4096 % 64, 0x80 + cp / 64 % 64, 0x80 + cp % 64]
  else if cp < 0x4000000 then
    [0xF8 + cp / 16777216, 0x80 + cp / 262144 % 64, 0x80 + cp / 4096 % 64,
      0x80 + cp / 64 % 64, 0x80 + cp % 64]
  else
    [0xFC + cp / 1073741824, 0x80 + cp / 16777216 % 64, 0x80 + cp / 262144 % 64,
      0x80 + cp / 4096 % 64, 0x80 + cp / 64 % 64, 0x80 + cp % 64]

/-- Modelled from the spec: format bit `LongMod` of the missing header; the spec names the
bit and not its value, which is taken to be bit 0. -/
def TERMKEY_FORMAT_LONGMOD : Nat := 1

/-- Modelled from the spec: format bit `CaretCtrl` of the missing header, taken to be bit 1. -/
def TERMKEY_FORMAT_CARETCTRL : Nat := 2

/-- Modelled from the spec: format bit `AltIsMeta` of the missing header, taken to be bit 2. -/
def TERMKEY_FORMAT_ALTISMETA : Nat := 4

/-- Modelled from the spec: format bit `WrapBracket` of the missing header, taken to be
bit 3. -/
def TERMKEY_FORMAT_WRAPBRACKET : Nat := 8

/-- The bytes of a C string constant or key name. -/
def cstring (s : String) : List Nat :=
  (s.data.flatMap String.utf8EncodeChar).map UInt8.toNat

/-- The text `printf` writes for `%d`. -/
def format_d (n : Int) : List Nat :=
  if n < 0 then 0x2D :: (Nat.toDigits 10 n.natAbs).map Char.toNat
  else (Nat.toDigits 10 n.toNat).map Char.toNat

/-- The C library call `snprintf(buffer + pos, len - pos, ...)` on an output area large enough
for the text: the text is appended to what was written before and its length is returned. -/
def snprintf (out : List Nat) (text : List Nat) : List Nat × Nat :=
  (out ++ text, text.length)

/-- The `switch(key->type)` of `termkey_snprint_key` (termkey.c:606-616): the text of the
body; `none` when `%s` is given the `NULL` name of an unregistered slot, which is undefined
behaviour. The array `key->utf8` is read as a C string, up to its first NUL. -/
def snprint_key_body (tk : termkey_t) (key : termkey_key) : Option (List Nat) :=
  match key.type with
  | termkey_type.TERMKEY_TYPE_UNICODE => some (key.utf8.takeWhile (fun b => b ≠ 0))
  | termkey_type.TERMKEY_TYPE_KEYSYM => (termkey_get_keyname tk key.code).map cstring
  | termkey_type.TERMKEY_TYPE_FUNCTION => some (0x46 :: format_d key.code)

/-- The part of `termkey_snprint_key` from the label `do_codepoint` on
(termkey.c:604-627). -/
def snprint_key_do_codepoint (tk : termkey_t) (key : termkey_key) (wrapbracket : Bool)
    (out : List Nat) (pos : Nat) : Option (List Nat × Nat) :=
  match snprint_key_body tk key with
  | none => none
  | some text =>
    let r := snprintf out text
    if r.2 ≤ 0 then some (out, pos)
    else
      let out := r.1
      let pos := pos + r.2
      if wrapbracket then
        let r := snprintf out (cstring ">")
        if r.2 ≤ 0 then some (out, pos) else some (r.1, pos + r.2)
      else some (out, pos)

/-- The block `if(key->modifiers & TERMKEY_KEYMOD_SHIFT)` of `termkey_snprint_key`
(termkey.c:598-602) and what follows it. -/
def snprint_key_shift (tk : termkey_t) (key : termkey_key) (longmod : Nat)
    (wrapbracket : Bool) (out : List Nat) (pos : Nat) : Option (List Nat × Nat) :=
  if key.modifiers &&& TERMKEY_KEYMOD_SHIFT ≠ 0 then
    let r := snprintf out (if longmod ≠ 0 then cstring "Shift-" else cstring "S-")
    if r.2 ≤ 0 then some (out, pos)
    else snprint_key_do_codepoint tk key wrapbracket r.1 (pos + r.2)
  else snprint_key_do_codepoint tk key wrapbracket out pos

/-- The block `if(key->modifiers & TERMKEY_KEYMOD_CTRL)` of `termkey_snprint_key`
(termkey.c:592-596) and what follows it. -/
def snprint_key_ctrl (tk : termkey_t) (key : termkey_key) (longmod : Nat)
    (wrapbracket : Bool) (out : List Nat) (pos : Nat) : Option (List Nat × Nat) :=
  if key.modifiers &&& TERMKEY_KEYMOD_CTRL ≠ 0 then
    let r := snprintf out (if longmod ≠ 0 then cstring "Ctrl-" else cstring "C-")
    if r.2 ≤ 0 then some (out, pos)
    else snprint_key_shift tk key longmod wrapbracket r.1 (pos + r.2)
  else snprint_key_shift tk key longmod wrapbracket out pos

/-- The block `if(key->modifiers & TERMKEY_KEYMOD_ALT)` of `termkey_snprint_key`
(termkey.c:583-590) and what follows it. -/
def snprint_key_alt (tk : termkey_t) (key : termkey_key) (format longmod : Nat)
    (wrapbracket : Bool) (out : List Nat) (pos : Nat) : Option (List Nat × Nat) :=
  if key.modifiers &&& TERMKEY_KEYMOD_ALT ≠ 0 then
    let altismeta := format &&& TERMKEY_FORMAT_ALTISMETA
    let r := snprintf out
      (if longmod ≠ 0 then (if altismeta ≠ 0 then cstring "Meta-" else cstring "Alt-")
        else (if altismeta ≠ 0 then cstring "M-" else cstring "A-"))
    if r.2 ≤ 0 then some (out, pos)
    else snprint_key_ctrl tk key longmod wrapbracket r.1 (pos + r.2)
  else snprint_key_ctrl tk key longmod wrapbracket out pos

/-- The read of the `int` member `code.number` of a key whose `long` member `code.codepoint`
may have been the one written (termkey.c:574-575; `fill_utf8` and `emit_codepoint` use
`long codepoint`, `termkey_snprint_key` prints `number` with `%d`): the low 32 bits as a
signed value (`2147483648 = 2 ^ 31`, `4294967296 = 2 ^ 32`), the members of the union sharing their first bytes on the little-endian LP64
target. It is the code itself when the code fits an `int`. -/
def code_number (code : Int) : Int :=
  (code + 2147483648) % 4294967296 - 2147483648

/-- The block `if(format & TERMKEY_FORMAT_CARETCTRL)` of `termkey_snprint_key`
(termkey.c:571-581), whose inner branch jumps to `do_codepoint`, and what follows it. -/
def snprint_key_caret (tk : termkey_t) (key : termkey_key) (format longmod : Nat)
    (wrapbracket : Bool) (out : List Nat) (pos : Nat) : Option (List Nat × Nat) :=
  if format &&& TERMKEY_FORMAT_CARETCTRL ≠ 0 then
    if key.type = termkey_type.TERMKEY_TYPE_UNICODE ∧
        key.modifiers = TERMKEY_KEYMOD_CTRL ∧
        code_number key.code ≥ 0x40 ∧
        code_number key.code ≤ 0x5F then
      let r := snprintf out (cstring "^")
      if r.2 ≤ 0 then some (out, pos)
      else snprint_key_do_codepoint tk key wrapbracket r.1 (pos + r.2)
    else snprint_key_alt tk key format longmod wrapbracket out pos
  else snprint_key_alt tk key format longmod wrapbracket out pos

/-- The function `termkey_snprint_key` (termkey.c:555-628) on an output area large enough for
the result: returns the bytes written (without the terminating NUL) and the value returned.
`l` is a `size_t`, so `l <= 0` holds for `0` only. -/
def termkey_snprint_key (tk : termkey_t) (key : termkey_key) (format : Nat) :
    Option (List Nat × Nat) :=
  let pos := 0
  let longmod := format &&& TERMKEY_FORMAT_LONGMOD
  let wrapbracket : Bool :=
    decide (format &&& TERMKEY_FORMAT_WRAPBRACKET ≠ 0 ∧
      (key.type ≠ termkey_type.TERMKEY_TYPE_UNICODE ∨ key.modifiers ≠ 0))
  if wrapbracket then
    let r := snprintf [] (cstring "<")
    if r.2 ≤ 0 then some ([], pos)
    else snprint_key_caret tk key format longmod wrapbracket r.1 (pos + r.2)
  else snprint_key_caret tk key format longmod wrapbracket [] pos

/-- The rendering that spec section 6 and claim C17 describe, in their order: `<` when
`WrapBracket` is set and the key is non-Unicode or modified; then `^` alone for a Unicode key
with modifiers exactly Ctrl and code in `@`..`_` under `CaretCtrl`, or else the Alt, Ctrl and
Shift prefixes of the modifier bits present; then the body; then `>` when `<` was written. -/
def spec_render (key : termkey_key) (format : Nat) (body : List Nat) : List Nat :=
  let long := format &&& TERMKEY_FORMAT_LONGMOD ≠ 0
  let altmeta := format &&& TERMKEY_FORMAT_ALTISMETA ≠ 0
  let wrap := format &&& TERMKEY_FORMAT_WRAPBRACKET ≠ 0 ∧
    (key.type ≠ termkey_type.TERMKEY_TYPE_UNICODE ∨ key.modifiers ≠ 0)
  let caret := format &&& TERMKEY_FORMAT_CARETCTRL ≠ 0 ∧
    key.type = termkey_type.TERMKEY_TYPE_UNICODE ∧ key.modifiers = TERMKEY_KEYMOD_CTRL ∧
    0x40 ≤ key.code ∧ key.code ≤ 0x5F
  (if wrap then cstring "<" else []) ++
  (if caret then cstring "^"
    else
      (if key.modifiers &&& TERMKEY_KEYMOD_ALT ≠ 0 then
          (if altmeta then (if long then cstring "Meta-" else cstring "M-")
            else (if long then cstring "Alt-" else cstring "A-"))
        else []) ++
      (if key.modifiers &&& TERMKEY_KEYMOD_CTRL ≠ 0 then
          (if long then cstring "Ctrl-" else cstring "C-") else []) ++
      (if key.modifiers &&& TERMKEY_KEYMOD_SHIFT ≠ 0 then
          (if long then cstring "Shift-" else cstring "S-") else [])) ++
  body ++
  (if wrap then cstring ">" else [])

/-- Modelled from the spec: keysym `Up` of the missing header, seventh named key of the
enum (order of the pre-registered names of spec section 3). -/
def TERMKEY_SYM_UP : Int := 7

/-- Modelled from the spec: keysym `Right` of the missing header, tenth named key of the
enum. -/
def TERMKEY_SYM_RIGHT : Int := 10

/-- Modelled from the spec: the escape sequences of the CSI driver, whose source
(`termkey_driver_csi`) is missing; these are the two sequences the spec gives, `ESC O A` for
`Up` and `ESC O C` for `Right` (spec section 8, scenarios 3 and 4). -/
def csi_sequences : List (List Nat × Int) :=
  [([0x1B, 0x4F, 0x41], TERMKEY_SYM_UP), ([0x1B, 0x4F, 0x43], TERMKEY_SYM_RIGHT)]

/-- Whether the byte string `l` begins with the byte string `p`. -/
def starts_with : List Nat → List Nat → Bool
  | _, [] => true
  | [], _ :: _ => false
  | a :: l, b :: p => decide (a = b) && starts_with l p

/-- Modelled from the spec: the `getkey` method of the CSI driver, whose source
(`termkey_driver_csi`) is missing, after spec sections 4.3, 4.4 and 8. Empty buffer: `Eof`
when closed, else `None`. Head byte not `ESC`: the simple decoder. A lone `ESC`: the C0
mapping of `ESC`, one byte consumed, under `force`; `Again` without `force` when
`waittime > 0`; the spec does not say what happens otherwise (`none`). `ESC` followed by more
bytes: a known sequence at the head gives its `KeySym` without modifier and is consumed; a
head that is a proper beginning of a known sequence gives `Again`, buffer untouched; anything
else gives the C0 mapping of `ESC` and consumes that byte only. -/
def csi_getkey (tk : termkey_t) (key : termkey_key) (force : Bool) :
    Option (termkey_result × termkey_t × termkey_key) :=
  if tk.buffcount = 0 then
    some (if tk.is_closed then termkey_result.TERMKEY_RES_EOF
      else termkey_result.TERMKEY_RES_NONE, tk, key)
  else if CHARAT tk 0 ≠ 0x1b then some (getkey_simple tk key)
  else if tk.buffcount = 1 then
    if force then
      some (termkey_result.TERMKEY_RES_KEY, eat_bytes tk 1, emit_codepoint tk 0x1b key)
    else if tk.waittime > 0 then some (termkey_result.TERMKEY_RES_AGAIN, tk, key)
    else none
  else
    match csi_sequences.find? (fun e => starts_with (window tk) e.1) with
    | some e =>
      some (termkey_result.TERMKEY_RES_KEY, eat_bytes tk e.1.length,
        { key with type := termkey_type.TERMKEY_TYPE_KEYSYM, code := e.2, modifiers := 0 })
    | none =>
      if csi_sequences.any (fun e => starts_with e.1 (window tk)) then
        some (termkey_result.TERMKEY_RES_AGAIN, tk, key)
      else
        some (termkey_result.TERMKEY_RES_KEY, eat_bytes tk 1, emit_codepoint tk 0x1b key)

/-- The function `termkey_getkey` (termkey.c:422-425): `(*tk->driver.getkey)(tk, key, 0)`. The
driver bound to the decoder is a parameter. -/
def termkey_getkey
    (driver_getkey : termkey_t → termkey_key → Bool →
      Option (termkey_result × termkey_t × termkey_key))
    (tk : termkey_t) (key : termkey_key) : Option (termkey_result × termkey_t × termkey_key) :=
  driver_getkey tk key false

/-- The function `termkey_getkey_force` (termkey.c:427-430):
`(*tk->driver.getkey)(tk, key, 1)`. -/
def termkey_getkey_force
    (driver_getkey : termkey_t → termkey_key → Bool →
      Option (termkey_result × termkey_t × termkey_key))
    (tk : termkey_t) (key : termkey_key) : Option (termkey_result × termkey_t × termkey_key) :=
  driver_getkey tk key true

/-! ## The byte buffer -/

theorem memcpy_length (dst src : List Nat) (d s n : Nat) (hs : s + n ≤ src.length)
    (hd : d + n ≤ dst.length) : (memcpy dst d src s n).length = dst.length := by
  simp only [memcpy, List.length_append, List.length_take, List.length_drop]
  omega

theorem eat_bytes_buffsize (tk : termkey_t) (n : Nat) :
    (eat_bytes tk n).buffsize = tk.buffsize := by
  unfold eat_bytes
  split
  · rfl
  · dsimp only
    split <;> rfl

theorem eat_bytes_drain (tk : termkey_t) (n : Nat) (h : tk.buffcount ≤ n) :
    eat_bytes tk n = { tk with buffstart := 0, buffcount := 0 } := by
  unfold eat_bytes
  rw [if_pos h]

theorem eat_bytes_buffcount (tk : termkey_t) (n : Nat) :
    (eat_bytes tk n).buffcount = tk.buffcount - n := by
  unfold eat_bytes
  split
  · simp only; omega
  · dsimp only
    split <;> rfl

theorem eat_bytes_inv (tk : termkey_t) (n : Nat) (h : buffer_inv tk) :
    buffer_inv (eat_bytes tk n) := by
  obtain ⟨h1, h2⟩ := h
  unfold eat_bytes
  split
  · exact ⟨by simp, h2⟩
  · dsimp only
    split
    · refine ⟨by simp only; omega, ?_⟩
      simp only
      rw [memcpy_length _ _ _ _ _ (by omega) (by omega)]
      exact h2
    · exact ⟨by simp only; omega, h2⟩

/-! ## Shape of the results of `getkey_simple` -/

theorem getkey_simple_multibyte_shape (tk : termkey_t) (key : termkey_key) (nbytes cp : Nat) :
    (∃ n key1, nbytes ≤ tk.buffcount ∧ getkey_simple_multibyte tk key nbytes cp =
        (termkey_result.TERMKEY_RES_KEY, eat_bytes tk n, key1)) ∨
    (tk.buffcount < nbytes ∧ getkey_simple_multibyte tk key nbytes cp =
        (if tk.waittime ≠ 0 then termkey_result.TERMKEY_RES_AGAIN
          else termkey_result.TERMKEY_RES_NONE, tk, key)) := by
  unfold getkey_simple_multibyte
  by_cases h : tk.buffcount < nbytes
  · right
    exact ⟨h, by rw [if_pos h]⟩
  · left
    rw [if_neg h]
    cases getkey_simple_loop tk (nbytes - 1) 1 cp with
    | error b => exact ⟨_, _, Nat.le_of_not_gt h, rfl⟩
    | ok v => exact ⟨_, _, Nat.le_of_not_gt h, rfl⟩

theorem getkey_simple_shape (tk : termkey_t) (key : termkey_key) :
    (∃ n key1, (1 ≤ n ∨ 2 ≤ tk.buffcount) ∧ getkey_simple tk key =
        (termkey_result.TERMKEY_RES_KEY, eat_bytes tk n, key1)) ∨
    (∃ key1, tk.buffcount < 6 ∧ getkey_simple tk key =
        (if tk.waittime ≠ 0 then termkey_result.TERMKEY_RES_AGAIN
          else termkey_result.TERMKEY_RES_NONE, tk, key1)) := by
  have H : ∀ k n c, 2 ≤ n → n ≤ 6 →
      (∃ m key1, (1 ≤ m ∨ 2 ≤ tk.buffcount) ∧ getkey_simple_multibyte tk k n c =
        (termkey_result.TERMKEY_RES_KEY, eat_bytes tk m, key1)) ∨
      (∃ key1, tk.buffcount < 6 ∧ getkey_simple_multibyte tk k n c =
        (if tk.waittime ≠ 0 then termkey_result.TERMKEY_RES_AGAIN
          else termkey_result.TERMKEY_RES_NONE, tk, key1)) := by
    intro k n c hn2 hn
    rcases getkey_simple_multibyte_shape tk k n c with ⟨m, key1, h1, h2⟩ | ⟨h1, h2⟩
    · exact Or.inl ⟨m, key1, Or.inr (by omega), h2⟩
    · exact Or.inr ⟨_, by omega, h2⟩
  generalize (if tk.waittime ≠ 0 then termkey_result.TERMKEY_RES_AGAIN
          else termkey_result.TERMKEY_RES_NONE) = r at H ⊢
  unfold getkey_simple
  dsimp only
  split_ifs
  · exact Or.inl ⟨1, _, Or.inl (le_refl _), rfl⟩
  · exact Or.inl ⟨1, _, Or.inl (le_refl _), rfl⟩
  · exact H _ 2 _ (by omega) (by omega)
  · exact H _ 3 _ (by omega) (by omega)
  · exact H _ 4 _ (by omega) (by omega)
  · exact H _ 5 _ (by omega) (by omega)
  · exact H _ 6 _ (by omega) (by omega)
  · exact Or.inl ⟨1, _, Or.inl (le_refl _), rfl⟩
  · exact Or.inl ⟨1, _, Or.inl (le_refl _), rfl⟩

theorem getkey_simple_multibyte_result_indep (tk : termkey_t) (key1 key2 : termkey_key)
    (nbytes cp : Nat) :
    (getkey_simple_multibyte tk key1 nbytes cp).1
      = (getkey_simple_multibyte tk key2 nbytes cp).1 := by
  unfold getkey_simple_multibyte
  by_cases h : tk.buffcount < nbytes
  · rw [if_pos h, if_pos h]
  · rw [if_neg h, if_neg h]
    cases getkey_simple_loop tk (nbytes - 1) 1 cp <;> rfl

theorem getkey_simple_result_indep (tk : termkey_t) (key1 key2 : termkey_key) :
    (getkey_simple tk key1).1 = (getkey_simple tk key2).1 := by
  unfold getkey_simple
  dsimp only
  split_ifs <;> first | rfl | exact getkey_simple_multibyte_result_indep _ _ _ _ _

/-! ## Claims on the buffer -/

theorem termkey_register_keyname_frame (tk : termkey_t) (sym : Int) (name : Option String) :
    (termkey_register_keyname tk sym name).1.buffer = tk.buffer ∧
    (termkey_register_keyname tk sym name).1.buffstart = tk.buffstart ∧
    (termkey_register_keyname tk sym name).1.buffcount = tk.buffcount ∧
    (termkey_register_keyname tk sym name).1.buffsize = tk.buffsize ∧
    (termkey_register_keyname tk sym name).1.c0 = tk.c0 ∧
    (termkey_register_keyname tk sym name).1.flags = tk.flags := by
  unfold termkey_register_keyname
  dsimp only
  split_ifs <;> exact ⟨rfl, rfl, rfl, rfl, rfl, rfl⟩

theorem register_keynames_frame (l : List (Int × String)) (tk : termkey_t) :
    (l.foldl (fun t e => (termkey_register_keyname t e.1 (some e.2)).1) tk).buffer = tk.buffer ∧
    (l.foldl (fun t e => (termkey_register_keyname t e.1 (some e.2)).1) tk).buffstart
      = tk.buffstart ∧
    (l.foldl (fun t e => (termkey_register_keyname t e.1 (some e.2)).1) tk).buffcount
      = tk.buffcount ∧
    (l.foldl (fun t e => (termkey_register_keyname t e.1 (some e.2)).1) tk).buffsize
      = tk.buffsize ∧
    (l.foldl (fun t e => (termkey_register_keyname t e.1 (some e.2)).1) tk).c0 = tk.c0 ∧
    (l.foldl (fun t e => (termkey_register_keyname t e.1 (some e.2)).1) tk).flags = tk.flags := by
  induction l generalizing tk with
  | nil => exact ⟨rfl, rfl, rfl, rfl, rfl, rfl⟩
  | cons e l ih =>
    rw [List.foldl_cons]
    obtain ⟨a1, a2, a3, a4, a5, a6⟩ := ih (termkey_register_keyname tk e.1 (some e.2)).1
    obtain ⟨b1, b2, b3, b4, b5, b6⟩ := termkey_register_keyname_frame tk e.1 (some e.2)
    exact ⟨a1.trans b1, a2.trans b2, a3.trans b3, a4.trans b4, a5.trans b5, a6.trans b6⟩

theorem register_c0_frame (tk : termkey_t) (sym : Int) (ctrl : Nat) :
    (register_c0 tk sym ctrl none).1.buffer = tk.buffer ∧
    (register_c0 tk sym ctrl none).1.buffstart = tk.buffstart ∧
    (register_c0 tk sym ctrl none).1.buffcount = tk.buffcount ∧
    (register_c0 tk sym ctrl none).1.buffsize = tk.buffsize ∧
    (register_c0 tk sym ctrl none).1.flags = tk.flags := by
  unfold register_c0 register_c0_full
  split <;> exact ⟨rfl, rfl, rfl, rfl, rfl⟩

theorem termkey_new_full_buffer (fd : Int) (flags buffsize : Nat) (waittime : Int)
    (loc : Bool) :
    (termkey_new_full fd flags buffsize waittime loc).buffer = List.replicate buffsize 0 ∧
    (termkey_new_full fd flags buffsize waittime loc).buffstart = 0 ∧
    (termkey_new_full fd flags buffsize waittime loc).buffcount = 0 ∧
    (termkey_new_full fd flags buffsize waittime loc).buffsize = buffsize := by
  unfold termkey_new_full
  dsimp only
  simp only [register_c0_frame, register_keynames_frame, and_self]

theorem register_c0_c0 (tk : termkey_t) (sym : Int) (ctrl : Nat) (h : ctrl < 0x20) :
    (register_c0 tk sym ctrl none).1.c0 =
      tk.c0.set ctrl { sym := sym, modifier_mask := 0, modifier_set := 0 } := by
  unfold register_c0 register_c0_full
  rw [if_neg (by omega)]
  rfl

theorem termkey_new_full_c0 (fd : Int) (flags buffsize : Nat) (waittime : Int) (loc : Bool) :
    (termkey_new_full fd flags buffsize waittime loc).c0 =
      ((((List.replicate 32 { sym := TERMKEY_SYM_NONE, modifier_mask := 0, modifier_set := 0 }).set
        0x08 { sym := TERMKEY_SYM_BACKSPACE, modifier_mask := 0, modifier_set := 0 }).set
        0x09 { sym := TERMKEY_SYM_TAB, modifier_mask := 0, modifier_set := 0 }).set
        0x0d { sym := TERMKEY_SYM_ENTER, modifier_mask := 0, modifier_set := 0 }).set
        0x1b { sym := TERMKEY_SYM_ESCAPE, modifier_mask := 0, modifier_set := 0 } := by
  unfold termkey_new_full
  dsimp only
  rw [register_c0_c0 _ _ _ (by omega), register_c0_c0 _ _ _ (by omega),
    register_c0_c0 _ _ _ (by omega), register_c0_c0 _ _ _ (by omega)]
  rw [(register_keynames_frame _ _).2.2.2.2.1]

theorem pushinput_grow_spec (need : Nat) :
    ∀ (fuel size s1 : Nat), pushinput_grow need fuel size = some s1 →
      ∃ k, k ≤ fuel ∧ s1 = size * 2 ^ k ∧ need ≤ s1 ∧ ∀ j, j < k → size * 2 ^ j < need := by
  intro fuel
  induction fuel with
  | zero =>
    intro size s1 h
    unfold pushinput_grow at h
    by_cases hn : need > size
    · rw [if_pos hn] at h
      simp at h
    · rw [if_neg hn] at h
      injection h with h
      subst h
      exact ⟨0, le_refl _, by simp, by omega, by intro j hj; omega⟩
  | succ fuel ih =>
    intro size s1 h
    unfold pushinput_grow at h
    by_cases hn : need > size
    · rw [if_pos hn] at h
      dsimp only at h
      obtain ⟨k, hk, hs, hle, hlt⟩ := ih _ _ h
      refine ⟨k + 1, by omega, ?_, hle, ?_⟩
      · rw [hs, pow_succ]; ring
      · intro j hj
        cases j with
        | zero => simpa using hn
        | succ j =>
          have := hlt j (by omega)
          rw [pow_succ]
          calc size * (2 ^ j * 2) = size * 2 * 2 ^ j := by ring
            _ < need := this
    · rw [if_neg hn] at h
      injection h with h
      subst h
      exact ⟨0, by omega, by simp, by omega, by intro j hj; omega⟩

theorem pushinput_grow_total (need : Nat) :
    ∀ (fuel size : Nat), need ≤ size * 2 ^ fuel →
      ∃ s1, pushinput_grow need fuel size = some s1 := by
  intro fuel
  induction fuel with
  | zero =>
    intro size h
    unfold pushinput_grow
    rw [if_neg (by simpa using h)]
    exact ⟨_, rfl⟩
  | succ fuel ih =>
    intro size h
    unfold pushinput_grow
    by_cases hn : need > size
    · rw [if_pos hn]
      dsimp only
      apply ih
      rw [pow_succ] at h
      calc need ≤ size * (2 ^ fuel * 2) := h
        _ = size * 2 * 2 ^ fuel := by ring
    · rw [if_neg hn]
      exact ⟨_, rfl⟩

theorem realloc_of_le {α : Type} (p : List α) (n : Nat) (fill : α) (h : p.length ≤ n) :
    realloc p n fill = p ++ List.replicate (n - p.length) fill := by
  unfold realloc
  rw [List.take_of_length_le h]

theorem window_memcpy_tail (B input : List Nat) (start count : Nat)
    (h : start + count + input.length ≤ B.length) :
    ((memcpy B (start + count) input 0 input.length).drop start).take (count + input.length)
      = (B.drop start).take count ++ input := by
  unfold memcpy
  have h1 : (B.take (start + count)).length = start + count := by
    rw [List.length_take]; omega
  rw [List.drop_zero, List.take_length, List.append_assoc, List.drop_append_of_le_length (by omega)]
  have h2 : ((B.take (start + count)).drop start).length = count := by
    rw [List.length_drop, h1]; omega
  rw [← List.append_assoc, List.take_append_of_le_length (by rw [List.length_append, h2])]
  rw [List.take_of_length_le (by rw [List.length_append, h2])]
  congr 1
  rw [List.drop_take]
  congr 1
  omega

theorem termkey_pushinput_eq (tk : termkey_t) (input : List Nat) (fuel : Nat)
    (hinv : buffer_inv tk)
    (hfuel : tk.buffstart + tk.buffcount + input.length ≤ tk.buffsize * 2 ^ fuel) :
    ∃ k, k ≤ fuel ∧ tk.buffstart + tk.buffcount + input.length ≤ tk.buffsize * 2 ^ k ∧
      (∀ j, j < k → tk.buffsize * 2 ^ j < tk.buffstart + tk.buffcount + input.length) ∧
      termkey_pushinput fuel tk input = some { tk with
        buffsize := tk.buffsize * 2 ^ k,
        buffer := memcpy (realloc tk.buffer (tk.buffsize * 2 ^ k) 0)
          (tk.buffstart + tk.buffcount) input 0 input.length,
        buffcount := tk.buffcount + input.length } := by
  obtain ⟨h1, h2⟩ := hinv
  unfold termkey_pushinput
  dsimp only
  by_cases hgt : tk.buffstart + tk.buffcount + input.length > tk.buffsize
  · rw [if_pos hgt]
    obtain ⟨s1, hs1⟩ := pushinput_grow_total _ fuel tk.buffsize hfuel
    obtain ⟨k, hk, hs, hle, hlt⟩ := pushinput_grow_spec _ _ _ _ hs1
    rw [hs1]
    subst hs
    exact ⟨k, hk, hle, hlt, rfl⟩
  · rw [if_neg hgt]
    refine ⟨0, Nat.zero_le _, by simpa using Nat.le_of_not_gt hgt, by intro j hj; omega, ?_⟩
    have hr : realloc tk.buffer (tk.buffsize * 2 ^ 0) 0 = tk.buffer := by
      rw [realloc_of_le _ _ _ (by simp [h2])]
      simp [h2]
    rw [hr]
    simp

theorem pushinput_fuel_exists (size need : Nat) (h : 0 < size) : need ≤ size * 2 ^ need :=
  calc need ≤ 2 ^ need := Nat.le_of_lt (Nat.lt_two_pow need)
    _ = 1 * 2 ^ need := (Nat.one_mul _).symm
    _ ≤ size * 2 ^ need := Nat.mul_le_mul_right _ h

theorem pushinput_grow_zero_size (need : Nat) (h : 0 < need) :
    ∀ fuel, pushinput_grow need fuel 0 = none := by
  intro fuel
  induction fuel with
  | zero =>
    unfold pushinput_grow
    rw [if_pos h]
  | succ fuel ih =>
    unfold pushinput_grow
    rw [if_pos h]
    exact ih

theorem pushed_window (tk : termkey_t) (input : List Nat) (k : Nat) (hinv : buffer_inv tk)
    (hle : tk.buffstart + tk.buffcount + input.length ≤ tk.buffsize * 2 ^ k) :
    window { tk with
        buffsize := tk.buffsize * 2 ^ k,
        buffer := memcpy (realloc tk.buffer (tk.buffsize * 2 ^ k) 0)
          (tk.buffstart + tk.buffcount) input 0 input.length,
        buffcount := tk.buffcount + input.length }
      = window tk ++ input := by
  obtain ⟨h1, h2⟩ := hinv
  have hsz : tk.buffsize ≤ tk.buffsize * 2 ^ k := Nat.le_mul_of_pos_right _ (by positivity)
  have hlen : (realloc tk.buffer (tk.buffsize * 2 ^ k) 0).length = tk.buffsize * 2 ^ k := by
    rw [realloc_of_le _ _ _ (by omega), List.length_append, List.length_replicate]
    omega
  unfold window
  dsimp only
  rw [window_memcpy_tail _ _ _ _ (by omega)]
  congr 1
  rw [realloc_of_le _ _ _ (by omega), List.drop_append_of_le_length (by omega),
    List.take_append_of_le_length (by rw [List.length_drop]; omega)]

theorem pushed_inv (tk : termkey_t) (input : List Nat) (k : Nat) (hinv : buffer_inv tk)
    (hle : tk.buffstart + tk.buffcount + input.length ≤ tk.buffsize * 2 ^ k) :
    buffer_inv { tk with
        buffsize := tk.buffsize * 2 ^ k,
        buffer := memcpy (realloc tk.buffer (tk.buffsize * 2 ^ k) 0)
          (tk.buffstart + tk.buffcount) input 0 input.length,
        buffcount := tk.buffcount + input.length } := by
  obtain ⟨h1, h2⟩ := hinv
  have hsz : tk.buffsize ≤ tk.buffsize * 2 ^ k := Nat.le_mul_of_pos_right _ (by positivity)
  have hlen : (realloc tk.buffer (tk.buffsize * 2 ^ k) 0).length = tk.buffsize * 2 ^ k := by
    rw [realloc_of_le _ _ _ (by omega), List.length_append, List.length_replicate]
    omega
  refine ⟨?_, ?_⟩
  · dsimp only
    omega
  · dsimp only
    rw [memcpy_length _ _ _ _ _ (by omega) (by omega), hlen]

/-- C9 (as amended): for every buffer state with `start + count ≤ size` and every input for
which some number of doublings makes room (`start + count + len ≤ size * 2 ^ fuel`, which
`pushinput_fuel_exists` provides whenever `size ≥ 1`), `termkey_pushinput` returns within that
fuel with `start` unchanged, `count` grown by `len`, `size` multiplied by `2 ^ k` for the
least `k` that makes room (so unchanged when the input fits), and a readable window equal to
the old window followed by the input. -/
theorem termkey_pushinput_appends (tk : termkey_t) (input : List Nat) (fuel : Nat)
    (hinv : buffer_inv tk)
    (hfuel : tk.buffstart + tk.buffcount + input.length ≤ tk.buffsize * 2 ^ fuel) :
    ∃ k tk1, termkey_pushinput fuel tk input = some tk1 ∧
      tk1.buffstart = tk.buffstart ∧
      tk1.buffcount = tk.buffcount + input.length ∧
      tk1.buffsize = tk.buffsize * 2 ^ k ∧
      tk.buffstart + tk.buffcount + input.length ≤ tk.buffsize * 2 ^ k ∧
      (∀ j, j < k → tk.buffsize * 2 ^ j < tk.buffstart + tk.buffcount + input.length) ∧
      window tk1 = window tk ++ input ∧
      buffer_inv tk1 := by
  obtain ⟨k, -, hle, hlt, heq⟩ := termkey_pushinput_eq tk input fuel hinv hfuel
  exact ⟨k, _, heq, rfl, rfl, rfl, hle, hlt, pushed_window tk input k hinv hle,
    pushed_inv tk input k hinv hle⟩

/-- C9, witness of `termkey_pushinput_appends`: four bytes pushed into the empty one-byte
buffer of a fresh decoder take two doublings. -/
theorem termkey_pushinput_appends_witness :
    buffer_inv (termkey_new_full 0 0 1 50 false) ∧
    ∃ k tk1, termkey_pushinput 2 (termkey_new_full 0 0 1 50 false) [0xF0, 0x9F, 0x98, 0x80]
        = some tk1 ∧
      tk1.buffstart = (termkey_new_full 0 0 1 50 false).buffstart ∧
      tk1.buffcount
        = (termkey_new_full 0 0 1 50 false).buffcount + [0xF0, 0x9F, 0x98, 0x80].length ∧
      tk1.buffsize = (termkey_new_full 0 0 1 50 false).buffsize * 2 ^ k ∧
      (termkey_new_full 0 0 1 50 false).buffstart + (termkey_new_full 0 0 1 50 false).buffcount
        + [0xF0, 0x9F, 0x98, 0x80].length ≤ (termkey_new_full 0 0 1 50 false).buffsize * 2 ^ k ∧
      (∀ j, j < k → (termkey_new_full 0 0 1 50 false).buffsize * 2 ^ j <
        (termkey_new_full 0 0 1 50 false).buffstart
          + (termkey_new_full 0 0 1 50 false).buffcount + [0xF0, 0x9F, 0x98, 0x80].length) ∧
      window tk1 = window (termkey_new_full 0 0 1 50 false) ++ [0xF0, 0x9F, 0x98, 0x80] ∧
      buffer_inv tk1 := by
  obtain ⟨h1, h2, h3, h4⟩ := termkey_new_full_buffer 0 0 1 50 false
  have hinv : buffer_inv (termkey_new_full 0 0 1 50 false) := by
    unfold buffer_inv
    rw [h1, h2, h3, h4]
    decide
  refine ⟨hinv, termkey_pushinput_appends _ _ 2 hinv ?_⟩
  rw [h2, h3, h4]
  decide

/-- C9, counterexample to the claim as stated: a decoder constructed with `buffsize = 0`
satisfies `start + count ≤ size`, yet pushing one byte never returns, whatever the fuel; and
no `k` has `start + count + len ≤ size * 2 ^ k`. -/
theorem termkey_pushinput_zero_size_diverges :
    buffer_inv (termkey_new_full 0 0 0 50 false) ∧
    (¬ ∃ fuel, (termkey_pushinput fuel (termkey_new_full 0 0 0 50 false) [0x68]).isSome = true) ∧
    ¬ ∃ k, (termkey_new_full 0 0 0 50 false).buffstart
        + (termkey_new_full 0 0 0 50 false).buffcount + [0x68].length
        ≤ (termkey_new_full 0 0 0 50 false).buffsize * 2 ^ k := by
  obtain ⟨h1, h2, h3, h4⟩ := termkey_new_full_buffer 0 0 0 50 false
  refine ⟨?_, ?_, ?_⟩
  · unfold buffer_inv
    rw [h1, h2, h3, h4]
    decide
  · rintro ⟨fuel, hf⟩
    unfold termkey_pushinput at hf
    dsimp only at hf
    rw [h2, h3, h4] at hf
    rw [if_pos (by decide), pushinput_grow_zero_size _ (by decide)] at hf
    simp at hf
  · rintro ⟨k, hk⟩
    rw [h2, h3, h4] at hk
    simp at hk

theorem termkey_pushinput_some_fuel (tk tk1 : termkey_t) (input : List Nat) (fuel : Nat)
    (h : termkey_pushinput fuel tk input = some tk1) :
    tk.buffstart + tk.buffcount + input.length ≤ tk.buffsize * 2 ^ fuel := by
  unfold termkey_pushinput at h
  dsimp only at h
  by_cases hgt : tk.buffstart + tk.buffcount + input.length > tk.buffsize
  · rw [if_pos hgt] at h
    cases hg : pushinput_grow (tk.buffstart + tk.buffcount + input.length) fuel tk.buffsize with
    | none => rw [hg] at h; simp at h
    | some s1 =>
      obtain ⟨k, hk, hs, hle, -⟩ := pushinput_grow_spec _ _ _ _ hg
      calc tk.buffstart + tk.buffcount + input.length ≤ s1 := hle
        _ = tk.buffsize * 2 ^ k := hs
        _ ≤ tk.buffsize * 2 ^ fuel :=
          Nat.mul_le_mul_left _ (Nat.pow_le_pow_right (by decide) hk)
  · calc tk.buffstart + tk.buffcount + input.length ≤ tk.buffsize := Nat.le_of_not_gt hgt
      _ ≤ tk.buffsize * 2 ^ fuel := Nat.le_mul_of_pos_right _ (by positivity)

theorem getkey_simple_inv (tk : termkey_t) (key : termkey_key) (h : buffer_inv tk) :
    buffer_inv (getkey_simple tk key).2.1 := by
  rcases getkey_simple_shape tk key with ⟨n, key1, -, he⟩ | ⟨key1, -, he⟩
  · rw [he]; exact eat_bytes_inv tk n h
  · rw [he]; exact h

/-- C7: the buffer invariant `start + count ≤ size` (with the allocation holding `size`
bytes) holds after `termkey_new_full`; every `termkey_pushinput` that returns preserves it,
and one that starts from a buffer of capacity at least 1 does return given enough fuel;
`eat_bytes n` preserves it for every `n`; `getkey_simple` on a non-empty buffer preserves
it; and it gives `count ≤ size`, `remaining() ≤ size` and `remaining() + count = size`. -/
theorem buffer_invariant_preserved :
    (∀ fd flags buffsize waittime loc,
      buffer_inv (termkey_new_full fd flags buffsize waittime loc)) ∧
    (∀ tk input fuel tk1, buffer_inv tk → termkey_pushinput fuel tk input = some tk1 →
      buffer_inv tk1) ∧
    (∀ tk input, buffer_inv tk → 0 < tk.buffsize →
      ∃ fuel tk1, termkey_pushinput fuel tk input = some tk1 ∧ buffer_inv tk1) ∧
    (∀ tk n, buffer_inv tk → buffer_inv (eat_bytes tk n)) ∧
    (∀ tk key, buffer_inv tk → 1 ≤ tk.buffcount → buffer_inv (getkey_simple tk key).2.1) ∧
    (∀ tk, buffer_inv tk →
      tk.buffcount ≤ tk.buffsize ∧ termkey_get_buffer_remaining tk ≤ tk.buffsize ∧
      termkey_get_buffer_remaining tk + tk.buffcount = tk.buffsize) := by
  refine ⟨?_, ?_, ?_, ?_, ?_, ?_⟩
  · intro fd flags buffsize waittime loc
    obtain ⟨h1, h2, h3, h4⟩ := termkey_new_full_buffer fd flags buffsize waittime loc
    unfold buffer_inv
    rw [h1, h2, h3, h4, List.length_replicate]
    exact ⟨Nat.zero_le _, rfl⟩
  · intro tk input fuel tk1 hinv h
    obtain ⟨k, -, hle, -, h2⟩ :=
      termkey_pushinput_eq tk input fuel hinv (termkey_pushinput_some_fuel _ _ _ _ h)
    rw [h] at h2
    injection h2 with h2
    rw [h2]
    exact pushed_inv tk input k hinv hle
  · intro tk input hinv hsz
    obtain ⟨k, -, hle, -, h2⟩ :=
      termkey_pushinput_eq tk input _ hinv (pushinput_fuel_exists tk.buffsize _ hsz)
    exact ⟨_, _, h2, pushed_inv tk input k hinv hle⟩
  · intro tk n h
    exact eat_bytes_inv tk n h
  · intro tk key h _
    exact getkey_simple_inv tk key h
  · intro tk h
    unfold termkey_get_buffer_remaining
    obtain ⟨h1, -⟩ := h
    omega

set_option maxRecDepth 100000 in
/-- C8: for every buffer state and every `n ≥ count`, `eat_bytes n` sets `start = 0` and
`count = 0` and keeps `size`, so `remaining() = size`; hence whenever `getkey_simple`
returns a key and has used every buffered byte (no byte is left), and in particular whenever it
returns a key from a buffer holding a single byte, `remaining()` is `size` again with
`start = 0`; the byte `h` in the 256-byte buffer of a fresh decoder is an instance. -/
theorem drain_restores_free_space :
    (∀ tk n, tk.buffcount ≤ n →
      (eat_bytes tk n).buffstart = 0 ∧ (eat_bytes tk n).buffcount = 0 ∧
      (eat_bytes tk n).buffsize = tk.buffsize ∧
      termkey_get_buffer_remaining (eat_bytes tk n) = tk.buffsize) ∧
    (∀ tk key, (getkey_simple tk key).1 = termkey_result.TERMKEY_RES_KEY →
      (getkey_simple tk key).2.1.buffcount = 0 →
      (getkey_simple tk key).2.1.buffstart = 0 ∧
      termkey_get_buffer_remaining (getkey_simple tk key).2.1 = tk.buffsize) ∧
    (∀ tk key, tk.buffcount = 1 →
      (getkey_simple tk key).1 = termkey_result.TERMKEY_RES_KEY →
      (getkey_simple tk key).2.1.buffstart = 0 ∧ (getkey_simple tk key).2.1.buffcount = 0 ∧
      termkey_get_buffer_remaining (getkey_simple tk key).2.1 = tk.buffsize) ∧
    (∃ tk1, termkey_pushinput 0 (termkey_new 0 0 false) [0x68] = some tk1 ∧
      termkey_get_buffer_remaining tk1 = 255 ∧
      (getkey_simple tk1 blank_key).1 = termkey_result.TERMKEY_RES_KEY ∧
      (getkey_simple tk1 blank_key).2.2.code = 0x68 ∧
      termkey_get_buffer_remaining (getkey_simple tk1 blank_key).2.1 = 256) := by
  refine ⟨?_, ?_, ?_, ?_⟩
  · intro tk n h
    rw [eat_bytes_drain tk n h]
    exact ⟨rfl, rfl, rfl, by simp [termkey_get_buffer_remaining]⟩
  · intro tk key hk hc
    rcases getkey_simple_shape tk key with ⟨n, key1, -, he⟩ | ⟨key1, -, he⟩
    · rw [he] at hc ⊢
      dsimp only at hc ⊢
      have hcnt := eat_bytes_buffcount tk n
      have hn : tk.buffcount ≤ n := by omega
      rw [eat_bytes_drain tk n hn]
      exact ⟨rfl, by simp [termkey_get_buffer_remaining]⟩
    · rw [he] at hk
      dsimp only at hk
      split_ifs at hk
  · intro tk key h1 hk
    rcases getkey_simple_shape tk key with ⟨n, key1, hn, he⟩ | ⟨key1, -, he⟩
    · rw [he]
      dsimp only
      rw [eat_bytes_drain tk n (by omega)]
      exact ⟨rfl, rfl, by simp [termkey_get_buffer_remaining]⟩
    · rw [he] at hk
      dsimp only at hk
      split_ifs at hk
  · refine ⟨_, rfl, ?_, ?_, ?_, ?_⟩
    · decide
    · decide
    · decide
    · decide

/-! ## The code-point emitter -/

theorem fill_utf8_fields (key : termkey_key) :
    (fill_utf8 key).type = key.type ∧ (fill_utf8 key).code = key.code ∧
    (fill_utf8 key).modifiers = key.modifiers :=
  ⟨rfl, rfl, rfl⟩

theorem emit_codepoint_c0 (tk : termkey_t) (cp : Nat) (key : termkey_key) (h : cp < 0x20) :
    emit_codepoint tk cp key =
      if tk.flags &&& TERMKEY_FLAG_NOINTERPRET = 0 ∧
          (tk.c0.getD cp { sym := 0, modifier_mask := 0, modifier_set := 0 }).sym
            ≠ TERMKEY_SYM_UNKNOWN ∧
          (tk.c0.getD cp { sym := 0, modifier_mask := 0, modifier_set := 0 }).sym ≠ 0 then
        { key with
          type := termkey_type.TERMKEY_TYPE_KEYSYM,
          code := (tk.c0.getD cp { sym := 0, modifier_mask := 0, modifier_set := 0 }).sym,
          modifiers :=
            0 ||| (tk.c0.getD cp { sym := 0, modifier_mask := 0, modifier_set := 0 }).modifier_set }
      else
        fill_utf8 { key with
          type := termkey_type.TERMKEY_TYPE_UNICODE,
          code := (cp : Int) + 0x40,
          modifiers := TERMKEY_KEYMOD_CTRL } := by
  unfold emit_codepoint
  rw [if_pos h]
  dsimp only
  generalize tk.c0.getD cp { sym := 0, modifier_mask := 0, modifier_set := 0 } = entry
  unfold TERMKEY_SYM_UNKNOWN
  by_cases hA : tk.flags &&& TERMKEY_FLAG_NOINTERPRET = 0 <;>
  by_cases hB : entry.sym = -1 <;>
  by_cases hC : entry.sym = 0 <;>
  simp [hA, hB, hC]

theorem emit_codepoint_high (tk : termkey_t) (cp : Nat) (key : termkey_key) (h : 0xa0 ≤ cp) :
    emit_codepoint tk cp key =
      fill_utf8 { key with
        type := termkey_type.TERMKEY_TYPE_UNICODE, code := (cp : Int), modifiers := 0 } := by
  unfold emit_codepoint
  split_ifs <;> first | rfl | omega

theorem emit_codepoint_printable (tk : termkey_t) (cp : Nat) (key : termkey_key)
    (h1 : 0x21 ≤ cp) (h2 : cp ≤ 0x7e) :
    emit_codepoint tk cp key =
      fill_utf8 { key with
        type := termkey_type.TERMKEY_TYPE_UNICODE, code := (cp : Int), modifiers := 0 } := by
  unfold emit_codepoint
  split_ifs <;> first | rfl | omega

/-! ## Claims on control bytes and on results -/

theorem getkey_simple_single (tk : termkey_t) (key : termkey_key) (h : CHARAT tk 0 < 0xa0) :
    getkey_simple tk key =
      (termkey_result.TERMKEY_RES_KEY, eat_bytes tk 1, emit_codepoint tk (CHARAT tk 0) key) := by
  unfold getkey_simple
  dsimp only
  rw [if_pos h]

/-- C10: for every decoder state with a non-empty buffer, when `getkey_simple` returns
`TERMKEY_RES_NONE` or `TERMKEY_RES_AGAIN` the whole decoder state, hence `start`, `count`,
`size` and every buffered byte, is the one before the call, and calling it again, with any key
object, returns the same result. -/
theorem getkey_simple_none_again_unchanged (tk : termkey_t) (key : termkey_key)
    (_hcount : 1 ≤ tk.buffcount)
    (h : (getkey_simple tk key).1 = termkey_result.TERMKEY_RES_NONE ∨
      (getkey_simple tk key).1 = termkey_result.TERMKEY_RES_AGAIN) :
    (getkey_simple tk key).2.1 = tk ∧
    ∀ key2, (getkey_simple (getkey_simple tk key).2.1 key2).1 = (getkey_simple tk key).1 := by
  have hsame : (getkey_simple tk key).2.1 = tk := by
    rcases getkey_simple_shape tk key with ⟨n, key1, -, he⟩ | ⟨key1, -, he⟩
    · rw [he] at h
      dsimp only at h
      rcases h with h | h <;> cases h
    · rw [he]
  refine ⟨hsame, ?_⟩
  intro key2
  rw [hsame]
  exact getkey_simple_result_indep tk key2 key

set_option maxRecDepth 100000 in
/-- C10, witness of `getkey_simple_none_again_unchanged`: the lone lead byte `0xC3` in UTF-8
mode gives `TERMKEY_RES_AGAIN` and leaves the decoder as it was. -/
theorem getkey_simple_none_again_unchanged_witness :
    (getkey_simple (decoder_holding TERMKEY_FLAG_UTF8 [0xC3]) blank_key).1
      = termkey_result.TERMKEY_RES_AGAIN ∧
    (getkey_simple (decoder_holding TERMKEY_FLAG_UTF8 [0xC3]) blank_key).2.1
      = decoder_holding TERMKEY_FLAG_UTF8 [0xC3] ∧
    ∀ key2, (getkey_simple
        (getkey_simple (decoder_holding TERMKEY_FLAG_UTF8 [0xC3]) blank_key).2.1 key2).1
      = (getkey_simple (decoder_holding TERMKEY_FLAG_UTF8 [0xC3]) blank_key).1 :=
  ⟨by decide,
    getkey_simple_none_again_unchanged (decoder_holding TERMKEY_FLAG_UTF8 [0xC3]) blank_key
      (by decide) (Or.inr (by decide))⟩

theorem getkey_simple_loop_error (tk : termkey_t) :
    ∀ (n b cp e : Nat), getkey_simple_loop tk n b cp = .error e →
      b ≤ e ∧ e < b + n ∧ (CHARAT tk e < 0x80 ∨ 0xc0 ≤ CHARAT tk e) := by
  intro n
  induction n with
  | zero =>
    intro b cp e h
    unfold getkey_simple_loop at h
    cases h
  | succ n ih =>
    intro b cp e h
    unfold getkey_simple_loop at h
    dsimp only at h
    by_cases hb : CHARAT tk b < 0x80 ∨ CHARAT tk b ≥ 0xc0
    · rw [if_pos hb] at h
      injection h with h
      subst h
      exact ⟨le_refl _, by omega, hb⟩
    · rw [if_neg hb] at h
      obtain ⟨h1, h2, h3⟩ := ih _ _ _ h
      exact ⟨by omega, by omega, h3⟩

theorem getkey_simple_multibyte_advances (tk : termkey_t) (key : termkey_key)
    (nbytes cp : Nat) (hn : 2 ≤ nbytes)
    (hk : (getkey_simple_multibyte tk key nbytes cp).1 = termkey_result.TERMKEY_RES_KEY) :
    (getkey_simple_multibyte tk key nbytes cp).2.1.buffcount < tk.buffcount ∨
    ((getkey_simple_multibyte tk key nbytes cp).2.1.buffcount = tk.buffcount ∧
      (CHARAT tk 1 < 0x80 ∨ 0xc0 ≤ CHARAT tk 1)) := by
  unfold getkey_simple_multibyte at hk ⊢
  by_cases h : tk.buffcount < nbytes
  · rw [if_pos h] at hk
    dsimp only at hk
    split_ifs at hk
  · rw [if_neg h] at hk ⊢
    cases hl : getkey_simple_loop tk (nbytes - 1) 1 cp with
    | error e =>
      obtain ⟨h1, h2, h3⟩ := getkey_simple_loop_error tk _ _ _ _ hl
      dsimp only
      rw [eat_bytes_buffcount]
      by_cases he : e = 1
      · subst he
        exact Or.inr ⟨by omega, h3⟩
      · exact Or.inl (by omega)
    | ok v =>
      dsimp only
      rw [eat_bytes_buffcount]
      exact Or.inl (by omega)

/-- Every Key result of `getkey_simple` on a non-empty buffer lowers the byte count, except
on one path, where the count is unchanged: UTF-8 mode, a lead byte in `0xC0..0xFD`, and a byte
at offset 1 that is not a continuation byte (`eat_bytes (b - 1)` with `b = 1`). -/
theorem getkey_simple_advances_unless (tk : termkey_t) (key : termkey_key)
    (hcount : 1 ≤ tk.buffcount)
    (hk : (getkey_simple tk key).1 = termkey_result.TERMKEY_RES_KEY) :
    (getkey_simple tk key).2.1.buffcount < tk.buffcount ∨
    ((getkey_simple tk key).2.1.buffcount = tk.buffcount ∧
      tk.flags &&& TERMKEY_FLAG_UTF8 ≠ 0 ∧ 0xC0 ≤ CHARAT tk 0 ∧ CHARAT tk 0 ≤ 0xFD ∧
      (CHARAT tk 1 < 0x80 ∨ 0xc0 ≤ CHARAT tk 1)) := by
  have hM : ∀ k n c, 2 ≤ n → tk.flags &&& TERMKEY_FLAG_UTF8 ≠ 0 → 0xC0 ≤ CHARAT tk 0 →
      CHARAT tk 0 ≤ 0xFD →
      (getkey_simple_multibyte tk k n c).1 = termkey_result.TERMKEY_RES_KEY →
      (getkey_simple_multibyte tk k n c).2.1.buffcount < tk.buffcount ∨
      ((getkey_simple_multibyte tk k n c).2.1.buffcount = tk.buffcount ∧
        tk.flags &&& TERMKEY_FLAG_UTF8 ≠ 0 ∧ 0xC0 ≤ CHARAT tk 0 ∧ CHARAT tk 0 ≤ 0xFD ∧
        (CHARAT tk 1 < 0x80 ∨ 0xc0 ≤ CHARAT tk 1)) := by
    intro k n c hn hu h1 h2 hkey
    rcases getkey_simple_multibyte_advances tk k n c hn hkey with h | ⟨h, h3⟩
    · exact Or.inl h
    · exact Or.inr ⟨h, hu, h1, h2, h3⟩
  have hE : (eat_bytes tk 1).buffcount < tk.buffcount := by
    rw [eat_bytes_buffcount]
    omega
  unfold getkey_simple at hk ⊢
  dsimp only at hk ⊢
  split_ifs at hk ⊢ with c1 c2 c3 c4 c5 c6 c7 c8
  · exact Or.inl hE
  · exact Or.inl hE
  · exact hM _ _ _ (by omega) c2 (by omega) (by omega) hk
  · exact hM _ _ _ (by omega) c2 (by omega) (by omega) hk
  · exact hM _ _ _ (by omega) c2 (by omega) (by omega) hk
  · exact hM _ _ _ (by omega) c2 (by omega) (by omega) hk
  · exact hM _ _ _ (by omega) c2 (by omega) (by omega) hk
  · exact Or.inl hE
  · exact Or.inl hE

set_option maxRecDepth 100000 in
/-- C2, the code at the failing input: in UTF-8 mode, with the lead byte `0xC3` followed by
the non-continuation byte `0x41`, `getkey_simple` returns `TERMKEY_RES_KEY` with `U+FFFD`
and the buffer still holds both bytes from the same start: nothing was consumed. -/
theorem getkey_simple_key_without_advance :
    buffer_inv (decoder_holding TERMKEY_FLAG_UTF8 [0xC3, 0x41]) ∧
    (decoder_holding TERMKEY_FLAG_UTF8 [0xC3, 0x41]).flags &&& TERMKEY_FLAG_UTF8 ≠ 0 ∧
    (decoder_holding TERMKEY_FLAG_UTF8 [0xC3, 0x41]).buffcount = 2 ∧
    window (decoder_holding TERMKEY_FLAG_UTF8 [0xC3, 0x41]) = [0xC3, 0x41] ∧
    (getkey_simple (decoder_holding TERMKEY_FLAG_UTF8 [0xC3, 0x41]) blank_key).1
      = termkey_result.TERMKEY_RES_KEY ∧
    (getkey_simple (decoder_holding TERMKEY_FLAG_UTF8 [0xC3, 0x41]) blank_key).2.2.code
      = 0xFFFD ∧
    (getkey_simple (decoder_holding TERMKEY_FLAG_UTF8 [0xC3, 0x41]) blank_key).2.1
      = decoder_holding TERMKEY_FLAG_UTF8 [0xC3, 0x41] := by
  refine ⟨?_, ?_, ?_, ?_, ?_, ?_, ?_⟩
  · decide
  · decide
  · decide
  · decide
  · decide
  · decide
  · decide!

theorem default_c0_sym (c : Nat) (h1 : 1 ≤ c) (h2 : c ≤ 0x1A) :
    ((termkey_new 0 0 false).c0.getD c { sym := 0, modifier_mask := 0, modifier_set := 0 }) =
      { sym := if c = 0x08 then TERMKEY_SYM_BACKSPACE else if c = 0x09 then TERMKEY_SYM_TAB
          else if c = 0x0d then TERMKEY_SYM_ENTER else TERMKEY_SYM_NONE,
        modifier_mask := 0, modifier_set := 0 } := by
  unfold termkey_new
  rw [termkey_new_full_c0]
  interval_cases c <;> rfl

/-- C3 (as amended): with the default C0 table of `termkey_new_full` and `NoInterpret`
unset, decoding a buffer whose head byte is a control byte `c` in `0x01..0x1A` returns Key;
for `c` other than `0x08`, `0x09` and `0x0D` the key is Unicode with codepoint `c + 0x40`
and modifiers Ctrl, and for the three registered bytes it is the KeySym Backspace, Tab or
Enter with no modifier. -/
theorem getkey_simple_c0_byte (tk : termkey_t) (key : termkey_key) (c : Nat)
    (hc0 : tk.c0 = (termkey_new 0 0 false).c0)
    (hni : tk.flags &&& TERMKEY_FLAG_NOINTERPRET = 0)
    (_hcount : 1 ≤ tk.buffcount) (hb : CHARAT tk 0 = c) (h1 : 1 ≤ c) (h2 : c ≤ 0x1A) :
    (getkey_simple tk key).1 = termkey_result.TERMKEY_RES_KEY ∧
    (c ≠ 0x08 → c ≠ 0x09 → c ≠ 0x0d →
      (getkey_simple tk key).2.2.type = termkey_type.TERMKEY_TYPE_UNICODE ∧
      (getkey_simple tk key).2.2.code = (c : Int) + 0x40 ∧
      (getkey_simple tk key).2.2.modifiers = TERMKEY_KEYMOD_CTRL) ∧
    (c = 0x08 ∨ c = 0x09 ∨ c = 0x0d →
      (getkey_simple tk key).2.2.type = termkey_type.TERMKEY_TYPE_KEYSYM ∧
      (getkey_simple tk key).2.2.code =
        (if c = 0x08 then TERMKEY_SYM_BACKSPACE else if c = 0x09 then TERMKEY_SYM_TAB
          else TERMKEY_SYM_ENTER) ∧
      (getkey_simple tk key).2.2.modifiers = 0) := by
  rw [getkey_simple_single tk key (by omega), hb, emit_codepoint_c0 tk c key (by omega), hc0,
    default_c0_sym c h1 h2]
  dsimp only
  refine ⟨rfl, ?_, ?_⟩
  · intro n1 n2 n3
    rw [if_neg n1, if_neg n2, if_neg n3, if_neg (fun h => h.2.2 rfl)]
    exact ⟨rfl, rfl, rfl⟩
  · intro h
    rcases h with h | h | h <;> subst h <;> rw [if_pos ⟨hni, by decide, by decide⟩] <;>
      exact ⟨rfl, rfl, rfl⟩

set_option maxRecDepth 100000 in
/-- C3, witness of `getkey_simple_c0_byte`: the byte `0x03` (Ctrl-C) in a fresh decoder. -/
theorem getkey_simple_c0_byte_witness :
    (getkey_simple (decoder_holding 0 [0x03]) blank_key).1 = termkey_result.TERMKEY_RES_KEY ∧
    (getkey_simple (decoder_holding 0 [0x03]) blank_key).2.2.type
      = termkey_type.TERMKEY_TYPE_UNICODE ∧
    (getkey_simple (decoder_holding 0 [0x03]) blank_key).2.2.code = 0x43 ∧
    (getkey_simple (decoder_holding 0 [0x03]) blank_key).2.2.modifiers = TERMKEY_KEYMOD_CTRL :=
  have h := getkey_simple_c0_byte (decoder_holding 0 [0x03]) blank_key 0x03
    (by decide!) (by decide) (by decide) (by decide) (by decide) (by decide)
  ⟨h.1, h.2.1 (by decide) (by decide) (by decide)⟩

set_option maxRecDepth 100000 in
/-- C3, counterexample to the claim as stated: the control byte `0x08` lies in `0x01..0x1A`,
the decoder is fresh (default C0 table, `NoInterpret` unset), and the key is the KeySym
Backspace without modifier, not Unicode `0x48` with Ctrl. -/
theorem getkey_simple_ctrl_h_is_backspace :
    (decoder_holding 0 [0x08]).c0 = (termkey_new_full 0 0 256 50 false).c0 ∧
    (decoder_holding 0 [0x08]).flags &&& TERMKEY_FLAG_NOINTERPRET = 0 ∧
    CHARAT (decoder_holding 0 [0x08]) 0 = 0x08 ∧
    (getkey_simple (decoder_holding 0 [0x08]) blank_key).1 = termkey_result.TERMKEY_RES_KEY ∧
    (getkey_simple (decoder_holding 0 [0x08]) blank_key).2.2.type
      = termkey_type.TERMKEY_TYPE_KEYSYM ∧
    (getkey_simple (decoder_holding 0 [0x08]) blank_key).2.2.code = TERMKEY_SYM_BACKSPACE ∧
    (getkey_simple (decoder_holding 0 [0x08]) blank_key).2.2.modifiers = 0 ∧
    ¬ ((getkey_simple (decoder_holding 0 [0x08]) blank_key).2.2.type
        = termkey_type.TERMKEY_TYPE_UNICODE ∧
      (getkey_simple (decoder_holding 0 [0x08]) blank_key).2.2.code = 0x08 + 0x40 ∧
      (getkey_simple (decoder_holding 0 [0x08]) blank_key).2.2.modifiers
        = TERMKEY_KEYMOD_CTRL) := by
  refine ⟨?_, ?_, ?_, ?_, ?_, ?_, ?_, ?_⟩
  · decide!
  · decide
  · decide
  · decide
  · decide
  · decide
  · decide
  · decide

set_option maxRecDepth 100000 in
/-- C4, the code at the failing input: decoding the single byte `0x01` in a fresh decoder
returns Key, Unicode, modifiers Ctrl, with code `0x41` (the capital letter), not `0x61`. -/
theorem getkey_simple_ctrl_a_is_capital :
    window (decoder_holding 0 [0x01]) = [0x01] ∧
    (getkey_simple (decoder_holding 0 [0x01]) blank_key).1 = termkey_result.TERMKEY_RES_KEY ∧
    (getkey_simple (decoder_holding 0 [0x01]) blank_key).2.2.type
      = termkey_type.TERMKEY_TYPE_UNICODE ∧
    (getkey_simple (decoder_holding 0 [0x01]) blank_key).2.2.modifiers = TERMKEY_KEYMOD_CTRL ∧
    (getkey_simple (decoder_holding 0 [0x01]) blank_key).2.2.code = 0x41 ∧
    (getkey_simple (decoder_holding 0 [0x01]) blank_key).2.2.code ≠ 0x61 := by
  refine ⟨?_, ?_, ?_, ?_, ?_, ?_⟩ <;> decide


/-! ## The multi-byte path of `getkey_simple` -/

theorem shift_or_payload (cp cb : Nat) : (cp <<< 6) ||| (cb &&& 0x3f) = cp * 64 + cb % 64 := by
  have h1 : cb &&& 0x3f = cb % 64 := Nat.and_pow_two_sub_one_eq_mod cb 6
  have h2 : cb % 64 < 2 ^ 6 := Nat.mod_lt _ (by decide)
  rw [h1, Nat.shiftLeft_eq, Nat.mul_comm cp, ← Nat.mul_add_lt_is_or h2]

theorem getkey_simple_loop_ok (tk : termkey_t) :
    ∀ (n b cp : Nat),
      (∀ i, b ≤ i → i < b + n → 0x80 ≤ CHARAT tk i ∧ CHARAT tk i ≤ 0xBF) →
      getkey_simple_loop tk n b cp = .ok (spec_payload tk n b cp) := by
  intro n
  induction n with
  | zero => intro b cp _; rfl
  | succ n ih =>
    intro b cp h
    unfold getkey_simple_loop spec_payload
    dsimp only
    have hb := h b (le_refl _) (by omega)
    rw [if_neg (by omega), shift_or_payload]
    exact ih _ _ (fun i h1 h2 => h i (by omega) (by omega))

theorem getkey_simple_multibyte_ok (tk : termkey_t) (key : termkey_key) (nbytes cp0 : Nat)
    (hcount : nbytes ≤ tk.buffcount)
    (hcont : ∀ i, 1 ≤ i → i < nbytes → 0x80 ≤ CHARAT tk i ∧ CHARAT tk i ≤ 0xBF) :
    getkey_simple_multibyte tk key nbytes cp0 =
      (termkey_result.TERMKEY_RES_KEY, eat_bytes tk nbytes,
        emit_codepoint tk (spec_checked nbytes (spec_payload tk (nbytes - 1) 1 cp0)) key) := by
  unfold getkey_simple_multibyte
  rw [if_neg (by omega),
    getkey_simple_loop_ok tk (nbytes - 1) 1 cp0 (fun i h1 h2 => hcont i h1 (by omega))]
  dsimp only
  congr 3
  unfold spec_checked UTF8_INVALID
  generalize spec_payload tk (nbytes - 1) 1 cp0 = v
  by_cases h : nbytes > utf8_seqlen v
  · rw [if_pos h, if_pos h, if_neg (by decide)]
  · rw [if_neg h, if_neg h]

theorem getkey_simple_wellformed (tk : termkey_t) (key : termkey_key)
    (hutf8 : tk.flags &&& TERMKEY_FLAG_UTF8 ≠ 0)
    (hlo : 0xC0 ≤ CHARAT tk 0) (hhi : CHARAT tk 0 ≤ 0xFD)
    (hcount : spec_seq_nbytes (CHARAT tk 0) ≤ tk.buffcount)
    (hcont : ∀ i, 1 ≤ i → i < spec_seq_nbytes (CHARAT tk 0) →
      0x80 ≤ CHARAT tk i ∧ CHARAT tk i ≤ 0xBF) :
    getkey_simple tk key =
      (termkey_result.TERMKEY_RES_KEY, eat_bytes tk (spec_seq_nbytes (CHARAT tk 0)),
        emit_codepoint tk
          (spec_checked (spec_seq_nbytes (CHARAT tk 0))
            (spec_seq_value tk (spec_seq_nbytes (CHARAT tk 0))))
          { key with type := termkey_type.TERMKEY_TYPE_UNICODE, modifiers := 0 }) := by
  have m5 : CHARAT tk 0 &&& 0x1f = CHARAT tk 0 % 2 ^ (7 - 2) :=
    Nat.and_pow_two_sub_one_eq_mod _ 5
  have m4 : CHARAT tk 0 &&& 0x0f = CHARAT tk 0 % 2 ^ (7 - 3) :=
    Nat.and_pow_two_sub_one_eq_mod _ 4
  have m3 : CHARAT tk 0 &&& 0x07 = CHARAT tk 0 % 2 ^ (7 - 4) :=
    Nat.and_pow_two_sub_one_eq_mod _ 3
  have m2 : CHARAT tk 0 &&& 0x03 = CHARAT tk 0 % 2 ^ (7 - 5) :=
    Nat.and_pow_two_sub_one_eq_mod _ 2
  have m1 : CHARAT tk 0 &&& 0x01 = CHARAT tk 0 % 2 ^ (7 - 6) :=
    Nat.and_pow_two_sub_one_eq_mod _ 1
  unfold getkey_simple spec_seq_value
  dsimp only
  rw [if_neg (by omega), if_pos hutf8, if_neg (by omega)]
  unfold spec_seq_nbytes at hcount hcont ⊢
  by_cases h2 : CHARAT tk 0 ≤ 0xDF
  · rw [if_pos h2] at hcount hcont ⊢
    rw [if_pos (by omega), getkey_simple_multibyte_ok tk _ 2 _ hcount hcont, m5]
  rw [if_neg h2] at hcount hcont ⊢
  rw [if_neg (by omega)]
  by_cases h3 : CHARAT tk 0 ≤ 0xEF
  · rw [if_pos h3] at hcount hcont ⊢
    rw [if_pos (by omega), getkey_simple_multibyte_ok tk _ 3 _ hcount hcont, m4]
  rw [if_neg h3] at hcount hcont ⊢
  rw [if_neg (by omega)]
  by_cases h4 : CHARAT tk 0 ≤ 0xF7
  · rw [if_pos h4] at hcount hcont ⊢
    rw [if_pos (by omega), getkey_simple_multibyte_ok tk _ 4 _ hcount hcont, m3]
  rw [if_neg h4] at hcount hcont ⊢
  rw [if_neg (by omega)]
  by_cases h5 : CHARAT tk 0 ≤ 0xFB
  · rw [if_pos h5] at hcount hcont ⊢
    rw [if_pos (by omega), getkey_simple_multibyte_ok tk _ 5 _ hcount hcont, m2]
  rw [if_neg h5] at hcount hcont ⊢
  rw [if_neg (by omega), if_pos (by omega),
    getkey_simple_multibyte_ok tk _ 6 _ hcount hcont, m1]


/-- C5: with the Utf8 flag set, for every lead byte in `0xC0..0xFD` with declared length
`nbytes`, at least `nbytes` buffered bytes and continuation bytes in `0x80..0xBF` at the
offsets `1..nbytes-1`, if the decoded value needs fewer than `nbytes` bytes
(`utf8_seqlen value < nbytes`) then `getkey_simple` returns Key with type Unicode, codepoint
`0xFFFD` and no modifier, and consumes exactly `nbytes` bytes: the state is
`eat_bytes tk nbytes` and the count drops by `nbytes`. -/
theorem getkey_simple_overlong (tk : termkey_t) (key : termkey_key)
    (hutf8 : tk.flags &&& TERMKEY_FLAG_UTF8 ≠ 0)
    (hlo : 0xC0 ≤ CHARAT tk 0) (hhi : CHARAT tk 0 ≤ 0xFD)
    (hcount : spec_seq_nbytes (CHARAT tk 0) ≤ tk.buffcount)
    (hcont : ∀ i, 1 ≤ i → i < spec_seq_nbytes (CHARAT tk 0) →
      0x80 ≤ CHARAT tk i ∧ CHARAT tk i ≤ 0xBF)
    (hover : utf8_seqlen (spec_seq_value tk (spec_seq_nbytes (CHARAT tk 0)))
      < spec_seq_nbytes (CHARAT tk 0)) :
    (getkey_simple tk key).1 = termkey_result.TERMKEY_RES_KEY ∧
    (getkey_simple tk key).2.2.type = termkey_type.TERMKEY_TYPE_UNICODE ∧
    (getkey_simple tk key).2.2.code = 0xFFFD ∧
    (getkey_simple tk key).2.2.modifiers = 0 ∧
    (getkey_simple tk key).2.1 = eat_bytes tk (spec_seq_nbytes (CHARAT tk 0)) ∧
    (getkey_simple tk key).2.1.buffcount + spec_seq_nbytes (CHARAT tk 0) = tk.buffcount := by
  rw [getkey_simple_wellformed tk key hutf8 hlo hhi hcount hcont]
  have hc : spec_checked (spec_seq_nbytes (CHARAT tk 0))
      (spec_seq_value tk (spec_seq_nbytes (CHARAT tk 0))) = 0xFFFD := by
    unfold spec_checked
    rw [if_pos hover]
  rw [hc, emit_codepoint_high _ _ _ (by decide)]
  refine ⟨rfl, rfl, rfl, rfl, rfl, ?_⟩
  dsimp only
  rw [eat_bytes_buffcount]
  omega

set_option maxRecDepth 100000 in
/-- C5, witness of `getkey_simple_overlong`: the overlong NUL `0xC0 0x80`. -/
theorem getkey_simple_overlong_witness :
    window (decoder_holding TERMKEY_FLAG_UTF8 [0xC0, 0x80]) = [0xC0, 0x80] ∧
    spec_seq_value (decoder_holding TERMKEY_FLAG_UTF8 [0xC0, 0x80]) 2 = 0 ∧
    (getkey_simple (decoder_holding TERMKEY_FLAG_UTF8 [0xC0, 0x80]) blank_key).1
      = termkey_result.TERMKEY_RES_KEY ∧
    (getkey_simple (decoder_holding TERMKEY_FLAG_UTF8 [0xC0, 0x80]) blank_key).2.2.type
      = termkey_type.TERMKEY_TYPE_UNICODE ∧
    (getkey_simple (decoder_holding TERMKEY_FLAG_UTF8 [0xC0, 0x80]) blank_key).2.2.code
      = 0xFFFD ∧
    (getkey_simple (decoder_holding TERMKEY_FLAG_UTF8 [0xC0, 0x80]) blank_key).2.2.modifiers
      = 0 ∧
    (getkey_simple (decoder_holding TERMKEY_FLAG_UTF8 [0xC0, 0x80]) blank_key).2.1
      = eat_bytes (decoder_holding TERMKEY_FLAG_UTF8 [0xC0, 0x80])
        (spec_seq_nbytes (CHARAT (decoder_holding TERMKEY_FLAG_UTF8 [0xC0, 0x80]) 0)) ∧
    (getkey_simple (decoder_holding TERMKEY_FLAG_UTF8 [0xC0, 0x80]) blank_key).2.1.buffcount
        + spec_seq_nbytes (CHARAT (decoder_holding TERMKEY_FLAG_UTF8 [0xC0, 0x80]) 0)
      = (decoder_holding TERMKEY_FLAG_UTF8 [0xC0, 0x80]).buffcount :=
  ⟨by decide, by decide,
    getkey_simple_overlong (decoder_holding TERMKEY_FLAG_UTF8 [0xC0, 0x80]) blank_key
      (by decide) (by decide) (by decide) (by decide)
      (by
        intro i h1 h2
        have h3 : i < 2 := h2
        have hi : i = 1 := by omega
        subst hi
        decide)
      (by decide)⟩


/-! ## Surrogates and non-characters -/

theorem emit_codepoint_code (tk : termkey_t) (cp : Nat) (key : termkey_key)
    (ht : (emit_codepoint tk cp key).type = termkey_type.TERMKEY_TYPE_UNICODE) :
    ((emit_codepoint tk cp key).code = (cp : Int) + 0x40 ∧ cp < 0x20) ∨
    (emit_codepoint tk cp key).code = (cp : Int) ∨
    ((emit_codepoint tk cp key).code = (cp : Int) - 0x40 ∧ 0x80 ≤ cp ∧ cp < 0xa0) := by
  by_cases h : cp < 0x20
  · rw [emit_codepoint_c0 _ _ _ h] at ht ⊢
    split_ifs at ht ⊢ with hc
    exact Or.inl ⟨rfl, h⟩
  · unfold emit_codepoint at ht ⊢
    rw [if_neg h] at ht ⊢
    split_ifs at ht ⊢ <;>
      first
      | exact Or.inr (Or.inl rfl)
      | exact Or.inr (Or.inr ⟨rfl, by omega, by omega⟩)
      | cases ht

theorem emit_codepoint_not_bad (tk : termkey_t) (cp : Nat) (key : termkey_key)
    (hcp : ¬ ((0xD800 ≤ cp ∧ cp ≤ 0xDFFF) ∨ cp = 0xFFFE ∨ cp = 0xFFFF))
    (ht : (emit_codepoint tk cp key).type = termkey_type.TERMKEY_TYPE_UNICODE) :
    ¬ ((0xD800 ≤ (emit_codepoint tk cp key).code ∧ (emit_codepoint tk cp key).code ≤ 0xDFFF) ∨
      (emit_codepoint tk cp key).code = 0xFFFE ∨ (emit_codepoint tk cp key).code = 0xFFFF) := by
  rcases emit_codepoint_code tk cp key ht with ⟨h, h1⟩ | h | ⟨h, h1, h2⟩ <;> rw [h] <;> omega

theorem spec_checked_not_bad (nbytes v : Nat) :
    ¬ ((0xD800 ≤ spec_checked nbytes v ∧ spec_checked nbytes v ≤ 0xDFFF) ∨
      spec_checked nbytes v = 0xFFFE ∨ spec_checked nbytes v = 0xFFFF) := by
  unfold spec_checked
  split_ifs <;> omega

theorem getkey_simple_multibyte_emits (tk : termkey_t) (key : termkey_key) (nbytes cp0 : Nat) :
    (getkey_simple_multibyte tk key nbytes cp0).1 ≠ termkey_result.TERMKEY_RES_KEY ∨
    ∃ cp, ¬ ((0xD800 ≤ cp ∧ cp ≤ 0xDFFF) ∨ cp = 0xFFFE ∨ cp = 0xFFFF) ∧
      (getkey_simple_multibyte tk key nbytes cp0).2.2 = emit_codepoint tk cp key := by
  unfold getkey_simple_multibyte
  by_cases h : tk.buffcount < nbytes
  · left
    rw [if_pos h]
    dsimp only
    split_ifs <;> decide
  · right
    rw [if_neg h]
    cases getkey_simple_loop tk (nbytes - 1) 1 cp0 with
    | error b => exact ⟨UTF8_INVALID, by decide, rfl⟩
    | ok v =>
      dsimp only
      refine ⟨_, ?_, rfl⟩
      unfold UTF8_INVALID
      split_ifs <;> omega

theorem getkey_simple_emits (tk : termkey_t) (key : termkey_key) (hb : CHARAT tk 0 < 256)
    (hk : (getkey_simple tk key).1 = termkey_result.TERMKEY_RES_KEY)
    (ht : (getkey_simple tk key).2.2.type = termkey_type.TERMKEY_TYPE_UNICODE) :
    ¬ ((0xD800 ≤ (getkey_simple tk key).2.2.code ∧ (getkey_simple tk key).2.2.code ≤ 0xDFFF) ∨
      (getkey_simple tk key).2.2.code = 0xFFFE ∨ (getkey_simple tk key).2.2.code = 0xFFFF) := by
  have hM : ∀ k n c,
      (getkey_simple_multibyte tk k n c).1 = termkey_result.TERMKEY_RES_KEY →
      (getkey_simple_multibyte tk k n c).2.2.type = termkey_type.TERMKEY_TYPE_UNICODE →
      ¬ ((0xD800 ≤ (getkey_simple_multibyte tk k n c).2.2.code ∧
          (getkey_simple_multibyte tk k n c).2.2.code ≤ 0xDFFF) ∨
        (getkey_simple_multibyte tk k n c).2.2.code = 0xFFFE ∨
        (getkey_simple_multibyte tk k n c).2.2.code = 0xFFFF) := by
    intro k n c h1 h2
    rcases getkey_simple_multibyte_emits tk k n c with h | ⟨cp, hcp, he⟩
    · exact absurd h1 h
    · rw [he] at h2 ⊢
      exact emit_codepoint_not_bad tk cp k hcp h2
  have hI : ∀ k, (emit_codepoint tk UTF8_INVALID k).type = termkey_type.TERMKEY_TYPE_UNICODE →
      ¬ ((0xD800 ≤ (emit_codepoint tk UTF8_INVALID k).code ∧
          (emit_codepoint tk UTF8_INVALID k).code ≤ 0xDFFF) ∨
        (emit_codepoint tk UTF8_INVALID k).code = 0xFFFE ∨
        (emit_codepoint tk UTF8_INVALID k).code = 0xFFFF) :=
    fun k h => emit_codepoint_not_bad tk UTF8_INVALID k (by decide) h
  unfold getkey_simple at hk ht ⊢
  dsimp only at hk ht ⊢
  split_ifs at hk ht ⊢ with c1 c2 c3 c4 c5 c6 c7 c8
  · exact emit_codepoint_not_bad tk _ key (by omega) ht
  · exact hI _ ht
  · exact hM _ _ _ hk ht
  · exact hM _ _ _ hk ht
  · exact hM _ _ _ hk ht
  · exact hM _ _ _ hk ht
  · exact hM _ _ _ hk ht
  · exact hI _ ht
  · dsimp only
    omega

set_option maxRecDepth 100000 in
/-- C6: for every non-empty buffer (whose head is a byte) and every flag setting, whenever
`getkey_simple` returns a key of type Unicode its codepoint is not in `D800..DFFF` and is
neither `FFFE` nor `FFFF`; and, in UTF-8 mode, a 3-byte sequence (lead `E0..EF`, two
continuation bytes) whose value is such a code point yields Key, Unicode, `0xFFFD` and
consumes 3 bytes, as `0xED 0xA0 0x80` (value `D800`) does. -/
theorem getkey_simple_rejects_surrogates :
    (∀ tk key, 1 ≤ tk.buffcount → CHARAT tk 0 < 256 →
      (getkey_simple tk key).1 = termkey_result.TERMKEY_RES_KEY →
      (getkey_simple tk key).2.2.type = termkey_type.TERMKEY_TYPE_UNICODE →
      ¬ ((0xD800 ≤ (getkey_simple tk key).2.2.code ∧ (getkey_simple tk key).2.2.code ≤ 0xDFFF) ∨
        (getkey_simple tk key).2.2.code = 0xFFFE ∨ (getkey_simple tk key).2.2.code = 0xFFFF)) ∧
    (∀ tk key, tk.flags &&& TERMKEY_FLAG_UTF8 ≠ 0 →
      0xE0 ≤ CHARAT tk 0 → CHARAT tk 0 ≤ 0xEF → 3 ≤ tk.buffcount →
      0x80 ≤ CHARAT tk 1 → CHARAT tk 1 ≤ 0xBF → 0x80 ≤ CHARAT tk 2 → CHARAT tk 2 ≤ 0xBF →
      ((0xD800 ≤ spec_seq_value tk 3 ∧ spec_seq_value tk 3 ≤ 0xDFFF) ∨
        spec_seq_value tk 3 = 0xFFFE ∨ spec_seq_value tk 3 = 0xFFFF) →
      (getkey_simple tk key).1 = termkey_result.TERMKEY_RES_KEY ∧
      (getkey_simple tk key).2.2.type = termkey_type.TERMKEY_TYPE_UNICODE ∧
      (getkey_simple tk key).2.2.code = 0xFFFD ∧
      (getkey_simple tk key).2.1 = eat_bytes tk 3 ∧
      (getkey_simple tk key).2.1.buffcount + 3 = tk.buffcount) ∧
    (window (decoder_holding TERMKEY_FLAG_UTF8 [0xED, 0xA0, 0x80]) = [0xED, 0xA0, 0x80] ∧
      spec_seq_value (decoder_holding TERMKEY_FLAG_UTF8 [0xED, 0xA0, 0x80]) 3 = 0xD800 ∧
      (getkey_simple (decoder_holding TERMKEY_FLAG_UTF8 [0xED, 0xA0, 0x80]) blank_key).1
        = termkey_result.TERMKEY_RES_KEY ∧
      (getkey_simple (decoder_holding TERMKEY_FLAG_UTF8 [0xED, 0xA0, 0x80]) blank_key).2.2.type
        = termkey_type.TERMKEY_TYPE_UNICODE ∧
      (getkey_simple (decoder_holding TERMKEY_FLAG_UTF8 [0xED, 0xA0, 0x80]) blank_key).2.2.code
        = 0xFFFD ∧
      (decoder_holding TERMKEY_FLAG_UTF8 [0xED, 0xA0, 0x80]).buffcount = 3 ∧
      (getkey_simple (decoder_holding TERMKEY_FLAG_UTF8 [0xED, 0xA0, 0x80])
        blank_key).2.1.buffcount = 0) := by
  refine ⟨?_, ?_, ?_⟩
  · intro tk key _ hb hk ht
    exact getkey_simple_emits tk key hb hk ht
  · intro tk key hutf8 hlo hhi hcount a1 a2 b1 b2 hbad
    have hn : spec_seq_nbytes (CHARAT tk 0) = 3 := by
      unfold spec_seq_nbytes
      rw [if_neg (by omega), if_pos hhi]
    have hw := getkey_simple_wellformed tk key hutf8 (by omega) (by omega)
      (by rw [hn]; exact hcount)
      (by
        intro i h1 h2
        rw [hn] at h2
        have hi : i = 1 ∨ i = 2 := by omega
        rcases hi with hi | hi <;> subst hi
        · exact ⟨a1, a2⟩
        · exact ⟨b1, b2⟩)
    rw [hn] at hw
    have hc : spec_checked 3 (spec_seq_value tk 3) = 0xFFFD := by
      unfold spec_checked
      split_ifs
      · rfl
      · rfl
    rw [hw, hc, emit_codepoint_high _ _ _ (by decide)]
    refine ⟨rfl, rfl, rfl, rfl, ?_⟩
    dsimp only
    rw [eat_bytes_buffcount]
    omega
  · refine ⟨?_, ?_, ?_, ?_, ?_, ?_, ?_⟩ <;> decide


/-! ## The UTF-8 round trip -/

theorem or_cont (x : Nat) : 0x80 ||| (x &&& 0x3f) = 0x80 + x % 64 := by
  have h1 : x &&& 0x3f = x % 64 := Nat.and_pow_two_sub_one_eq_mod x 6
  have h2 : x % 64 < 2 ^ 6 := Nat.mod_lt _ (by decide)
  rw [h1]
  exact (Nat.mul_add_lt_is_or h2 2).symm

theorem or_lead2 (x : Nat) : 0xc0 ||| (x &&& 0x1f) = 0xc0 + x % 32 := by
  have h1 : x &&& 0x1f = x % 32 := Nat.and_pow_two_sub_one_eq_mod x 5
  have h2 : x % 32 < 2 ^ 5 := Nat.mod_lt _ (by decide)
  rw [h1]
  exact (Nat.mul_add_lt_is_or h2 6).symm

theorem or_lead3 (x : Nat) : 0xe0 ||| (x &&& 0x0f) = 0xe0 + x % 16 := by
  have h1 : x &&& 0x0f = x % 16 := Nat.and_pow_two_sub_one_eq_mod x 4
  have h2 : x % 16 < 2 ^ 4 := Nat.mod_lt _ (by decide)
  rw [h1]
  exact (Nat.mul_add_lt_is_or h2 14).symm

theorem or_lead4 (x : Nat) : 0xf0 ||| (x &&& 0x07) = 0xf0 + x % 8 := by
  have h1 : x &&& 0x07 = x % 8 := Nat.and_pow_two_sub_one_eq_mod x 3
  have h2 : x % 8 < 2 ^ 3 := Nat.mod_lt _ (by decide)
  rw [h1]
  exact (Nat.mul_add_lt_is_or h2 30).symm

theorem and_ascii (x : Nat) : x &&& 0x7f = x % 128 :=
  Nat.and_pow_two_sub_one_eq_mod x 7

theorem shift6 (x : Nat) : x >>> 6 = x / 64 :=
  Nat.shiftRight_eq_div_pow x 6

theorem list_length_seven (l : List Nat) (h : l.length = 7) :
    ∃ u0 u1 u2 u3 u4 u5 u6, l = [u0, u1, u2, u3, u4, u5, u6] := by
  match l, h with
  | [u0, u1, u2, u3, u4, u5, u6], _ => exact ⟨_, _, _, _, _, _, _, rfl⟩

theorem fill_utf8_encode (key : termkey_key) (cp : Nat) (hlen : key.utf8.length = 7)
    (hcode : key.code = (cp : Int)) (hcp : cp ≤ 0x10FFFF) :
    (fill_utf8 key).utf8.take (spec_utf8_encode cp).length = spec_utf8_encode cp ∧
    (fill_utf8 key).utf8.drop (spec_utf8_encode cp).length
      = 0 :: key.utf8.drop ((spec_utf8_encode cp).length + 1) := by
  obtain ⟨u0, u1, u2, u3, u4, u5, u6, hu⟩ := list_length_seven _ hlen
  unfold fill_utf8 spec_utf8_encode utf8_seqlen
  rw [hcode, hu, Int.toNat_natCast]
  by_cases h1 : cp < 0x80
  · simp only [h1, if_true, fill_utf8_loop, and_ascii, List.set_cons_zero, List.set_cons_succ,
      List.length_cons, List.length_nil, List.take, List.drop, lt_self_iff_false, if_false]
    refine ⟨?_, trivial⟩
    congr 1
    omega
  by_cases h2 : cp < 0x800
  · simp only [h1, h2, if_true, if_false, fill_utf8_loop, or_cont, or_lead2, shift6,
      List.set_cons_zero, List.set_cons_succ, List.length_cons, List.length_nil, List.take,
      List.drop, Nat.lt_add_one, gt_iff_lt, Nat.one_lt_ofNat, Nat.reduceAdd,
      lt_self_iff_false]
    refine ⟨?_, trivial⟩
    congr 2
    omega
  by_cases h3 : cp < 0x10000
  · simp only [h1, h2, h3, if_true, if_false, fill_utf8_loop, or_cont, or_lead3, shift6,
      List.set_cons_zero, List.set_cons_succ, List.length_cons, List.length_nil, List.take,
      List.drop, Nat.lt_add_one, gt_iff_lt, Nat.one_lt_ofNat, Nat.reduceAdd,
      lt_self_iff_false]
    refine ⟨?_, trivial⟩
    congr 2
    omega
  have h4 : cp < 0x200000 := by omega
  simp only [h1, h2, h3, h4, if_true, if_false, fill_utf8_loop, or_cont, or_lead4, shift6,
    List.set_cons_zero, List.set_cons_succ, List.length_cons, List.length_nil, List.take,
    List.drop, Nat.lt_add_one, gt_iff_lt, Nat.one_lt_ofNat, Nat.reduceAdd,
    lt_self_iff_false]
  refine ⟨?_, trivial⟩
  have e1 : cp / 64 / 64 / 64 % 8 = cp / 262144 := by omega
  have e2 : cp / 64 / 64 % 64 = cp / 4096 % 64 := by omega
  rw [e1, e2]

theorem CHARAT_window (tk : termkey_t) (i : Nat) (h : i < tk.buffcount) :
    CHARAT tk i = (window tk).getD i 0 := by
  unfold CHARAT window
  rw [List.getD_eq_getElem?_getD, List.getD_eq_getElem?_getD, List.getElem?_take_of_lt h,
    List.getElem?_drop]

theorem spec_utf8_encode_length (cp : Nat) :
    (spec_utf8_encode cp).length = if cp < 0x80 then 1 else if cp < 0x800 then 2
      else if cp < 0x10000 then 3 else 4 := by
  unfold spec_utf8_encode
  split_ifs <;> rfl

theorem getkey_simple_decodes (tk : termkey_t) (key : termkey_key) (cp : Nat)
    (hutf8 : tk.flags &&& TERMKEY_FLAG_UTF8 ≠ 0)
    (hcount : (spec_utf8_encode cp).length ≤ tk.buffcount)
    (hbytes : ∀ i, i < (spec_utf8_encode cp).length →
      CHARAT tk i = (spec_utf8_encode cp).getD i 0)
    (hrange : (0x21 ≤ cp ∧ cp ≤ 0x7E) ∨ (0xA0 ≤ cp ∧ cp ≤ 0x10FFFF))
    (hsur : ¬ (0xD800 ≤ cp ∧ cp ≤ 0xDFFF)) (hfffe : cp ≠ 0xFFFE) (hffff : cp ≠ 0xFFFF) :
    getkey_simple tk key =
      (termkey_result.TERMKEY_RES_KEY, eat_bytes tk (spec_utf8_encode cp).length,
        fill_utf8 { key with
          type := termkey_type.TERMKEY_TYPE_UNICODE, code := (cp : Int), modifiers := 0 }) := by
  have hlen := spec_utf8_encode_length cp
  rcases hrange with ⟨r1, r2⟩ | ⟨r1, r2⟩
  · have h0 : CHARAT tk 0 = cp := by
      rw [hbytes 0 (by rw [hlen]; split_ifs <;> omega)]
      unfold spec_utf8_encode
      rw [if_pos (by omega)]
      rfl
    rw [getkey_simple_single tk key (by omega), h0, emit_codepoint_printable _ _ _ r1 r2, hlen,
      if_pos (by omega)]
  · by_cases h2 : cp < 0x800
    · have henc : spec_utf8_encode cp = [0xC0 + cp / 64, 0x80 + cp % 64] := by
        unfold spec_utf8_encode
        rw [if_neg (by omega), if_pos h2]
      rw [henc] at hbytes hcount ⊢
      have b0 : CHARAT tk 0 = 0xC0 + cp / 64 := hbytes 0 (by simp)
      have b1 : CHARAT tk 1 = 0x80 + cp % 64 := hbytes 1 (by simp)
      have hn : spec_seq_nbytes (CHARAT tk 0) = 2 := by
        rw [b0]
        unfold spec_seq_nbytes
        split_ifs <;> omega
      have hw := getkey_simple_wellformed tk key hutf8 (by omega) (by omega)
        (by rw [hn]; exact hcount)
        (by
          intro i i1 i2
          rw [hn] at i2
          have hi : i = 1 := by omega
          subst hi
          rw [b1]
          omega)
      rw [hn] at hw
      have hv : spec_seq_value tk 2 = cp := by
        unfold spec_seq_value
        simp only [spec_payload, b0, b1, Nat.reduceSub, Nat.reduceAdd, Nat.reducePow]
        omega
      have hc : spec_checked 2 cp = cp := by
        unfold spec_checked utf8_seqlen
        split_ifs <;> omega
      rw [hw, hv, hc, emit_codepoint_high _ _ _ r1]
      rfl
    by_cases h3 : cp < 0x10000
    · have henc : spec_utf8_encode cp
          = [0xE0 + cp / 4096, 0x80 + cp / 64 % 64, 0x80 + cp % 64] := by
        unfold spec_utf8_encode
        rw [if_neg (by omega), if_neg h2, if_pos h3]
      rw [henc] at hbytes hcount ⊢
      have b0 : CHARAT tk 0 = 0xE0 + cp / 4096 := hbytes 0 (by simp)
      have b1 : CHARAT tk 1 = 0x80 + cp / 64 % 64 := hbytes 1 (by simp)
      have b2 : CHARAT tk 2 = 0x80 + cp % 64 := hbytes 2 (by simp)
      have hn : spec_seq_nbytes (CHARAT tk 0) = 3 := by
        rw [b0]
        unfold spec_seq_nbytes
        split_ifs <;> omega
      have hw := getkey_simple_wellformed tk key hutf8 (by omega) (by omega)
        (by rw [hn]; exact hcount)
        (by
          intro i i1 i2
          rw [hn] at i2
          have hi : i = 1 ∨ i = 2 := by omega
          rcases hi with hi | hi <;> subst hi
          · rw [b1]; omega
          · rw [b2]; omega)
      rw [hn] at hw
      have hv : spec_seq_value tk 3 = cp := by
        unfold spec_seq_value
        simp only [spec_payload, b0, b1, b2, Nat.reduceSub, Nat.reduceAdd, Nat.reducePow]
        omega
      have hc : spec_checked 3 cp = cp := by
        unfold spec_checked utf8_seqlen
        split_ifs <;> omega
      rw [hw, hv, hc, emit_codepoint_high _ _ _ r1]
      rfl
    have henc : spec_utf8_encode cp
        = [0xF0 + cp / 262144, 0x80 + cp / 4096 % 64, 0x80 + cp / 64 % 64, 0x80 + cp % 64] := by
      unfold spec_utf8_encode
      rw [if_neg (by omega), if_neg h2, if_neg h3]
    rw [henc] at hbytes hcount ⊢
    have b0 : CHARAT tk 0 = 0xF0 + cp / 262144 := hbytes 0 (by simp)
    have b1 : CHARAT tk 1 = 0x80 + cp / 4096 % 64 := hbytes 1 (by simp)
    have b2 : CHARAT tk 2 = 0x80 + cp / 64 % 64 := hbytes 2 (by simp)
    have b3 : CHARAT tk 3 = 0x80 + cp % 64 := hbytes 3 (by simp)
    have hn : spec_seq_nbytes (CHARAT tk 0) = 4 := by
      rw [b0]
      unfold spec_seq_nbytes
      split_ifs <;> omega
    have hw := getkey_simple_wellformed tk key hutf8 (by omega) (by omega)
      (by rw [hn]; exact hcount)
      (by
        intro i i1 i2
        rw [hn] at i2
        have hi : i = 1 ∨ i = 2 ∨ i = 3 := by omega
        rcases hi with hi | hi | hi <;> subst hi
        · rw [b1]; omega
        · rw [b2]; omega
        · rw [b3]; omega)
    rw [hn] at hw
    have hv : spec_seq_value tk 4 = cp := by
      unfold spec_seq_value
      simp only [spec_payload, b0, b1, b2, b3, Nat.reduceSub, Nat.reduceAdd, Nat.reducePow]
      omega
    have hc : spec_checked 4 cp = cp := by
      unfold spec_checked utf8_seqlen
      split_ifs <;> omega
    rw [hw, hv, hc, emit_codepoint_high _ _ _ r1]
    rfl


/-- C1 (as amended): for every code point `cp` in `0x21..0x7E` or `0xA0..0x10FFFF` that is
not a surrogate and not `FFFE` or `FFFF`, starting from an empty buffer of capacity at least
1 with the Utf8 flag set (any C0 table, any `NoInterpret` setting), `termkey_pushinput` of
the canonical UTF-8 encoding of `cp` returns (three doublings suffice), the readable window
is then that encoding, and `getkey_simple` returns Key with type Unicode, codepoint `cp`, no
modifier and `key.utf8` holding the pushed bytes followed by a NUL (the rest of the array
untouched); the buffer is empty again afterwards. -/
theorem utf8_round_trip (tk : termkey_t) (key : termkey_key) (cp fuel : Nat)
    (hinv : buffer_inv tk) (hempty : tk.buffcount = 0) (hsize : 0 < tk.buffsize)
    (hfuel : 3 ≤ fuel)
    (hutf8 : tk.flags &&& TERMKEY_FLAG_UTF8 ≠ 0)
    (hkey : key.utf8.length = 7)
    (hrange : (0x21 ≤ cp ∧ cp ≤ 0x7E) ∨ (0xA0 ≤ cp ∧ cp ≤ 0x10FFFF))
    (hsur : ¬ (0xD800 ≤ cp ∧ cp ≤ 0xDFFF)) (hfffe : cp ≠ 0xFFFE) (hffff : cp ≠ 0xFFFF) :
    ∃ tk1 tk2 key2,
      termkey_pushinput fuel tk (spec_utf8_encode cp) = some tk1 ∧
      window tk1 = spec_utf8_encode cp ∧
      getkey_simple tk1 key = (termkey_result.TERMKEY_RES_KEY, tk2, key2) ∧
      key2.type = termkey_type.TERMKEY_TYPE_UNICODE ∧
      key2.code = (cp : Int) ∧
      key2.modifiers = 0 ∧
      key2.utf8.take (spec_utf8_encode cp).length = spec_utf8_encode cp ∧
      key2.utf8.drop (spec_utf8_encode cp).length
        = 0 :: key.utf8.drop ((spec_utf8_encode cp).length + 1) ∧
      tk2.buffstart = 0 ∧ tk2.buffcount = 0 := by
  have hlen4 : (spec_utf8_encode cp).length ≤ 4 := by
    rw [spec_utf8_encode_length]
    split_ifs <;> omega
  have hroom : tk.buffstart + tk.buffcount + (spec_utf8_encode cp).length
      ≤ tk.buffsize * 2 ^ fuel := by
    have h8 : 2 ^ 3 ≤ 2 ^ fuel := Nat.pow_le_pow_right (by decide) hfuel
    have h9 : tk.buffsize * 2 ^ 3 ≤ tk.buffsize * 2 ^ fuel := Nat.mul_le_mul_left _ h8
    have h10 := hinv.1
    omega
  obtain ⟨k, -, hle, -, hpush⟩ :=
    termkey_pushinput_eq tk (spec_utf8_encode cp) fuel hinv hroom
  have hwin := pushed_window tk (spec_utf8_encode cp) k hinv hle
  generalize htk1 : ({ tk with
      buffsize := tk.buffsize * 2 ^ k,
      buffer := memcpy (realloc tk.buffer (tk.buffsize * 2 ^ k) 0)
        (tk.buffstart + tk.buffcount) (spec_utf8_encode cp) 0 (spec_utf8_encode cp).length,
      buffcount := tk.buffcount + (spec_utf8_encode cp).length } : termkey_t) = tk1
      at hpush hwin
  have hcnt : tk1.buffcount = (spec_utf8_encode cp).length := by
    rw [← htk1]
    dsimp only
    rw [hempty, Nat.zero_add]
  have hfl : tk1.flags = tk.flags := by
    rw [← htk1]
  have hw0 : window tk = [] := by
    unfold window
    rw [hempty, List.take_zero]
  rw [hw0, List.nil_append] at hwin
  have hdec := getkey_simple_decodes tk1 key cp
    (by rw [hfl]; exact hutf8)
    (by rw [hcnt])
    (by
      intro i hi
      rw [CHARAT_window tk1 i (by rw [hcnt]; exact hi), hwin])
    hrange hsur hfffe hffff
  have hcp : cp ≤ 0x10FFFF := by
    rcases hrange with h | h <;> omega
  obtain ⟨e1, e2⟩ := fill_utf8_encode
    { key with type := termkey_type.TERMKEY_TYPE_UNICODE, code := (cp : Int), modifiers := 0 }
    cp hkey rfl hcp
  refine ⟨tk1, _, _, hpush, hwin, hdec, rfl, rfl, rfl, e1, e2, ?_, ?_⟩
  · rw [eat_bytes_drain tk1 _ (by rw [hcnt])]
  · rw [eat_bytes_drain tk1 _ (by rw [hcnt])]

set_option maxRecDepth 100000 in
/-- C1, witness of `utf8_round_trip`: the euro sign `U+20AC`, pushed as `E2 82 AC` into a
fresh decoder in UTF-8 mode. -/
theorem utf8_round_trip_witness :
    spec_utf8_encode 0x20AC = [0xE2, 0x82, 0xAC] ∧
    ∃ tk1 tk2 key2,
      termkey_pushinput 3 (termkey_new 0 TERMKEY_FLAG_UTF8 false) (spec_utf8_encode 0x20AC)
        = some tk1 ∧
      window tk1 = spec_utf8_encode 0x20AC ∧
      getkey_simple tk1 blank_key = (termkey_result.TERMKEY_RES_KEY, tk2, key2) ∧
      key2.type = termkey_type.TERMKEY_TYPE_UNICODE ∧
      key2.code = ((0x20AC : Nat) : Int) ∧
      key2.modifiers = 0 ∧
      key2.utf8.take (spec_utf8_encode 0x20AC).length = spec_utf8_encode 0x20AC ∧
      key2.utf8.drop (spec_utf8_encode 0x20AC).length
        = 0 :: blank_key.utf8.drop ((spec_utf8_encode 0x20AC).length + 1) ∧
      tk2.buffstart = 0 ∧ tk2.buffcount = 0 :=
  ⟨by decide,
    utf8_round_trip (termkey_new 0 TERMKEY_FLAG_UTF8 false) blank_key 0x20AC 3
      (by decide) (by decide) (by decide) (by decide) (by decide) (by decide) (by decide)
      (by decide) (by decide) (by decide)⟩

set_option maxRecDepth 100000 in
/-- C1, counterexample to the claim as stated: on a fresh decoder in UTF-8 mode (default C0
table, `NoInterpret` unset), `U+0020` pushed as its encoding `20` decodes to the KeySym
Space, not to a Unicode key; `U+000A` pushed as `0A` decodes to Unicode `0x4A` with Ctrl; and
`U+0085` pushed as `C2 85` decodes to Unicode `0x45` with Ctrl and Alt. -/
theorem utf8_round_trip_fails_on_controls :
    (∃ r, push_then_getkey 3 (termkey_new 0 TERMKEY_FLAG_UTF8 false) (spec_utf8_encode 0x20)
        blank_key = some r ∧
      r.1 = termkey_result.TERMKEY_RES_KEY ∧
      r.2.2.type = termkey_type.TERMKEY_TYPE_KEYSYM ∧ r.2.2.code = TERMKEY_SYM_SPACE ∧
      r.2.2.type ≠ termkey_type.TERMKEY_TYPE_UNICODE) ∧
    (∃ r, push_then_getkey 3 (termkey_new 0 TERMKEY_FLAG_UTF8 false) (spec_utf8_encode 0x0A)
        blank_key = some r ∧
      r.1 = termkey_result.TERMKEY_RES_KEY ∧
      r.2.2.type = termkey_type.TERMKEY_TYPE_UNICODE ∧ r.2.2.code = 0x4A ∧
      r.2.2.modifiers = TERMKEY_KEYMOD_CTRL ∧ r.2.2.code ≠ 0x0A) ∧
    (∃ r, push_then_getkey 3 (termkey_new 0 TERMKEY_FLAG_UTF8 false) (spec_utf8_encode 0x85)
        blank_key = some r ∧
      r.1 = termkey_result.TERMKEY_RES_KEY ∧
      r.2.2.type = termkey_type.TERMKEY_TYPE_UNICODE ∧ r.2.2.code = 0x45 ∧
      r.2.2.modifiers = TERMKEY_KEYMOD_CTRL ||| TERMKEY_KEYMOD_ALT ∧ r.2.2.code ≠ 0x85) := by
  refine ⟨⟨_, rfl, ?_, ?_, ?_, ?_⟩, ⟨_, rfl, ?_, ?_, ?_, ?_, ?_⟩, ⟨_, rfl, ?_, ?_, ?_, ?_, ?_⟩⟩ <;>
    decide


/-! ## Incomplete sequences and the wait time -/

theorem getkey_simple_lead (tk : termkey_t) (key : termkey_key)
    (hutf8 : tk.flags &&& TERMKEY_FLAG_UTF8 ≠ 0)
    (hlo : 0xC0 ≤ CHARAT tk 0) (hhi : CHARAT tk 0 ≤ 0xFD) :
    getkey_simple tk key =
      getkey_simple_multibyte tk
        { key with type := termkey_type.TERMKEY_TYPE_UNICODE, modifiers := 0 }
        (spec_seq_nbytes (CHARAT tk 0))
        (CHARAT tk 0 % 2 ^ (7 - spec_seq_nbytes (CHARAT tk 0))) := by
  have m5 : CHARAT tk 0 &&& 0x1f = CHARAT tk 0 % 2 ^ (7 - 2) :=
    Nat.and_pow_two_sub_one_eq_mod _ 5
  have m4 : CHARAT tk 0 &&& 0x0f = CHARAT tk 0 % 2 ^ (7 - 3) :=
    Nat.and_pow_two_sub_one_eq_mod _ 4
  have m3 : CHARAT tk 0 &&& 0x07 = CHARAT tk 0 % 2 ^ (7 - 4) :=
    Nat.and_pow_two_sub_one_eq_mod _ 3
  have m2 : CHARAT tk 0 &&& 0x03 = CHARAT tk 0 % 2 ^ (7 - 5) :=
    Nat.and_pow_two_sub_one_eq_mod _ 2
  have m1 : CHARAT tk 0 &&& 0x01 = CHARAT tk 0 % 2 ^ (7 - 6) :=
    Nat.and_pow_two_sub_one_eq_mod _ 1
  unfold getkey_simple
  dsimp only
  rw [if_neg (by omega), if_pos hutf8, if_neg (by omega)]
  unfold spec_seq_nbytes
  by_cases h2 : CHARAT tk 0 ≤ 0xDF
  · rw [if_pos h2, if_pos (by omega), m5]
  rw [if_neg h2, if_neg (by omega)]
  by_cases h3 : CHARAT tk 0 ≤ 0xEF
  · rw [if_pos h3, if_pos (by omega), m4]
  rw [if_neg h3, if_neg (by omega)]
  by_cases h4 : CHARAT tk 0 ≤ 0xF7
  · rw [if_pos h4, if_pos (by omega), m3]
  rw [if_neg h4, if_neg (by omega)]
  by_cases h5 : CHARAT tk 0 ≤ 0xFB
  · rw [if_pos h5, if_pos (by omega), m2]
  rw [if_neg h5, if_neg (by omega), if_pos (by omega), m1]

/-- C11 (as amended): with the Utf8 flag set, for every lead byte in `0xC0..0xFD` with
declared length `nbytes`, every buffer holding fewer than `nbytes` bytes and every integer
`msec` stored by `termkey_setwaittime`, `getkey_simple` returns `TERMKEY_RES_AGAIN` when
`msec` is not zero (negative values included) and `TERMKEY_RES_NONE` when `msec = 0`, and
leaves the decoder state as it was. -/
theorem getkey_simple_incomplete (tk : termkey_t) (key : termkey_key) (msec : Int)
    (hutf8 : tk.flags &&& TERMKEY_FLAG_UTF8 ≠ 0)
    (hlo : 0xC0 ≤ CHARAT tk 0) (hhi : CHARAT tk 0 ≤ 0xFD)
    (_hcount : 1 ≤ tk.buffcount)
    (hshort : tk.buffcount < spec_seq_nbytes (CHARAT tk 0)) :
    (getkey_simple (termkey_setwaittime tk msec) key).1 =
      (if msec ≠ 0 then termkey_result.TERMKEY_RES_AGAIN
        else termkey_result.TERMKEY_RES_NONE) ∧
    (getkey_simple (termkey_setwaittime tk msec) key).2.1 = termkey_setwaittime tk msec := by
  have hch : ∀ i, CHARAT (termkey_setwaittime tk msec) i = CHARAT tk i := fun _ => rfl
  have hfl : (termkey_setwaittime tk msec).flags &&& TERMKEY_FLAG_UTF8 ≠ 0 := hutf8
  rw [getkey_simple_lead (termkey_setwaittime tk msec) key hfl (by rw [hch]; exact hlo)
    (by rw [hch]; exact hhi), hch]
  have hs : (termkey_setwaittime tk msec).buffcount < spec_seq_nbytes (CHARAT tk 0) := hshort
  unfold getkey_simple_multibyte
  rw [if_pos hs]
  exact ⟨rfl, rfl⟩

set_option maxRecDepth 100000 in
/-- C11, witness of `getkey_simple_incomplete`: the lone lead byte `0xE2` of a 3-byte sequence
in a fresh decoder, wait time set to 50 ms. -/
theorem getkey_simple_incomplete_witness :
    (getkey_simple (termkey_setwaittime (decoder_holding TERMKEY_FLAG_UTF8 [0xE2]) 50)
        blank_key).1 =
      (if (50 : Int) ≠ 0 then termkey_result.TERMKEY_RES_AGAIN
        else termkey_result.TERMKEY_RES_NONE) ∧
    (getkey_simple (termkey_setwaittime (decoder_holding TERMKEY_FLAG_UTF8 [0xE2]) 50)
        blank_key).2.1 = termkey_setwaittime (decoder_holding TERMKEY_FLAG_UTF8 [0xE2]) 50 :=
  getkey_simple_incomplete (decoder_holding TERMKEY_FLAG_UTF8 [0xE2]) blank_key 50
    (by decide) (by decide) (by decide) (by decide) (by decide)

set_option maxRecDepth 100000 in
/-- C11, counterexample to the claim as stated: with the wait time set to `-1`, which is not
`> 0`, the lone lead byte `0xC3` gives `TERMKEY_RES_AGAIN`, not `TERMKEY_RES_NONE`. -/
theorem getkey_simple_negative_waittime_again :
    termkey_getwaittime (termkey_setwaittime (decoder_holding TERMKEY_FLAG_UTF8 [0xC3]) (-1))
      = -1 ∧
    ¬ ((-1 : Int) > 0) ∧
    window (termkey_setwaittime (decoder_holding TERMKEY_FLAG_UTF8 [0xC3]) (-1)) = [0xC3] ∧
    (getkey_simple (termkey_setwaittime (decoder_holding TERMKEY_FLAG_UTF8 [0xC3]) (-1))
      blank_key).1 = termkey_result.TERMKEY_RES_AGAIN ∧
    (getkey_simple (termkey_setwaittime (decoder_holding TERMKEY_FLAG_UTF8 [0xC3]) (-1))
      blank_key).1 ≠ termkey_result.TERMKEY_RES_NONE := by
  refine ⟨?_, ?_, ?_, ?_, ?_⟩ <;> decide


/-! ## The key-name registry -/

theorem fill_holes_length (names : List (Option String)) (start n : Nat) :
    (fill_holes names start n).length = names.length := by
  induction n generalizing names start with
  | zero => rfl
  | succ n ih =>
    unfold fill_holes
    rw [ih, List.length_set]

theorem fill_holes_lookup (n : Nat) :
    ∀ (names : List (Option String)) (start i : Nat),
      (fill_holes names start n)[i]? =
        if start ≤ i ∧ i < start + n ∧ i < names.length then some none else names[i]? := by
  induction n with
  | zero =>
    intro names start i
    unfold fill_holes
    rw [if_neg (by omega)]
  | succ n ih =>
    intro names start i
    unfold fill_holes
    rw [ih, List.length_set]
    by_cases h1 : start + 1 ≤ i ∧ i < start + 1 + n ∧ i < names.length
    · rw [if_pos h1, if_pos (by omega)]
    · rw [if_neg h1]
      by_cases h2 : i = start
      · subst h2
        by_cases h3 : i < names.length
        · rw [if_pos (by omega), List.getElem?_set_self h3]
        · rw [if_neg (by omega), List.getElem?_eq_none (by rw [List.length_set]; omega),
            List.getElem?_eq_none (by omega)]
      · rw [if_neg (by omega), List.getElem?_set_ne (by omega)]

theorem realloc_length {α : Type} (p : List α) (n : Nat) (fill : α) :
    (realloc p n fill).length = n := by
  unfold realloc
  rw [List.length_append, List.length_take, List.length_replicate]
  omega

theorem realloc_lookup {α : Type} (p : List α) (n i : Nat) (fill : α) (h : i < p.length)
    (hn : p.length ≤ n) : (realloc p n fill)[i]? = p[i]? := by
  rw [realloc_of_le p n fill hn, List.getElem?_append_left h]


theorem termkey_register_keyname_eq (tk : termkey_t) (sym : Int) (name : Option String) :
    termkey_register_keyname tk sym name =
      if (if sym = 0 then tk.nkeynames else sym) ≥ tk.nkeynames then
        ({ tk with
            keynames :=
              (fill_holes
                (realloc tk.keynames ((if sym = 0 then tk.nkeynames else sym) + 1).toNat none)
                tk.nkeynames.toNat
                ((if sym = 0 then tk.nkeynames else sym) - tk.nkeynames).toNat).set
                (if sym = 0 then tk.nkeynames else sym).toNat name,
            nkeynames := (if sym = 0 then tk.nkeynames else sym) + 1 },
          if sym = 0 then tk.nkeynames else sym)
      else
        ({ tk with
            keynames := tk.keynames.set (if sym = 0 then tk.nkeynames else sym).toNat name },
          if sym = 0 then tk.nkeynames else sym) := by
  unfold termkey_register_keyname
  dsimp only
  split_ifs <;> rfl

theorem termkey_get_keyname_eq (tk : termkey_t) (i : Int) (h0 : 0 ≤ i)
    (h1 : i < tk.nkeynames) :
    termkey_get_keyname tk i = (tk.keynames[i.toNat]?).getD none := by
  unfold termkey_get_keyname TERMKEY_SYM_UNKNOWN
  rw [if_neg (by omega), if_pos h1, List.getD_eq_getElem?_getD]

/-- C12: for every well-formed registry (its length an `int`), every keysym id `sym ≥ 0` and
every name, the id to be returned being below `INT_MAX` so that the `int` sum `sym + 1` of
the source does not overflow: `termkey_register_keyname` returns `sym` when `sym ≠ 0` and the
current table length when `sym = 0`; the table length afterwards is
`max (old length) (id + 1)` and the table has that many slots; `termkey_get_keyname` of the
returned id is then the name; the ids from the old length up to the returned id render as
"no name" (`NULL`); and the other old slots render as before. The hole-filling loop sets its
slots to `NULL` whatever `realloc` left in them. The sum `id + 1` and the new table length
are at most `INT_MAX`: every `int` the function computes is the exact value. -/
theorem termkey_register_keyname_round_trip (tk : termkey_t) (sym : Int)
    (name : Option String) (hinv : registry_inv tk) (hsym : 0 ≤ sym)
    (hmax : tk.nkeynames ≤ INT_MAX)
    (hfit : (if sym ≠ 0 then sym else tk.nkeynames) < INT_MAX) :
    (termkey_register_keyname tk sym name).2 = (if sym ≠ 0 then sym else tk.nkeynames) ∧
    (termkey_register_keyname tk sym name).1.nkeynames
      = max tk.nkeynames ((termkey_register_keyname tk sym name).2 + 1) ∧
    registry_inv (termkey_register_keyname tk sym name).1 ∧
    termkey_get_keyname (termkey_register_keyname tk sym name).1
      (termkey_register_keyname tk sym name).2 = name ∧
    (∀ i, tk.nkeynames ≤ i → i < (termkey_register_keyname tk sym name).2 →
      termkey_get_keyname (termkey_register_keyname tk sym name).1 i = none) ∧
    (∀ i, 0 ≤ i → i < tk.nkeynames → i ≠ (termkey_register_keyname tk sym name).2 →
      termkey_get_keyname (termkey_register_keyname tk sym name).1 i
        = termkey_get_keyname tk i) ∧
    (∀ (names : List (Option String)) (start n i : Nat), start ≤ i → i < start + n →
      i < names.length → (fill_holes names start n)[i]? = some none) ∧
    (termkey_register_keyname tk sym name).2 + 1 ≤ INT_MAX ∧
    (termkey_register_keyname tk sym name).1.nkeynames ≤ INT_MAX := by
  obtain ⟨h0, hL⟩ := hinv
  rw [termkey_register_keyname_eq]
  generalize hs : (if sym = 0 then tk.nkeynames else sym) = s
  have hs0 : 0 ≤ s := by
    rw [← hs]
    split_ifs <;> omega
  have hs1 : s = if sym ≠ 0 then sym else tk.nkeynames := by
    rw [← hs]
    split_ifs <;> first | rfl | omega
  have hs2 : s + 1 ≤ INT_MAX := by
    rw [hs1]
    omega
  by_cases hg : s ≥ tk.nkeynames
  · rw [if_pos hg]
    dsimp only
    have hlen : (fill_holes (realloc tk.keynames (s + 1).toNat none) tk.nkeynames.toNat
        (s - tk.nkeynames).toNat).length = (s + 1).toNat := by
      rw [fill_holes_length, realloc_length]
    refine ⟨hs1, ?_, ⟨by show (0 : Int) ≤ s + 1; omega, ?_⟩, ?_, ?_, ?_, ?_, hs2, hs2⟩
    · rw [max_eq_right (by omega)]
    · dsimp only
      rw [List.length_set, hlen]
      omega
    · rw [termkey_get_keyname_eq _ _ hs0 (by dsimp only; omega)]
      dsimp only
      rw [List.getElem?_set_self (by rw [hlen]; omega)]
      rfl
    · intro i hi1 hi2
      rw [termkey_get_keyname_eq _ _ (by omega) (by dsimp only; omega)]
      dsimp only
      rw [List.getElem?_set_ne (by omega), fill_holes_lookup,
        if_pos ⟨by omega, by omega, by rw [realloc_length]; omega⟩]
      rfl
    · intro i hi1 hi2 hi3
      rw [termkey_get_keyname_eq _ _ hi1 (by dsimp only; omega),
        termkey_get_keyname_eq _ _ hi1 hi2]
      dsimp only
      rw [List.getElem?_set_ne (by omega), fill_holes_lookup, if_neg (by omega),
        realloc_lookup _ _ _ _ (by omega) (by omega)]
    · intro names start n i h1 h2 h3
      rw [fill_holes_lookup, if_pos ⟨h1, h2, h3⟩]
  · rw [if_neg hg]
    dsimp only
    refine ⟨hs1, ?_, ⟨h0, ?_⟩, ?_, ?_, ?_, ?_, hs2, hmax⟩
    · rw [max_eq_left (by omega)]
    · dsimp only
      rw [List.length_set]
      exact hL
    · rw [termkey_get_keyname_eq _ _ hs0 (by dsimp only; omega)]
      dsimp only
      rw [List.getElem?_set_self (by omega)]
      rfl
    · intro i hi1 hi2
      omega
    · intro i hi1 hi2 hi3
      rw [termkey_get_keyname_eq _ _ hi1 (by dsimp only; omega),
        termkey_get_keyname_eq _ _ hi1 hi2]
      dsimp only
      rw [List.getElem?_set_ne (by omega)]
    · intro names start n i h1 h2 h3
      rw [fill_holes_lookup, if_pos ⟨h1, h2, h3⟩]


set_option maxRecDepth 100000 in
/-- C12, witness of `termkey_register_keyname_round_trip`: the id 70 registered in the
registry of a fresh decoder. -/
theorem termkey_register_keyname_round_trip_witness :
    registry_inv (termkey_new 0 0 false) ∧
    (termkey_register_keyname (termkey_new 0 0 false) 70 (some "F70")).2 = 70 ∧
    (termkey_register_keyname (termkey_new 0 0 false) 70 (some "F70")).1.nkeynames = 71 ∧
    termkey_get_keyname (termkey_register_keyname (termkey_new 0 0 false) 70 (some "F70")).1 67
      = none ∧
    registry_inv (termkey_register_keyname (termkey_new 0 0 false) 70 (some "F70")).1 ∧
    termkey_get_keyname (termkey_register_keyname (termkey_new 0 0 false) 70 (some "F70")).1
      (termkey_register_keyname (termkey_new 0 0 false) 70 (some "F70")).2 = some "F70" :=
  have h := termkey_register_keyname_round_trip (termkey_new 0 0 false) 70 (some "F70")
    (by decide) (by decide) (by decide) (by decide)
  ⟨by decide, by decide, by decide, by decide, h.2.2.1, h.2.2.2.1⟩

theorem termkey_register_keyname_congr (a b : termkey_t) (sym : Int) (name : Option String)
    (h : a.keynames = b.keynames ∧ a.nkeynames = b.nkeynames) :
    (termkey_register_keyname a sym name).1.keynames
        = (termkey_register_keyname b sym name).1.keynames ∧
      (termkey_register_keyname a sym name).1.nkeynames
        = (termkey_register_keyname b sym name).1.nkeynames := by
  obtain ⟨h1, h2⟩ := h
  rw [termkey_register_keyname_eq, termkey_register_keyname_eq, h1, h2]
  split_ifs <;> exact ⟨rfl, rfl⟩

theorem register_keynames_congr (l : List (Int × String)) (a b : termkey_t)
    (h : a.keynames = b.keynames ∧ a.nkeynames = b.nkeynames) :
    (l.foldl (fun t e => (termkey_register_keyname t e.1 (some e.2)).1) a).keynames
        = (l.foldl (fun t e => (termkey_register_keyname t e.1 (some e.2)).1) b).keynames ∧
      (l.foldl (fun t e => (termkey_register_keyname t e.1 (some e.2)).1) a).nkeynames
        = (l.foldl (fun t e => (termkey_register_keyname t e.1 (some e.2)).1) b).nkeynames := by
  induction l generalizing a b with
  | nil => exact h
  | cons e l ih =>
    rw [List.foldl_cons, List.foldl_cons]
    exact ih _ _ (termkey_register_keyname_congr a b e.1 (some e.2) h)

theorem register_c0_registry (tk : termkey_t) (sym : Int) (ctrl : Nat) :
    (register_c0 tk sym ctrl none).1.keynames = tk.keynames ∧
    (register_c0 tk sym ctrl none).1.nkeynames = tk.nkeynames := by
  unfold register_c0 register_c0_full
  split <;> exact ⟨rfl, rfl⟩

theorem termkey_new_full_registry (fd : Int) (flags buffsize : Nat) (waittime : Int)
    (loc : Bool) :
    (termkey_new_full fd flags buffsize waittime loc).keynames
        = (termkey_new 0 0 false).keynames ∧
      (termkey_new_full fd flags buffsize waittime loc).nkeynames
        = (termkey_new 0 0 false).nkeynames := by
  unfold termkey_new termkey_new_full
  dsimp only
  simp only [register_c0_registry]
  exact register_keynames_congr _ _ _ ⟨rfl, rfl⟩

theorem termkey_get_keyname_congr (a b : termkey_t) (sym : Int)
    (h : a.keynames = b.keynames ∧ a.nkeynames = b.nkeynames) :
    termkey_get_keyname a sym = termkey_get_keyname b sym := by
  unfold termkey_get_keyname
  rw [h.1, h.2]

set_option maxRecDepth 100000 in
/-- C13, the code at the failing input: in the registry built by `termkey_new_full` the
reserved id `TERMKEY_SYM_NONE = 0` has no name (`NULL`), because registering the table entry
`(TERMKEY_SYM_NONE, "NONE")` takes the `!sym` branch and allocates the new id 64; the table
length is 65 and `"NONE"` is the name of id 64. Every other entry of the static table renders
as its name. -/
theorem termkey_new_full_none_unnamed :
    (∀ fd flags buffsize waittime loc,
      termkey_get_keyname (termkey_new_full fd flags buffsize waittime loc) TERMKEY_SYM_NONE
        = none ∧
      (termkey_new_full fd flags buffsize waittime loc).nkeynames = 65 ∧
      (termkey_new_full fd flags buffsize waittime loc).keynames.length = 65 ∧
      termkey_get_keyname (termkey_new_full fd flags buffsize waittime loc) 64
        = some "NONE") ∧
    (keynames.head? = some (TERMKEY_SYM_NONE, "NONE")) ∧
    (∀ e, e ∈ keynames → e.1 ≠ TERMKEY_SYM_NONE →
      termkey_get_keyname (termkey_new 0 0 false) e.1 = some e.2) := by
  refine ⟨?_, ?_, ?_⟩
  · intro fd flags buffsize waittime loc
    have h := termkey_new_full_registry fd flags buffsize waittime loc
    rw [termkey_get_keyname_congr _ _ _ h, termkey_get_keyname_congr _ _ _ h, h.1, h.2]
    refine ⟨?_, ?_, ?_, ?_⟩ <;> decide
  · decide
  · decide


/-! ## The readiness pump -/

theorem advisereadable_len_neg_one : ((-1 : Int) % 2 ^ 64).toNat = 2 ^ 64 - 1 := by decide

theorem advisereadable_len_pos (n : Int) (h1 : 0 ≤ n) (h2 : n ≤ 64) :
    (n % 2 ^ 64).toNat = n.toNat := by
  rw [Int.emod_eq_of_lt h1 (by omega)]

set_option maxRecDepth 100000 in
/-- C14, the code at the failing input: when `read` returns `-1` with an `errno` other than
`EAGAIN` (here `EIO = 5`), `size_t len` is `2 ^ 64 - 1`, the test `len < 1` fails, and
`termkey_advisereadable` calls `termkey_pushinput` with that `inputlen` on its 64-byte
array instead of setting `is_closed` and returning `TERMKEY_RES_NONE`. The other three cases
do what the claim says: `read = 0` closes and returns `TERMKEY_RES_NONE` with the byte buffer
untouched; `read = -1` with `EAGAIN` returns `TERMKEY_RES_NONE` and changes nothing; `read = n`
with `1 ≤ n ≤ 64` appends the `n` bytes read and returns `TERMKEY_RES_AGAIN` (given room after
enough doublings). -/
theorem termkey_advisereadable_error_not_closed :
    (termkey_advisereadable 0 (termkey_new 0 0 false) (-1) 5 (List.replicate 64 0)
      = advise_outcome.undefined_copy (2 ^ 64 - 1) ∧
    termkey_advisereadable 0 (termkey_new 0 0 false) (-1) 5 (List.replicate 64 0)
      ≠ advise_outcome.returned termkey_result.TERMKEY_RES_NONE
        { termkey_new 0 0 false with is_closed := true }) ∧
    (∀ fuel tk errno buffer, errno ≠ EAGAIN →
      termkey_advisereadable fuel tk (-1) errno buffer
        = advise_outcome.undefined_copy (2 ^ 64 - 1)) ∧
    (∀ fuel tk errno buffer,
      termkey_advisereadable fuel tk 0 errno buffer
        = advise_outcome.returned termkey_result.TERMKEY_RES_NONE
          { tk with is_closed := true }) ∧
    (∀ fuel tk buffer,
      termkey_advisereadable fuel tk (-1) EAGAIN buffer
        = advise_outcome.returned termkey_result.TERMKEY_RES_NONE tk) ∧
    (∀ fuel tk (n : Nat) errno buffer, 1 ≤ n → n ≤ 64 → buffer.length = 64 → buffer_inv tk →
      tk.buffstart + tk.buffcount + n ≤ tk.buffsize * 2 ^ fuel →
      ∃ tk1, termkey_advisereadable fuel tk (n : Int) errno buffer
          = advise_outcome.returned termkey_result.TERMKEY_RES_AGAIN tk1 ∧
        window tk1 = window tk ++ buffer.take n ∧
        tk1.buffcount = tk.buffcount + n ∧
        tk1.is_closed = tk.is_closed) := by
  have hneg : ∀ fuel tk errno buffer, errno ≠ EAGAIN →
      termkey_advisereadable fuel tk (-1) errno buffer
        = advise_outcome.undefined_copy (2 ^ 64 - 1) := by
    intro fuel tk errno buffer he
    unfold termkey_advisereadable
    rw [advisereadable_len_neg_one]
    dsimp only
    rw [if_neg (fun h => he h.2), if_neg (by decide), if_neg (by decide)]
  refine ⟨⟨hneg _ _ _ _ (by decide), ?_⟩, hneg, ?_, ?_, ?_⟩
  · rw [hneg _ _ _ _ (by decide)]
    exact fun h => by cases h
  · intro fuel tk errno buffer
    unfold termkey_advisereadable
    have h0 : ((0 : Int) % 2 ^ 64).toNat = 0 := by decide
    rw [h0]
    dsimp only
    rw [if_neg (fun h => absurd h.1 (by decide)), if_pos (by decide)]
  · intro fuel tk buffer
    unfold termkey_advisereadable
    rw [advisereadable_len_neg_one]
    dsimp only
    rw [if_pos ⟨rfl, rfl⟩]
  · intro fuel tk n errno buffer h1 h2 hb hinv hroom
    unfold termkey_advisereadable
    rw [advisereadable_len_pos _ (by omega) (by omega), Int.toNat_natCast]
    dsimp only
    have hn : ¬ (n = 2 ^ 64 - 1 ∧ errno = EAGAIN) := by
      intro h
      have h3 := h.1
      have h4 : (2 : Nat) ^ 64 - 1 = 18446744073709551615 := by decide
      omega
    rw [if_neg hn, if_neg (by omega), if_pos h2]
    have hl : (buffer.take n).length = n := by
      rw [List.length_take]
      omega
    obtain ⟨k, -, hle, -, heq⟩ := termkey_pushinput_eq tk (buffer.take n) fuel hinv
      (by rw [hl]; exact hroom)
    rw [heq]
    dsimp only
    refine ⟨_, rfl, ?_, ?_, rfl⟩
    · exact pushed_window tk (buffer.take n) k hinv hle
    · dsimp only
      rw [hl]


/-! ## The code-point emitter, row by row -/

/-- C15: for every code point, every C0 table and both settings of `NoInterpret`,
`emit_codepoint` produces the key of spec table 4.2.1: below `0x20`, the KeySym `c0[cp].sym`
with modifiers `c0[cp].modifier_set` (and `utf8` untouched) when `NoInterpret` is unset and
the sym is neither `UNKNOWN` nor 0, else Unicode `cp + 0x40` with Ctrl; `0x20` and `0x7F`
give the KeySyms Space and DEL without modifier when `NoInterpret` is unset; every other code
point of `[0x20, 0x80)` gives Unicode `cp` without modifier; `[0x80, 0xA0)` gives Unicode
`cp - 0x40` with Ctrl and Alt; `0xA0` and above gives Unicode `cp` without modifier. -/
theorem emit_codepoint_table (tk : termkey_t) (cp : Nat) (key : termkey_key) :
    (cp < 0x20 → tk.flags &&& TERMKEY_FLAG_NOINTERPRET = 0 →
      (tk.c0.getD cp { sym := 0, modifier_mask := 0, modifier_set := 0 }).sym
        ≠ TERMKEY_SYM_UNKNOWN →
      (tk.c0.getD cp { sym := 0, modifier_mask := 0, modifier_set := 0 }).sym ≠ 0 →
      (emit_codepoint tk cp key).type = termkey_type.TERMKEY_TYPE_KEYSYM ∧
      (emit_codepoint tk cp key).code
        = (tk.c0.getD cp { sym := 0, modifier_mask := 0, modifier_set := 0 }).sym ∧
      (emit_codepoint tk cp key).modifiers
        = (tk.c0.getD cp { sym := 0, modifier_mask := 0, modifier_set := 0 }).modifier_set ∧
      (emit_codepoint tk cp key).utf8 = key.utf8) ∧
    (cp < 0x20 →
      (tk.flags &&& TERMKEY_FLAG_NOINTERPRET ≠ 0 ∨
        (tk.c0.getD cp { sym := 0, modifier_mask := 0, modifier_set := 0 }).sym
          = TERMKEY_SYM_UNKNOWN ∨
        (tk.c0.getD cp { sym := 0, modifier_mask := 0, modifier_set := 0 }).sym = 0) →
      (emit_codepoint tk cp key).type = termkey_type.TERMKEY_TYPE_UNICODE ∧
      (emit_codepoint tk cp key).code = (cp : Int) + 0x40 ∧
      (emit_codepoint tk cp key).modifiers = TERMKEY_KEYMOD_CTRL) ∧
    (cp = 0x20 → tk.flags &&& TERMKEY_FLAG_NOINTERPRET = 0 →
      (emit_codepoint tk cp key).type = termkey_type.TERMKEY_TYPE_KEYSYM ∧
      (emit_codepoint tk cp key).code = TERMKEY_SYM_SPACE ∧
      (emit_codepoint tk cp key).modifiers = 0 ∧
      (emit_codepoint tk cp key).utf8 = key.utf8) ∧
    (cp = 0x7f → tk.flags &&& TERMKEY_FLAG_NOINTERPRET = 0 →
      (emit_codepoint tk cp key).type = termkey_type.TERMKEY_TYPE_KEYSYM ∧
      (emit_codepoint tk cp key).code = TERMKEY_SYM_DEL ∧
      (emit_codepoint tk cp key).modifiers = 0 ∧
      (emit_codepoint tk cp key).utf8 = key.utf8) ∧
    (0x20 ≤ cp → cp < 0x80 →
      ((cp ≠ 0x20 ∧ cp ≠ 0x7f) ∨ tk.flags &&& TERMKEY_FLAG_NOINTERPRET ≠ 0) →
      (emit_codepoint tk cp key).type = termkey_type.TERMKEY_TYPE_UNICODE ∧
      (emit_codepoint tk cp key).code = (cp : Int) ∧
      (emit_codepoint tk cp key).modifiers = 0) ∧
    (0x80 ≤ cp → cp < 0xa0 →
      (emit_codepoint tk cp key).type = termkey_type.TERMKEY_TYPE_UNICODE ∧
      (emit_codepoint tk cp key).code = (cp : Int) - 0x40 ∧
      (emit_codepoint tk cp key).modifiers = TERMKEY_KEYMOD_CTRL ||| TERMKEY_KEYMOD_ALT) ∧
    (0xa0 ≤ cp →
      (emit_codepoint tk cp key).type = termkey_type.TERMKEY_TYPE_UNICODE ∧
      (emit_codepoint tk cp key).code = (cp : Int) ∧
      (emit_codepoint tk cp key).modifiers = 0) := by
  refine ⟨?_, ?_, ?_, ?_, ?_, ?_, ?_⟩
  · intro h hni h1 h2
    rw [emit_codepoint_c0 tk cp key h, if_pos ⟨hni, h1, h2⟩]
    exact ⟨rfl, rfl, Nat.zero_or _, rfl⟩
  · intro h hor
    rw [emit_codepoint_c0 tk cp key h, if_neg (by
      rintro ⟨a, b, c⟩
      rcases hor with h1 | h1 | h1
      · exact h1 a
      · exact b h1
      · exact c h1)]
    exact ⟨rfl, rfl, rfl⟩
  · intro h hni
    unfold emit_codepoint
    split_ifs <;> first | exact ⟨rfl, rfl, rfl, rfl⟩ | omega
  · intro h hni
    unfold emit_codepoint
    split_ifs <;> first | exact ⟨rfl, rfl, rfl, rfl⟩ | omega
  · intro h1 h2 hor
    unfold emit_codepoint
    split_ifs <;> first | exact ⟨rfl, rfl, rfl⟩ | omega
  · intro h1 h2
    unfold emit_codepoint
    split_ifs <;> first | exact ⟨rfl, rfl, rfl⟩ | omega
  · intro h
    rw [emit_codepoint_high tk cp key h]
    exact ⟨rfl, rfl, rfl⟩


/-! ## The `utf8` field -/

theorem or_lead5 (x : Nat) : 0xf8 ||| (x &&& 0x03) = 0xf8 + x % 4 := by
  have h1 : x &&& 0x03 = x % 4 := Nat.and_pow_two_sub_one_eq_mod x 2
  have h2 : x % 4 < 2 ^ 2 := Nat.mod_lt _ (by decide)
  rw [h1]
  exact (Nat.mul_add_lt_is_or h2 62).symm

theorem or_lead6 (x : Nat) : 0xfc ||| (x &&& 0x01) = 0xfc + x % 2 := by
  have h1 : x &&& 0x01 = x % 2 := Nat.and_pow_two_sub_one_eq_mod x 1
  have h2 : x % 2 < 2 ^ 1 := Nat.mod_lt _ (by decide)
  rw [h1]
  exact (Nat.mul_add_lt_is_or h2 126).symm

theorem spec_utf8_encode_long_length (cp : Nat) :
    (spec_utf8_encode_long cp).length = utf8_seqlen cp := by
  unfold spec_utf8_encode_long utf8_seqlen
  split_ifs <;> rfl

theorem fill_utf8_encode_long (key : termkey_key) (cp : Nat) (hlen : key.utf8.length = 7)
    (hcode : key.code = (cp : Int)) (hcp : cp ≤ 0x7FFFFFFF) :
    (fill_utf8 key).utf8.take (utf8_seqlen cp) = spec_utf8_encode_long cp ∧
    (fill_utf8 key).utf8.drop (utf8_seqlen cp) = 0 :: key.utf8.drop (utf8_seqlen cp + 1) := by
  obtain ⟨u0, u1, u2, u3, u4, u5, u6, hu⟩ := list_length_seven _ hlen
  unfold fill_utf8 spec_utf8_encode_long utf8_seqlen
  rw [hcode, hu, Int.toNat_natCast]
  by_cases h1 : cp < 0x80
  · simp only [h1, if_true, fill_utf8_loop, and_ascii, List.set_cons_zero, List.set_cons_succ,
      List.length_cons, List.length_nil, List.take, List.drop, lt_self_iff_false, if_false]
    refine ⟨?_, trivial⟩
    congr 1
    omega
  by_cases h2 : cp < 0x800
  · simp only [h1, h2, if_true, if_false, fill_utf8_loop, or_cont, or_lead2, shift6,
      List.set_cons_zero, List.set_cons_succ, List.length_cons, List.length_nil, List.take,
      List.drop, Nat.lt_add_one, gt_iff_lt, Nat.one_lt_ofNat, Nat.reduceAdd,
      lt_self_iff_false]
    refine ⟨?_, trivial⟩
    congr 2
    omega
  by_cases h3 : cp < 0x10000
  · simp only [h1, h2, h3, if_true, if_false, fill_utf8_loop, or_cont, or_lead3, shift6,
      List.set_cons_zero, List.set_cons_succ, List.length_cons, List.length_nil, List.take,
      List.drop, Nat.lt_add_one, gt_iff_lt, Nat.one_lt_ofNat, Nat.reduceAdd,
      lt_self_iff_false]
    refine ⟨?_, trivial⟩
    congr 2
    omega
  by_cases h4 : cp < 0x200000
  · simp only [h1, h2, h3, h4, if_true, if_false, fill_utf8_loop, or_cont, or_lead4, shift6,
      List.set_cons_zero, List.set_cons_succ, List.length_cons, List.length_nil, List.take,
      List.drop, Nat.lt_add_one, gt_iff_lt, Nat.one_lt_ofNat, Nat.reduceAdd,
      lt_self_iff_false]
    refine ⟨?_, trivial⟩
    have e1 : cp / 64 / 64 / 64 % 8 = cp / 262144 := by omega
    have e2 : cp / 64 / 64 % 64 = cp / 4096 % 64 := by omega
    rw [e1, e2]
  by_cases h5 : cp < 0x4000000
  · simp only [h1, h2, h3, h4, h5, if_true, if_false, fill_utf8_loop, or_cont, or_lead5,
      shift6, List.set_cons_zero, List.set_cons_succ, List.length_cons, List.length_nil,
      List.take, List.drop, Nat.lt_add_one, gt_iff_lt, Nat.one_lt_ofNat, Nat.reduceAdd,
      lt_self_iff_false]
    refine ⟨?_, trivial⟩
    have e1 : cp / 64 / 64 / 64 / 64 % 4 = cp / 16777216 := by omega
    have e2 : cp / 64 / 64 / 64 % 64 = cp / 262144 % 64 := by omega
    have e3 : cp / 64 / 64 % 64 = cp / 4096 % 64 := by omega
    rw [e1, e2, e3]
  simp only [h1, h2, h3, h4, h5, if_true, if_false, fill_utf8_loop, or_cont, or_lead6,
    shift6, List.set_cons_zero, List.set_cons_succ, List.length_cons, List.length_nil,
    List.take, List.drop, Nat.lt_add_one, gt_iff_lt, Nat.one_lt_ofNat, Nat.reduceAdd,
    lt_self_iff_false]
  refine ⟨?_, trivial⟩
  have e1 : cp / 64 / 64 / 64 / 64 / 64 % 2 = cp / 1073741824 := by omega
  have e2 : cp / 64 / 64 / 64 / 64 % 64 = cp / 16777216 % 64 := by omega
  have e3 : cp / 64 / 64 / 64 % 64 = cp / 262144 % 64 := by omega
  have e4 : cp / 64 / 64 % 64 = cp / 4096 % 64 := by omega
  rw [e1, e2, e3, e4]

theorem emit_codepoint_eq_fill (tk : termkey_t) (cp : Nat) (key : termkey_key)
    (ht : (emit_codepoint tk cp key).type = termkey_type.TERMKEY_TYPE_UNICODE) :
    emit_codepoint tk cp key =
      fill_utf8 { key with
        type := termkey_type.TERMKEY_TYPE_UNICODE,
        code := (emit_codepoint tk cp key).code,
        modifiers := (emit_codepoint tk cp key).modifiers } := by
  by_cases h : cp < 0x20
  · rw [emit_codepoint_c0 _ _ _ h] at ht ⊢
    split_ifs at ht ⊢ with hc
    rfl
  · unfold emit_codepoint at ht ⊢
    rw [if_neg h] at ht ⊢
    split_ifs at ht ⊢ <;> first | rfl | cases ht

theorem spec_utf8_encode_long_eq (cp : Nat) (h : cp ≤ 0x10FFFF) :
    spec_utf8_encode_long cp = spec_utf8_encode cp := by
  unfold spec_utf8_encode_long spec_utf8_encode
  split_ifs <;> first | rfl | omega

/-- C16: for every key of type Unicode produced by `emit_codepoint` whose codepoint `cp` is at
most `0x7FFFFFFF`, the array `key.utf8` (7 bytes) holds the canonical shortest-form UTF-8
encoding of `cp` in its first `utf8_seqlen cp` bytes, with `1 ≤ utf8_seqlen cp ≤ 6`, then a
NUL at index `utf8_seqlen cp`; the bytes after the NUL are the ones the array held before and
the array still has 7 bytes, so nothing is written above index 6. -/
theorem fill_utf8_canonical (tk : termkey_t) (cpin cp : Nat) (key : termkey_key)
    (hlen : key.utf8.length = 7)
    (ht : (emit_codepoint tk cpin key).type = termkey_type.TERMKEY_TYPE_UNICODE)
    (hcode : (emit_codepoint tk cpin key).code = (cp : Int))
    (hcp : cp ≤ 0x7FFFFFFF) :
    1 ≤ utf8_seqlen cp ∧ utf8_seqlen cp ≤ 6 ∧
    (spec_utf8_encode_long cp).length = utf8_seqlen cp ∧
    (emit_codepoint tk cpin key).utf8.take (utf8_seqlen cp) = spec_utf8_encode_long cp ∧
    (emit_codepoint tk cpin key).utf8[utf8_seqlen cp]? = some 0 ∧
    (emit_codepoint tk cpin key).utf8.drop (utf8_seqlen cp + 1)
      = key.utf8.drop (utf8_seqlen cp + 1) ∧
    (emit_codepoint tk cpin key).utf8.length = 7 := by
  have hn1 : 1 ≤ utf8_seqlen cp := by
    unfold utf8_seqlen
    split_ifs <;> omega
  have hn6 : utf8_seqlen cp ≤ 6 := by
    unfold utf8_seqlen
    split_ifs <;> omega
  rw [emit_codepoint_eq_fill tk cpin key ht, hcode]
  obtain ⟨e1, e2⟩ := fill_utf8_encode_long
    { key with
      type := termkey_type.TERMKEY_TYPE_UNICODE, code := (cp : Int),
      modifiers := (emit_codepoint tk cpin key).modifiers }
    cp hlen rfl hcp
  generalize (fill_utf8 { key with
      type := termkey_type.TERMKEY_TYPE_UNICODE, code := (cp : Int),
      modifiers := (emit_codepoint tk cpin key).modifiers }).utf8 = out at e1 e2
  dsimp only at e2
  refine ⟨hn1, hn6, spec_utf8_encode_long_length cp, e1, ?_, ?_, ?_⟩
  · have h := congrArg (fun l => l[0]?) e2
    simpa using h
  · have h := congrArg List.tail e2
    simpa using h
  · have h := congrArg List.length e2
    simp only [List.length_drop, List.length_cons, hlen] at h
    omega

set_option maxRecDepth 100000 in
/-- C16, witness of `fill_utf8_canonical`: the letter `h` emitted in a fresh decoder, whose
`utf8` field the test compares with `"h"`. -/
theorem fill_utf8_canonical_witness :
    (emit_codepoint (termkey_new 0 0 false) 0x68 blank_key).utf8 = [0x68, 0, 0, 0, 0, 0, 0] ∧
    (emit_codepoint (termkey_new 0 0 false) 0x7FFFFFFF blank_key).utf8
      = [0xFD, 0xBF, 0xBF, 0xBF, 0xBF, 0xBF, 0] ∧
    spec_utf8_encode_long 0x68 = [0x68] ∧
    1 ≤ utf8_seqlen 0x68 ∧ utf8_seqlen 0x68 ≤ 6 ∧
    (spec_utf8_encode_long 0x68).length = utf8_seqlen 0x68 ∧
    (emit_codepoint (termkey_new 0 0 false) 0x68 blank_key).utf8.take (utf8_seqlen 0x68)
      = spec_utf8_encode_long 0x68 ∧
    (emit_codepoint (termkey_new 0 0 false) 0x68 blank_key).utf8[utf8_seqlen 0x68]? = some 0 ∧
    (emit_codepoint (termkey_new 0 0 false) 0x68 blank_key).utf8.drop (utf8_seqlen 0x68 + 1)
      = blank_key.utf8.drop (utf8_seqlen 0x68 + 1) ∧
    (emit_codepoint (termkey_new 0 0 false) 0x68 blank_key).utf8.length = 7 :=
  ⟨by decide, by decide, by decide,
    fill_utf8_canonical (termkey_new 0 0 false) 0x68 0x68 blank_key
      (by decide) (by decide) (by decide) (by decide)⟩


/-! ## Rendering a key -/

theorem snprint_key_do_codepoint_eq (tk : termkey_t) (key : termkey_key) (w : Bool)
    (out body : List Nat) (hbody : snprint_key_body tk key = some body)
    (hne : body ≠ [] ∨ w = false) :
    snprint_key_do_codepoint tk key w out out.length =
      some (out ++ body ++ (if w then cstring ">" else []),
        (out ++ body ++ (if w then cstring ">" else [])).length) := by
  have hc : cstring ">" = [0x3E] := by decide
  unfold snprint_key_do_codepoint snprintf
  rw [hbody, hc]
  dsimp only
  by_cases hb : body = []
  · subst hb
    have hw : w = false := by
      rcases hne with h | h
      · exact absurd rfl h
      · exact h
    subst hw
    simp
  · have hl : ¬ body.length ≤ 0 := by
      have := List.length_pos.mpr hb
      omega
    rw [if_neg hl]
    cases w <;> simp [Nat.add_assoc]

theorem snprint_key_shift_eq (tk : termkey_t) (key : termkey_key) (longmod : Nat) (w : Bool)
    (out body : List Nat) (hbody : snprint_key_body tk key = some body)
    (hne : body ≠ [] ∨ w = false) :
    snprint_key_shift tk key longmod w out out.length =
      some (out ++
          (if key.modifiers &&& TERMKEY_KEYMOD_SHIFT ≠ 0 then
            (if longmod ≠ 0 then cstring "Shift-" else cstring "S-") else []) ++
          body ++ (if w then cstring ">" else []),
        (out ++
          (if key.modifiers &&& TERMKEY_KEYMOD_SHIFT ≠ 0 then
            (if longmod ≠ 0 then cstring "Shift-" else cstring "S-") else []) ++
          body ++ (if w then cstring ">" else [])).length) := by
  have c1 : cstring "Shift-" = [83, 104, 105, 102, 116, 45] := by decide
  have c2 : cstring "S-" = [83, 45] := by decide
  unfold snprint_key_shift snprintf
  by_cases hm : key.modifiers &&& TERMKEY_KEYMOD_SHIFT ≠ 0
  · rw [if_pos hm, if_pos hm]
    dsimp only
    by_cases hl : longmod ≠ 0
    · rw [if_pos hl, c1, if_neg (by decide), ← List.length_append,
        snprint_key_do_codepoint_eq tk key w _ body hbody hne]
    · rw [if_neg hl, c2, if_neg (by decide), ← List.length_append,
        snprint_key_do_codepoint_eq tk key w _ body hbody hne]
  · rw [if_neg hm, if_neg hm, List.append_nil,
      snprint_key_do_codepoint_eq tk key w _ body hbody hne]

theorem snprint_key_ctrl_eq (tk : termkey_t) (key : termkey_key) (longmod : Nat) (w : Bool)
    (out body : List Nat) (hbody : snprint_key_body tk key = some body)
    (hne : body ≠ [] ∨ w = false) :
    snprint_key_ctrl tk key longmod w out out.length =
      some (out ++
          ((if key.modifiers &&& TERMKEY_KEYMOD_CTRL ≠ 0 then
            (if longmod ≠ 0 then cstring "Ctrl-" else cstring "C-") else []) ++
          (if key.modifiers &&& TERMKEY_KEYMOD_SHIFT ≠ 0 then
            (if longmod ≠ 0 then cstring "Shift-" else cstring "S-") else [])) ++
          body ++ (if w then cstring ">" else []),
        (out ++
          ((if key.modifiers &&& TERMKEY_KEYMOD_CTRL ≠ 0 then
            (if longmod ≠ 0 then cstring "Ctrl-" else cstring "C-") else []) ++
          (if key.modifiers &&& TERMKEY_KEYMOD_SHIFT ≠ 0 then
            (if longmod ≠ 0 then cstring "Shift-" else cstring "S-") else [])) ++
          body ++ (if w then cstring ">" else [])).length) := by
  have c1 : cstring "Ctrl-" = [67, 116, 114, 108, 45] := by decide
  have c2 : cstring "C-" = [67, 45] := by decide
  unfold snprint_key_ctrl snprintf
  by_cases hm : key.modifiers &&& TERMKEY_KEYMOD_CTRL ≠ 0
  · rw [if_pos hm, if_pos hm]
    dsimp only
    by_cases hl : longmod ≠ 0
    · rw [if_pos hl, c1, if_neg (by decide), ← List.length_append,
        snprint_key_shift_eq tk key longmod w _ body hbody hne, ← c1, if_pos hl]
      simp only [List.append_assoc]
    · rw [if_neg hl, c2, if_neg (by decide), ← List.length_append,
        snprint_key_shift_eq tk key longmod w _ body hbody hne, ← c2, if_neg hl]
      simp only [List.append_assoc]
  · rw [if_neg hm, if_neg hm, List.nil_append,
      snprint_key_shift_eq tk key longmod w _ body hbody hne]

theorem snprint_key_alt_eq (tk : termkey_t) (key : termkey_key) (format longmod : Nat)
    (w : Bool) (out body : List Nat) (hbody : snprint_key_body tk key = some body)
    (hne : body ≠ [] ∨ w = false) :
    snprint_key_alt tk key format longmod w out out.length =
      some (out ++
          ((if key.modifiers &&& TERMKEY_KEYMOD_ALT ≠ 0 then
            (if format &&& TERMKEY_FORMAT_ALTISMETA ≠ 0 then
              (if longmod ≠ 0 then cstring "Meta-" else cstring "M-")
              else (if longmod ≠ 0 then cstring "Alt-" else cstring "A-"))
            else []) ++
          (if key.modifiers &&& TERMKEY_KEYMOD_CTRL ≠ 0 then
            (if longmod ≠ 0 then cstring "Ctrl-" else cstring "C-") else []) ++
          (if key.modifiers &&& TERMKEY_KEYMOD_SHIFT ≠ 0 then
            (if longmod ≠ 0 then cstring "Shift-" else cstring "S-") else [])) ++
          body ++ (if w then cstring ">" else []),
        (out ++
          ((if key.modifiers &&& TERMKEY_KEYMOD_ALT ≠ 0 then
            (if format &&& TERMKEY_FORMAT_ALTISMETA ≠ 0 then
              (if longmod ≠ 0 then cstring "Meta-" else cstring "M-")
              else (if longmod ≠ 0 then cstring "Alt-" else cstring "A-"))
            else []) ++
          (if key.modifiers &&& TERMKEY_KEYMOD_CTRL ≠ 0 then
            (if longmod ≠ 0 then cstring "Ctrl-" else cstring "C-") else []) ++
          (if key.modifiers &&& TERMKEY_KEYMOD_SHIFT ≠ 0 then
            (if longmod ≠ 0 then cstring "Shift-" else cstring "S-") else [])) ++
          body ++ (if w then cstring ">" else [])).length) := by
  have c1 : cstring "Meta-" = [77, 101, 116, 97, 45] := by decide
  have c2 : cstring "M-" = [77, 45] := by decide
  have c3 : cstring "Alt-" = [65, 108, 116, 45] := by decide
  have c4 : cstring "A-" = [65, 45] := by decide
  unfold snprint_key_alt snprintf
  by_cases hm : key.modifiers &&& TERMKEY_KEYMOD_ALT ≠ 0
  · rw [if_pos hm, if_pos hm]
    dsimp only
    by_cases hl : longmod ≠ 0 <;> by_cases ha : format &&& TERMKEY_FORMAT_ALTISMETA ≠ 0
    · rw [if_pos hl, if_pos ha, if_pos ha, if_pos hl, c1, if_neg (by decide),
        ← List.length_append, snprint_key_ctrl_eq tk key longmod w _ body hbody hne]
      simp only [List.append_assoc]
    · rw [if_pos hl, if_neg ha, if_neg ha, if_pos hl, c3, if_neg (by decide),
        ← List.length_append, snprint_key_ctrl_eq tk key longmod w _ body hbody hne]
      simp only [List.append_assoc]
    · rw [if_neg hl, if_pos ha, if_pos ha, if_neg hl, c2, if_neg (by decide),
        ← List.length_append, snprint_key_ctrl_eq tk key longmod w _ body hbody hne]
      simp only [List.append_assoc]
    · rw [if_neg hl, if_neg ha, if_neg ha, if_neg hl, c4, if_neg (by decide),
        ← List.length_append, snprint_key_ctrl_eq tk key longmod w _ body hbody hne]
      simp only [List.append_assoc]
  · rw [if_neg hm, if_neg hm, List.nil_append,
      snprint_key_ctrl_eq tk key longmod w _ body hbody hne]

theorem code_number_of_int (code : Int) (h1 : -INT_MAX - 1 ≤ code) (h2 : code ≤ INT_MAX) :
    code_number code = code := by
  unfold INT_MAX at h1 h2
  unfold code_number
  omega

theorem snprint_key_caret_eq (tk : termkey_t) (key : termkey_key) (format longmod : Nat)
    (w : Bool) (out body : List Nat) (hbody : snprint_key_body tk key = some body)
    (hne : body ≠ [] ∨ w = false) (hnum : code_number key.code = key.code) :
    snprint_key_caret tk key format longmod w out out.length =
      some (out ++
          (if format &&& TERMKEY_FORMAT_CARETCTRL ≠ 0 ∧
              key.type = termkey_type.TERMKEY_TYPE_UNICODE ∧
              key.modifiers = TERMKEY_KEYMOD_CTRL ∧ 0x40 ≤ key.code ∧ key.code ≤ 0x5F then
            cstring "^"
          else
            ((if key.modifiers &&& TERMKEY_KEYMOD_ALT ≠ 0 then
              (if format &&& TERMKEY_FORMAT_ALTISMETA ≠ 0 then
                (if longmod ≠ 0 then cstring "Meta-" else cstring "M-")
                else (if longmod ≠ 0 then cstring "Alt-" else cstring "A-"))
              else []) ++
            (if key.modifiers &&& TERMKEY_KEYMOD_CTRL ≠ 0 then
              (if longmod ≠ 0 then cstring "Ctrl-" else cstring "C-") else []) ++
            (if key.modifiers &&& TERMKEY_KEYMOD_SHIFT ≠ 0 then
              (if longmod ≠ 0 then cstring "Shift-" else cstring "S-") else []))) ++
          body ++ (if w then cstring ">" else []),
        (out ++
          (if format &&& TERMKEY_FORMAT_CARETCTRL ≠ 0 ∧
              key.type = termkey_type.TERMKEY_TYPE_UNICODE ∧
              key.modifiers = TERMKEY_KEYMOD_CTRL ∧ 0x40 ≤ key.code ∧ key.code ≤ 0x5F then
            cstring "^"
          else
            ((if key.modifiers &&& TERMKEY_KEYMOD_ALT ≠ 0 then
              (if format &&& TERMKEY_FORMAT_ALTISMETA ≠ 0 then
                (if longmod ≠ 0 then cstring "Meta-" else cstring "M-")
                else (if longmod ≠ 0 then cstring "Alt-" else cstring "A-"))
              else []) ++
            (if key.modifiers &&& TERMKEY_KEYMOD_CTRL ≠ 0 then
              (if longmod ≠ 0 then cstring "Ctrl-" else cstring "C-") else []) ++
            (if key.modifiers &&& TERMKEY_KEYMOD_SHIFT ≠ 0 then
              (if longmod ≠ 0 then cstring "Shift-" else cstring "S-") else []))) ++
          body ++ (if w then cstring ">" else [])).length) := by
  have c2 : cstring "^" = [0x5E] := by decide
  unfold snprint_key_caret snprintf
  rw [hnum]
  by_cases hc : format &&& TERMKEY_FORMAT_CARETCTRL ≠ 0
  · rw [if_pos hc]
    by_cases hk : key.type = termkey_type.TERMKEY_TYPE_UNICODE ∧
        key.modifiers = TERMKEY_KEYMOD_CTRL ∧ key.code ≥ 0x40 ∧ key.code ≤ 0x5F
    · have hcar : (format &&& TERMKEY_FORMAT_CARETCTRL ≠ 0 ∧
        key.type = termkey_type.TERMKEY_TYPE_UNICODE ∧
        key.modifiers = TERMKEY_KEYMOD_CTRL ∧ 0x40 ≤ key.code ∧ key.code ≤ 0x5F) := ⟨hc, hk⟩
      rw [if_pos hk, if_pos hcar]
      dsimp only
      rw [c2, if_neg (show ¬ ([0x5E] : List Nat).length ≤ 0 by decide), ← List.length_append,
        snprint_key_do_codepoint_eq tk key w _ body hbody hne]
    · have hcar : ¬ (format &&& TERMKEY_FORMAT_CARETCTRL ≠ 0 ∧
        key.type = termkey_type.TERMKEY_TYPE_UNICODE ∧
        key.modifiers = TERMKEY_KEYMOD_CTRL ∧ 0x40 ≤ key.code ∧ key.code ≤ 0x5F) := fun h => hk h.2
      rw [if_neg hk, if_neg hcar,
        snprint_key_alt_eq tk key format longmod w out body hbody hne]
  · have hcar : ¬ (format &&& TERMKEY_FORMAT_CARETCTRL ≠ 0 ∧
        key.type = termkey_type.TERMKEY_TYPE_UNICODE ∧
        key.modifiers = TERMKEY_KEYMOD_CTRL ∧ 0x40 ≤ key.code ∧ key.code ≤ 0x5F) := fun h => hc h.1
    rw [if_neg hc, if_neg hcar,
      snprint_key_alt_eq tk key format longmod w out body hbody hne]

/-- C17 (as amended): for every key whose code fits the `int` member `code.number` that the
function reads and whose body text is defined (Unicode, Function, or a KeySym whose name is
registered or renders as "UNKNOWN"), and every format bit set, provided the body is not
empty when `<` is written, `termkey_snprint_key` on a large enough buffer writes exactly the rendering of the claim, in its order: `<` under `WrapBracket` for a
non-Unicode or modified key; then `^` alone under `CaretCtrl` for a Unicode key with modifiers
exactly Ctrl and code in `@`..`_`, or else the Alt (or Meta), Ctrl and Shift prefixes of the
modifier bits present, long under `LongMod`; then the body; then `>` when `<` was written; and
it returns the number of bytes written. -/
theorem termkey_snprint_key_renders (tk : termkey_t) (key : termkey_key) (format : Nat)
    (body : List Nat) (hbody : snprint_key_body tk key = some body)
    (hne : body ≠ [] ∨
      ¬ (format &&& TERMKEY_FORMAT_WRAPBRACKET ≠ 0 ∧
        (key.type ≠ termkey_type.TERMKEY_TYPE_UNICODE ∨ key.modifiers ≠ 0)))
    (hlo : -INT_MAX - 1 ≤ key.code) (hhi : key.code ≤ INT_MAX) :
    termkey_snprint_key tk key format =
      some (spec_render key format body, (spec_render key format body).length) := by
  have c1 : cstring "<" = [0x3C] := by decide
  have hnum := code_number_of_int key.code hlo hhi
  unfold termkey_snprint_key spec_render snprintf
  dsimp only
  by_cases hw : format &&& TERMKEY_FORMAT_WRAPBRACKET ≠ 0 ∧
      (key.type ≠ termkey_type.TERMKEY_TYPE_UNICODE ∨ key.modifiers ≠ 0)
  · have hne2 : body ≠ [] ∨ (true = false) := by
      rcases hne with h | h
      · exact Or.inl h
      · exact absurd hw h
    have h := snprint_key_caret_eq tk key format (format &&& TERMKEY_FORMAT_LONGMOD) true
      (cstring "<") body hbody hne2 hnum
    rw [if_pos (show true = true from rfl)] at h
    rw [decide_eq_true hw, if_pos (show true = true from rfl), if_pos hw, if_pos hw,
      if_neg (show ¬ (cstring "<").length ≤ 0 by rw [c1]; decide),
      List.nil_append, Nat.zero_add]
    exact h
  · have h := snprint_key_caret_eq tk key format (format &&& TERMKEY_FORMAT_LONGMOD) false
      [] body hbody (Or.inr rfl) hnum
    rw [if_neg (show ¬ (false = true) by decide), List.length_nil] at h
    rw [decide_eq_false hw, if_neg (show ¬ (false = true) by decide), if_neg hw, if_neg hw]
    exact h

/-- C17 witness: the Unicode key `A` with Alt, Ctrl and Shift under LongMod, AltIsMeta and
WrapBracket renders as `<Meta-Ctrl-Shift-A>` and 19 is returned. -/
theorem termkey_snprint_key_renders_witness :
    snprint_key_body (termkey_new 0 0 false)
        { type := termkey_type.TERMKEY_TYPE_UNICODE, code := 0x41, modifiers := 7,
          utf8 := [0x41, 0, 0, 0, 0, 0, 0] } = some [0x41] ∧
      termkey_snprint_key (termkey_new 0 0 false)
        { type := termkey_type.TERMKEY_TYPE_UNICODE, code := 0x41, modifiers := 7,
          utf8 := [0x41, 0, 0, 0, 0, 0, 0] } 13 =
        some (cstring "<Meta-Ctrl-Shift-A>", 19) :=
  ⟨by decide,
    (termkey_snprint_key_renders (termkey_new 0 0 false)
      { type := termkey_type.TERMKEY_TYPE_UNICODE, code := 0x41, modifiers := 7,
        utf8 := [0x41, 0, 0, 0, 0, 0, 0] } 13 [0x41] (by decide)
      (Or.inl (by decide)) (by decide) (by decide)).trans (by decide)⟩

/-- C17 counterexample: a Unicode key with modifier Shift and an empty `utf8` under
WrapBracket: `<S-` is written and 3 is returned, the closing `>` of the claimed rendering
`<S->` is not written, because `if(l <= 0) return pos;` leaves after the empty body. And a
Unicode key with modifier Ctrl whose codepoint `0x100000041` does not fit the `int` member:
under CaretCtrl the test reads `code.number = 0x41`, inside `@`..`_`, and `^A` is written
where the claimed rendering of a code outside `@`..`_` is `C-A`. -/
theorem termkey_snprint_key_empty_body_unclosed :
    snprint_key_body (termkey_new 0 0 false)
        { type := termkey_type.TERMKEY_TYPE_UNICODE, code := 0, modifiers := 1,
          utf8 := [0, 0, 0, 0, 0, 0, 0] } = some [] ∧
      termkey_snprint_key (termkey_new 0 0 false)
        { type := termkey_type.TERMKEY_TYPE_UNICODE, code := 0, modifiers := 1,
          utf8 := [0, 0, 0, 0, 0, 0, 0] } TERMKEY_FORMAT_WRAPBRACKET =
        some (cstring "<S-", 3) ∧
      spec_render
        { type := termkey_type.TERMKEY_TYPE_UNICODE, code := 0, modifiers := 1,
          utf8 := [0, 0, 0, 0, 0, 0, 0] } TERMKEY_FORMAT_WRAPBRACKET [] = cstring "<S->" ∧
      snprint_key_body (termkey_new 0 0 false)
        { type := termkey_type.TERMKEY_TYPE_UNICODE, code := 0x100000041,
          modifiers := TERMKEY_KEYMOD_CTRL, utf8 := [0x41, 0, 0, 0, 0, 0, 0] } = some [0x41] ∧
      code_number 0x100000041 = 0x41 ∧
      termkey_snprint_key (termkey_new 0 0 false)
        { type := termkey_type.TERMKEY_TYPE_UNICODE, code := 0x100000041,
          modifiers := TERMKEY_KEYMOD_CTRL, utf8 := [0x41, 0, 0, 0, 0, 0, 0] }
        TERMKEY_FORMAT_CARETCTRL = some (cstring "^A", 2) ∧
      spec_render
        { type := termkey_type.TERMKEY_TYPE_UNICODE, code := 0x100000041,
          modifiers := TERMKEY_KEYMOD_CTRL, utf8 := [0x41, 0, 0, 0, 0, 0, 0] }
        TERMKEY_FORMAT_CARETCTRL [0x41] = cstring "C-A" := by
  decide

/-! ## C18: escape prefix through `termkey_getkey` with the CSI driver -/

theorem window_length (tk : termkey_t) (hinv : buffer_inv tk) :
    (window tk).length = tk.buffcount := by
  obtain ⟨h1, h2⟩ := hinv
  unfold window
  rw [List.length_take, List.length_drop]
  omega

theorem csi_getkey_pending (tk : termkey_t) (key : termkey_key) (hinv : buffer_inv tk)
    (hw : window tk = [0x1B, 0x4F]) :
    csi_getkey tk key false = some (termkey_result.TERMKEY_RES_AGAIN, tk, key) := by
  have hlen := window_length tk hinv
  rw [hw] at hlen
  have hcount : tk.buffcount = 2 := hlen.symm
  have h0 : CHARAT tk 0 = 0x1b := by
    rw [CHARAT_window tk 0 (by omega), hw]
    rfl
  have hf : csi_sequences.find? (fun e => starts_with (window tk) e.1) = none := by
    rw [hw]
    decide
  have ha : csi_sequences.any (fun e => starts_with e.1 (window tk)) = true := by
    rw [hw]
    decide
  unfold csi_getkey
  rw [if_neg (show ¬ tk.buffcount = 0 by omega), if_neg (show ¬ CHARAT tk 0 ≠ 0x1b from
    fun h => h h0), if_neg (show ¬ tk.buffcount = 1 by omega), hf]
  dsimp only
  rw [if_pos ha]

theorem csi_getkey_full (tk : termkey_t) (key : termkey_key) (c : Nat) (sym : Int)
    (hinv : buffer_inv tk) (hw : window tk = [0x1B, 0x4F, c])
    (hc : (c = 0x43 ∧ sym = TERMKEY_SYM_RIGHT) ∨ (c = 0x41 ∧ sym = TERMKEY_SYM_UP)) :
    csi_getkey tk key false = some (termkey_result.TERMKEY_RES_KEY, eat_bytes tk 3,
      { key with type := termkey_type.TERMKEY_TYPE_KEYSYM, code := sym, modifiers := 0 }) := by
  have hlen := window_length tk hinv
  rw [hw] at hlen
  have hcount : tk.buffcount = 3 := hlen.symm
  have h0 : CHARAT tk 0 = 0x1b := by
    rw [CHARAT_window tk 0 (by omega), hw]
    rfl
  have hf : csi_sequences.find? (fun e => starts_with (window tk) e.1) =
      some ([0x1B, 0x4F, c], sym) := by
    rw [hw]
    rcases hc with ⟨h1, h2⟩ | ⟨h1, h2⟩ <;> subst h1 <;> subst h2 <;> decide
  unfold csi_getkey
  rw [if_neg (show ¬ tk.buffcount = 0 by omega), if_neg (show ¬ CHARAT tk 0 ≠ 0x1b from
    fun h => h h0), if_neg (show ¬ tk.buffcount = 1 by omega), hf]
  rfl

/-- C18: with the CSI driver bound and the buffer holding exactly `ESC O`, `termkey_getkey`
returns `TERMKEY_RES_AGAIN`, leaves the decoder as it was and `remaining()` is `size - 2`;
pushing one more byte `C` (resp. `A`) succeeds, and `termkey_getkey` then returns
`TERMKEY_RES_KEY` with type `KeySym`, sym `Right` (resp. `Up`), modifiers 0, after which
the buffer is empty: `remaining()` is the buffer size. -/
theorem termkey_getkey_escape_pending (tk : termkey_t) (key : termkey_key) (c : Nat) (sym : Int)
    (fuel : Nat) (hinv : buffer_inv tk) (hw : window tk = [0x1B, 0x4F]) (hfuel : 0 < fuel)
    (hc : (c = 0x43 ∧ sym = TERMKEY_SYM_RIGHT) ∨ (c = 0x41 ∧ sym = TERMKEY_SYM_UP)) :
    termkey_getkey csi_getkey tk key = some (termkey_result.TERMKEY_RES_AGAIN, tk, key) ∧
      termkey_get_buffer_remaining tk = tk.buffsize - 2 ∧
      ∃ tk2 tk3 key3, termkey_pushinput fuel tk [c] = some tk2 ∧
        termkey_getkey csi_getkey tk2 key = some (termkey_result.TERMKEY_RES_KEY, tk3, key3) ∧
        key3.type = termkey_type.TERMKEY_TYPE_KEYSYM ∧ key3.code = sym ∧
        key3.modifiers = 0 ∧ tk3.buffcount = 0 ∧
        termkey_get_buffer_remaining tk3 = tk3.buffsize ∧ tk3.buffsize = tk2.buffsize ∧
        (tk.buffstart + 3 ≤ tk.buffsize → tk3.buffsize = tk.buffsize) := by
  have hlen := window_length tk hinv
  rw [hw] at hlen
  have hcount : tk.buffcount = 2 := hlen.symm
  have hsize : 2 ≤ tk.buffsize := by
    have := hinv.1
    omega
  have hneed : tk.buffstart + tk.buffcount + [c].length ≤ tk.buffsize * 2 ^ fuel := by
    have h1 := hinv.1
    have h2 : 2 ^ 1 ≤ 2 ^ fuel := Nat.pow_le_pow_right (by decide) hfuel
    have h3 : tk.buffsize * 2 ^ 1 ≤ tk.buffsize * 2 ^ fuel := Nat.mul_le_mul_left _ h2
    simp only [List.length_singleton]
    omega
  obtain ⟨k, -, hk, hmin, hpush⟩ := termkey_pushinput_eq tk [c] fuel hinv hneed
  have hw2 := pushed_window tk [c] k hinv hk
  have hinv2 := pushed_inv tk [c] k hinv hk
  rw [hw] at hw2
  have hget := csi_getkey_full _ key c sym hinv2 hw2 hc
  refine ⟨csi_getkey_pending tk key hinv hw, ?_, _, _, _, hpush, hget, rfl, rfl, rfl, ?_, ?_,
    ?_, ?_⟩
  · unfold termkey_get_buffer_remaining
    rw [hcount]
  · rw [eat_bytes_buffcount]
    show tk.buffcount + [c].length - 3 = 0
    simp only [List.length_singleton]
    omega
  · unfold termkey_get_buffer_remaining
    rw [eat_bytes_buffcount]
    show (eat_bytes _ 3).buffsize - (tk.buffcount + [c].length - 3) = _
    simp only [List.length_singleton]
    omega
  · rw [eat_bytes_buffsize]
  · intro hfit
    rw [eat_bytes_buffsize]
    show tk.buffsize * 2 ^ k = tk.buffsize
    have hk0 : k = 0 := by
      by_contra hne
      have := hmin 0 (Nat.pos_of_ne_zero hne)
      simp only [List.length_singleton, pow_zero, Nat.mul_one] at this
      omega
    rw [hk0, pow_zero, Nat.mul_one]

set_option maxRecDepth 100000 in
/-- C18 witness: the run of `t/02getkey.c` on a fresh decoder of size 256: after `ESC O` the
result is `TERMKEY_RES_AGAIN` with 254 bytes free, after `C` the key is `KeySym` `Right`
and 256 bytes are free. -/
theorem termkey_getkey_escape_pending_witness :
    termkey_get_buffer_remaining (decoder_holding 0 [0x1B, 0x4F]) = 254 ∧
      termkey_getkey csi_getkey (decoder_holding 0 [0x1B, 0x4F]) blank_key = some
        (termkey_result.TERMKEY_RES_AGAIN, decoder_holding 0 [0x1B, 0x4F], blank_key) ∧
      ∃ tk2 tk3 key3, termkey_pushinput 1 (decoder_holding 0 [0x1B, 0x4F]) [0x43] = some tk2 ∧
        termkey_getkey csi_getkey tk2 blank_key =
          some (termkey_result.TERMKEY_RES_KEY, tk3, key3) ∧
        key3.type = termkey_type.TERMKEY_TYPE_KEYSYM ∧ key3.code = TERMKEY_SYM_RIGHT ∧
        key3.modifiers = 0 ∧ termkey_get_buffer_remaining tk3 = 256 := by
  have h := termkey_getkey_escape_pending (decoder_holding 0 [0x1B, 0x4F]) blank_key 0x43
    TERMKEY_SYM_RIGHT 1 (by decide) (by decide) (by decide) (Or.inl ⟨rfl, rfl⟩)
  obtain ⟨h1, -, tk2, tk3, key3, h3, h4, h5, h6, h7, -, h9, -, h11⟩ := h
  refine ⟨by decide, h1, tk2, tk3, key3, h3, h4, h5, h6, h7, ?_⟩
  rw [h9, h11 (by decide)]
  decide

/-! ## C19: `eat_bytes` and the unread bytes -/

theorem eat_bytes_window (tk : termkey_t) (n : Nat) (hinv : buffer_inv tk)
    (hn : n < tk.buffcount) (hfit : tk.buffstart + tk.buffcount ≤ 2 * (tk.buffsize / 2)) :
    window (eat_bytes tk n) = (window tk).drop n := by
  obtain ⟨h1, h2⟩ := hinv
  unfold eat_bytes window
  rw [if_neg (show ¬ n ≥ tk.buffcount by omega)]
  dsimp only
  rw [List.drop_take, List.drop_drop]
  by_cases hs : tk.buffstart + n > tk.buffsize / 2
  · rw [if_pos hs]
    dsimp only
    unfold memcpy
    apply List.ext_getElem?
    intro i
    by_cases hi : i < tk.buffcount - n
    · simp only [List.getElem?_take, List.getElem?_drop, hi, if_true, List.take_zero,
        List.nil_append, Nat.zero_add]
      rw [List.getElem?_append_left (by
        rw [List.length_take, List.length_drop]
        omega)]
      rw [List.getElem?_take_of_lt (by omega), List.getElem?_drop]
      congr 1
      omega
    · simp only [List.getElem?_take, hi, if_false]
  · rw [if_neg hs]

set_option maxRecDepth 100000 in
/-- C19: the count after `eat_bytes(n)` is `count - n`, but the unread bytes are not kept for
an odd buffer size. A decoder built with `buffsize = 3` and holding `a b c` (start 0,
count 3): `eat_bytes(2)` moves start to 2, above `halfsize = 1`, and
`memcpy(buffer, buffer + halfsize, halfsize)` copies one byte only, so the byte `c` at index
`2 * halfsize = 2` is not moved and the new window reads `b`. Whenever
`start + count <= 2 * (size / 2)` (every window of an even-sized buffer) the new window is the
old one without its first `n` bytes. -/
theorem eat_bytes_odd_size_loses_byte :
    (∃ tk, termkey_pushinput 0 (termkey_new_full 0 0 3 50 false) [0x61, 0x62, 0x63] = some tk ∧
      buffer_inv tk ∧ tk.buffsize = 3 ∧ tk.buffstart = 0 ∧ tk.buffcount = 3 ∧
      window tk = [0x61, 0x62, 0x63] ∧
      (eat_bytes tk 2).buffcount = 1 ∧ (eat_bytes tk 2).buffstart = 1 ∧
      (eat_bytes tk 2).buffer = [0x62, 0x62, 0x63] ∧
      window (eat_bytes tk 2) = [0x62] ∧ CHARAT (eat_bytes tk 2) 0 = 0x62 ∧
      (window tk).drop 2 = [0x63] ∧ CHARAT tk 2 = 0x63) ∧
    (∀ (tk : termkey_t) (n : Nat), buffer_inv tk → n < tk.buffcount →
      tk.buffstart + tk.buffcount ≤ 2 * (tk.buffsize / 2) →
      (eat_bytes tk n).buffcount = tk.buffcount - n ∧
        window (eat_bytes tk n) = (window tk).drop n) := by
  refine ⟨⟨_, rfl, ?_⟩, fun tk n hinv hn hfit =>
    ⟨eat_bytes_buffcount tk n, eat_bytes_window tk n hinv hn hfit⟩⟩
  decide

/-! ## C20: the bad-continuation path consumes `b - 1` bytes -/

theorem getkey_simple_loop_first_bad (tk : termkey_t) :
    ∀ (n b cp e : Nat), b ≤ e → e < b + n →
      (∀ j, b ≤ j → j < e → 0x80 ≤ CHARAT tk j ∧ CHARAT tk j < 0xc0) →
      (CHARAT tk e < 0x80 ∨ 0xc0 ≤ CHARAT tk e) →
      getkey_simple_loop tk n b cp = .error e := by
  intro n
  induction n with
  | zero =>
    intro b cp e h1 h2
    omega
  | succ n ih =>
    intro b cp e h1 h2 hgood hbad
    unfold getkey_simple_loop
    dsimp only
    by_cases hb : b = e
    · subst hb
      rw [if_pos hbad]
    · have hg := hgood b (Nat.le_refl b) (by omega)
      rw [if_neg (show ¬ (CHARAT tk b < 0x80 ∨ CHARAT tk b ≥ 0xc0) by omega)]
      exact ih (b + 1) _ e (by omega) (by omega) (fun j hj1 hj2 => hgood j (by omega) hj2) hbad

/-- C20, what the code does: in UTF-8 mode, for every lead byte in `0xC0..0xFD` with declared
length `nbytes`, a buffer holding at least `nbytes` bytes and the first offset `b`
(`1 <= b < nbytes`) whose byte is not a continuation byte, `getkey_simple` returns
`TERMKEY_RES_KEY` with the Unicode code point `0xFFFD` and leaves the state
`eat_bytes(tk, b - 1)`: the count drops by `b - 1`, not by `b`, so the last byte before the
invalid one stays at the head of the buffer. -/
theorem getkey_simple_bad_continuation (tk : termkey_t) (key : termkey_key) (b : Nat)
    (hutf8 : tk.flags &&& TERMKEY_FLAG_UTF8 ≠ 0)
    (hlo : 0xC0 ≤ CHARAT tk 0) (hhi : CHARAT tk 0 ≤ 0xFD)
    (hcount : spec_seq_nbytes (CHARAT tk 0) ≤ tk.buffcount)
    (hb1 : 1 ≤ b) (hb2 : b < spec_seq_nbytes (CHARAT tk 0))
    (hgood : ∀ j, 1 ≤ j → j < b → 0x80 ≤ CHARAT tk j ∧ CHARAT tk j < 0xc0)
    (hbad : CHARAT tk b < 0x80 ∨ 0xc0 ≤ CHARAT tk b) :
    (getkey_simple tk key).1 = termkey_result.TERMKEY_RES_KEY ∧
      (getkey_simple tk key).2.2.type = termkey_type.TERMKEY_TYPE_UNICODE ∧
      (getkey_simple tk key).2.2.code = 0xFFFD ∧
      (getkey_simple tk key).2.1 = eat_bytes tk (b - 1) ∧
      (getkey_simple tk key).2.1.buffcount = tk.buffcount - (b - 1) := by
  have hloop := getkey_simple_loop_first_bad tk (spec_seq_nbytes (CHARAT tk 0) - 1) 1
    (CHARAT tk 0 % 2 ^ (7 - spec_seq_nbytes (CHARAT tk 0))) b hb1 (by omega) hgood hbad
  rw [getkey_simple_lead tk key hutf8 hlo hhi]
  unfold getkey_simple_multibyte
  rw [if_neg (show ¬ tk.buffcount < spec_seq_nbytes (CHARAT tk 0) by omega), hloop]
  dsimp only
  rw [emit_codepoint_high tk UTF8_INVALID _ (by decide)]
  refine ⟨rfl, ?_, ?_, rfl, eat_bytes_buffcount tk (b - 1)⟩
  · exact (fill_utf8_fields _).1
  · exact (fill_utf8_fields _).2.1

set_option maxRecDepth 100000 in
/-- C20 witness: after `0xE2 0x82 0x41` in UTF-8 mode (`nbytes = 3`, first bad offset
`b = 2`) the key is `U+FFFD`, one byte is consumed and the head of the buffer is the
continuation byte `0x82`, not the invalid byte `0x41`. -/
theorem getkey_simple_bad_continuation_witness :
    CHARAT (decoder_holding TERMKEY_FLAG_UTF8 [0xE2, 0x82, 0x41]) 2 = 0x41 ∧
      CHARAT (getkey_simple (decoder_holding TERMKEY_FLAG_UTF8 [0xE2, 0x82, 0x41])
        blank_key).2.1 0 = 0x82 ∧
      window (getkey_simple (decoder_holding TERMKEY_FLAG_UTF8 [0xE2, 0x82, 0x41])
        blank_key).2.1 = [0x82, 0x41] ∧
      (getkey_simple (decoder_holding TERMKEY_FLAG_UTF8 [0xE2, 0x82, 0x41]) blank_key).1
        = termkey_result.TERMKEY_RES_KEY ∧
      (getkey_simple (decoder_holding TERMKEY_FLAG_UTF8 [0xE2, 0x82, 0x41]) blank_key).2.2.type
        = termkey_type.TERMKEY_TYPE_UNICODE ∧
      (getkey_simple (decoder_holding TERMKEY_FLAG_UTF8 [0xE2, 0x82, 0x41]) blank_key).2.2.code
        = 0xFFFD ∧
      (getkey_simple (decoder_holding TERMKEY_FLAG_UTF8 [0xE2, 0x82, 0x41]) blank_key).2.1
        = eat_bytes (decoder_holding TERMKEY_FLAG_UTF8 [0xE2, 0x82, 0x41]) (2 - 1) ∧
      (getkey_simple (decoder_holding TERMKEY_FLAG_UTF8 [0xE2, 0x82, 0x41])
        blank_key).2.1.buffcount
        = (decoder_holding TERMKEY_FLAG_UTF8 [0xE2, 0x82, 0x41]).buffcount - (2 - 1) :=
  ⟨by decide, by decide, by decide,
    getkey_simple_bad_continuation (decoder_holding TERMKEY_FLAG_UTF8 [0xE2, 0x82, 0x41])
      blank_key 2 (by decide) (by decide) (by decide) (by decide) (by decide) (by decide)
      (by
        intro j h1 h2
        have hj : j = 1 := by omega
        subst hj
        decide)
      (by decide)⟩

/-! ## C21: decoding what `fill_utf8` writes, up to `0x7FFFFFFF` -/

theorem getkey_simple_decodes_long (tk : termkey_t) (key : termkey_key) (cp : Nat)
    (hutf8 : tk.flags &&& TERMKEY_FLAG_UTF8 ≠ 0)
    (hcount : (spec_utf8_encode_long cp).length ≤ tk.buffcount)
    (hbytes : ∀ i, i < (spec_utf8_encode_long cp).length →
      CHARAT tk i = (spec_utf8_encode_long cp).getD i 0)
    (hlo : 0xA0 ≤ cp) (hhi : cp ≤ 0x7FFFFFFF)
    (hsur : ¬ (0xD800 ≤ cp ∧ cp ≤ 0xDFFF)) (hfffe : cp ≠ 0xFFFE) (hffff : cp ≠ 0xFFFF) :
    getkey_simple tk key =
      (termkey_result.TERMKEY_RES_KEY, eat_bytes tk (spec_utf8_encode_long cp).length,
        fill_utf8 { key with
          type := termkey_type.TERMKEY_TYPE_UNICODE, code := (cp : Int), modifiers := 0 }) := by
  by_cases h2 : cp < 0x800
  · have henc : spec_utf8_encode_long cp =
        [0xC0 + cp / 64, 0x80 + cp % 64] := by
      unfold spec_utf8_encode_long
      rw [if_neg (show ¬ cp < 0x80 by omega), if_pos h2]
    rw [henc] at hbytes hcount ⊢
    have b0 : CHARAT tk 0 = 0xC0 + cp / 64 := hbytes 0 (by simp)
    have b1 : CHARAT tk 1 = 0x80 + cp % 64 := hbytes 1 (by simp)
    have hn : spec_seq_nbytes (CHARAT tk 0) = 2 := by
      rw [b0]
      unfold spec_seq_nbytes
      split_ifs <;> omega
    have hw := getkey_simple_wellformed tk key hutf8 (by omega) (by omega)
      (by rw [hn]; exact hcount)
      (by
        intro i i1 i2
        rw [hn] at i2
        have hi : i = 1 := by omega
        subst hi
        rw [b1]
        omega)
    rw [hn] at hw
    have hv : spec_seq_value tk 2 = cp := by
      have a0 : (0xC0 + cp / 64) % 32 = cp / 64 := by omega
      have a1 : cp / 64 * 64 + (0x80 + cp % 64) % 64 = cp := by omega
      unfold spec_seq_value
      simp only [spec_payload, b0, b1, Nat.reduceSub, Nat.reduceAdd, Nat.reducePow]
      rw [a0, a1]
    have hc : spec_checked 2 cp = cp := by
      unfold spec_checked utf8_seqlen
      split_ifs <;> omega
    rw [hw, hv, hc, emit_codepoint_high _ _ _ hlo]
    rfl
  by_cases h3 : cp < 0x10000
  · have henc : spec_utf8_encode_long cp =
        [0xE0 + cp / 4096, 0x80 + cp / 64 % 64, 0x80 + cp % 64] := by
      unfold spec_utf8_encode_long
      rw [if_neg (show ¬ cp < 0x80 by omega), if_neg h2, if_pos h3]
    rw [henc] at hbytes hcount ⊢
    have b0 : CHARAT tk 0 = 0xE0 + cp / 4096 := hbytes 0 (by simp)
    have b1 : CHARAT tk 1 = 0x80 + cp / 64 % 64 := hbytes 1 (by simp)
    have b2 : CHARAT tk 2 = 0x80 + cp % 64 := hbytes 2 (by simp)
    have hn : spec_seq_nbytes (CHARAT tk 0) = 3 := by
      rw [b0]
      unfold spec_seq_nbytes
      split_ifs <;> omega
    have hw := getkey_simple_wellformed tk key hutf8 (by omega) (by omega)
      (by rw [hn]; exact hcount)
      (by
        intro i i1 i2
        rw [hn] at i2
        have hi : i = 1 ∨ i = 2 := by omega
        rcases hi with hi | hi <;> subst hi
        · rw [b1]; omega
        · rw [b2]; omega)
    rw [hn] at hw
    have hv : spec_seq_value tk 3 = cp := by
      have a0 : (0xE0 + cp / 4096) % 16 = cp / 4096 := by omega
      have a1 : cp / 4096 * 64 + (0x80 + cp / 64 % 64) % 64 = cp / 64 := by omega
      have a2 : cp / 64 * 64 + (0x80 + cp % 64) % 64 = cp := by omega
      unfold spec_seq_value
      simp only [spec_payload, b0, b1, b2, Nat.reduceSub, Nat.reduceAdd, Nat.reducePow]
      rw [a0, a1, a2]
    have hc : spec_checked 3 cp = cp := by
      unfold spec_checked utf8_seqlen
      split_ifs <;> omega
    rw [hw, hv, hc, emit_codepoint_high _ _ _ hlo]
    rfl
  by_cases h4 : cp < 0x200000
  · have henc : spec_utf8_encode_long cp =
        [0xF0 + cp / 262144, 0x80 + cp / 4096 % 64, 0x80 + cp / 64 % 64, 0x80 + cp % 64] := by
      unfold spec_utf8_encode_long
      rw [if_neg (show ¬ cp < 0x80 by omega), if_neg h2, if_neg h3, if_pos h4]
    rw [henc] at hbytes hcount ⊢
    have b0 : CHARAT tk 0 = 0xF0 + cp / 262144 := hbytes 0 (by simp)
    have b1 : CHARAT tk 1 = 0x80 + cp / 4096 % 64 := hbytes 1 (by simp)
    have b2 : CHARAT tk 2 = 0x80 + cp / 64 % 64 := hbytes 2 (by simp)
    have b3 : CHARAT tk 3 = 0x80 + cp % 64 := hbytes 3 (by simp)
    have hn : spec_seq_nbytes (CHARAT tk 0) = 4 := by
      rw [b0]
      unfold spec_seq_nbytes
      split_ifs <;> omega
    have hw := getkey_simple_wellformed tk key hutf8 (by omega) (by omega)
      (by rw [hn]; exact hcount)
      (by
        intro i i1 i2
        rw [hn] at i2
        have hi : i = 1 ∨ i = 2 ∨ i = 3 := by omega
        rcases hi with hi | hi | hi <;> subst hi
        · rw [b1]; omega
        · rw [b2]; omega
        · rw [b3]; omega)
    rw [hn] at hw
    have hv : spec_seq_value tk 4 = cp := by
      have a0 : (0xF0 + cp / 262144) % 8 = cp / 262144 := by omega
      have a1 : cp / 262144 * 64 + (0x80 + cp / 4096 % 64) % 64 = cp / 4096 := by omega
      have a2 : cp / 4096 * 64 + (0x80 + cp / 64 % 64) % 64 = cp / 64 := by omega
      have a3 : cp / 64 * 64 + (0x80 + cp % 64) % 64 = cp := by omega
      unfold spec_seq_value
      simp only [spec_payload, b0, b1, b2, b3, Nat.reduceSub, Nat.reduceAdd, Nat.reducePow]
      rw [a0, a1, a2, a3]
    have hc : spec_checked 4 cp = cp := by
      unfold spec_checked utf8_seqlen
      split_ifs <;> omega
    rw [hw, hv, hc, emit_codepoint_high _ _ _ hlo]
    rfl
  by_cases h5 : cp < 0x4000000
  · have henc : spec_utf8_encode_long cp =
        [0xF8 + cp / 16777216, 0x80 + cp / 262144 % 64, 0x80 + cp / 4096 % 64, 0x80 + cp / 64 % 64, 0x80 + cp % 64] := by
      unfold spec_utf8_encode_long
      rw [if_neg (show ¬ cp < 0x80 by omega), if_neg h2, if_neg h3, if_neg h4, if_pos h5]
    rw [henc] at hbytes hcount ⊢
    have b0 : CHARAT tk 0 = 0xF8 + cp / 16777216 := hbytes 0 (by simp)
    have b1 : CHARAT tk 1 = 0x80 + cp / 262144 % 64 := hbytes 1 (by simp)
    have b2 : CHARAT tk 2 = 0x80 + cp / 4096 % 64 := hbytes 2 (by simp)
    have b3 : CHARAT tk 3 = 0x80 + cp / 64 % 64 := hbytes 3 (by simp)
    have b4 : CHARAT tk 4 = 0x80 + cp % 64 := hbytes 4 (by simp)
    have hn : spec_seq_nbytes (CHARAT tk 0) = 5 := by
      rw [b0]
      unfold spec_seq_nbytes
      split_ifs <;> omega
    have hw := getkey_simple_wellformed tk key hutf8 (by omega) (by omega)
      (by rw [hn]; exact hcount)
      (by
        intro i i1 i2
        rw [hn] at i2
        have hi : i = 1 ∨ i = 2 ∨ i = 3 ∨ i = 4 := by omega
        rcases hi with hi | hi | hi | hi <;> subst hi
        · rw [b1]; omega
        · rw [b2]; omega
        · rw [b3]; omega
        · rw [b4]; omega)
    rw [hn] at hw
    have hv : spec_seq_value tk 5 = cp := by
      have a0 : (0xF8 + cp / 16777216) % 4 = cp / 16777216 := by omega
      have a1 : cp / 16777216 * 64 + (0x80 + cp / 262144 % 64) % 64 = cp / 262144 := by omega
      have a2 : cp / 262144 * 64 + (0x80 + cp / 4096 % 64) % 64 = cp / 4096 := by omega
      have a3 : cp / 4096 * 64 + (0x80 + cp / 64 % 64) % 64 = cp / 64 := by omega
      have a4 : cp / 64 * 64 + (0x80 + cp % 64) % 64 = cp := by omega
      unfold spec_seq_value
      simp only [spec_payload, b0, b1, b2, b3, b4, Nat.reduceSub, Nat.reduceAdd, Nat.reducePow]
      rw [a0, a1, a2, a3, a4]
    have hc : spec_checked 5 cp = cp := by
      unfold spec_checked utf8_seqlen
      split_ifs <;> omega
    rw [hw, hv, hc, emit_codepoint_high _ _ _ hlo]
    rfl
  have henc : spec_utf8_encode_long cp =
      [0xFC + cp / 1073741824, 0x80 + cp / 16777216 % 64, 0x80 + cp / 262144 % 64, 0x80 + cp / 4096 % 64, 0x80 + cp / 64 % 64, 0x80 + cp % 64] := by
    unfold spec_utf8_encode_long
    rw [if_neg (show ¬ cp < 0x80 by omega), if_neg h2, if_neg h3, if_neg h4, if_neg h5]
  rw [henc] at hbytes hcount ⊢
  have b0 : CHARAT tk 0 = 0xFC + cp / 1073741824 := hbytes 0 (by simp)
  have b1 : CHARAT tk 1 = 0x80 + cp / 16777216 % 64 := hbytes 1 (by simp)
  have b2 : CHARAT tk 2 = 0x80 + cp / 262144 % 64 := hbytes 2 (by simp)
  have b3 : CHARAT tk 3 = 0x80 + cp / 4096 % 64 := hbytes 3 (by simp)
  have b4 : CHARAT tk 4 = 0x80 + cp / 64 % 64 := hbytes 4 (by simp)
  have b5 : CHARAT tk 5 = 0x80 + cp % 64 := hbytes 5 (by simp)
  have hn : spec_seq_nbytes (CHARAT tk 0) = 6 := by
    rw [b0]
    unfold spec_seq_nbytes
    split_ifs <;> omega
  have hw := getkey_simple_wellformed tk key hutf8 (by omega) (by omega)
    (by rw [hn]; exact hcount)
    (by
      intro i i1 i2
      rw [hn] at i2
      have hi : i = 1 ∨ i = 2 ∨ i = 3 ∨ i = 4 ∨ i = 5 := by omega
      rcases hi with hi | hi | hi | hi | hi <;> subst hi
      · rw [b1]; omega
      · rw [b2]; omega
      · rw [b3]; omega
      · rw [b4]; omega
      · rw [b5]; omega)
  rw [hn] at hw
  have hv : spec_seq_value tk 6 = cp := by
    have a0 : (0xFC + cp / 1073741824) % 2 = cp / 1073741824 := by omega
    have a1 : cp / 1073741824 * 64 + (0x80 + cp / 16777216 % 64) % 64 = cp / 16777216 := by omega
    have a2 : cp / 16777216 * 64 + (0x80 + cp / 262144 % 64) % 64 = cp / 262144 := by omega
    have a3 : cp / 262144 * 64 + (0x80 + cp / 4096 % 64) % 64 = cp / 4096 := by omega
    have a4 : cp / 4096 * 64 + (0x80 + cp / 64 % 64) % 64 = cp / 64 := by omega
    have a5 : cp / 64 * 64 + (0x80 + cp % 64) % 64 = cp := by omega
    unfold spec_seq_value
    simp only [spec_payload, b0, b1, b2, b3, b4, b5, Nat.reduceSub, Nat.reduceAdd, Nat.reducePow]
    rw [a0, a1, a2, a3, a4, a5]
  have hc : spec_checked 6 cp = cp := by
    unfold spec_checked utf8_seqlen
    split_ifs <;> omega
  rw [hw, hv, hc, emit_codepoint_high _ _ _ hlo]
  rfl

/-- C21: decode undoes encode above the control ranges. For every `cp` with
`0xA0 ≤ cp ≤ 0x7FFFFFFF` that is not in `D800..DFFF` and not `FFFE` or `FFFF`, let the buffer
window be exactly the `utf8_seqlen cp` bytes that `fill_utf8` writes for `cp` (into the 7-byte
`utf8` array of any key `key0` with that codepoint). With the Utf8 flag set, `getkey_simple`
returns `TERMKEY_RES_KEY` with type Unicode, modifiers 0, codepoint `cp` and `utf8` holding
those bytes followed by a NUL, and leaves the buffer empty (`start = 0`, `count = 0`), the
rest of the decoder as it was. -/
theorem getkey_simple_undoes_fill_utf8 (tk : termkey_t) (key key0 : termkey_key) (cp : Nat)
    (hinv : buffer_inv tk) (hutf8 : tk.flags &&& TERMKEY_FLAG_UTF8 ≠ 0)
    (hkey0 : key0.utf8.length = 7) (hcode : key0.code = (cp : Int))
    (hkey : key.utf8.length = 7)
    (hlo : 0xA0 ≤ cp) (hhi : cp ≤ 0x7FFFFFFF)
    (hsur : ¬ (0xD800 ≤ cp ∧ cp ≤ 0xDFFF)) (hfffe : cp ≠ 0xFFFE) (hffff : cp ≠ 0xFFFF)
    (hw : window tk = (fill_utf8 key0).utf8.take (utf8_seqlen cp)) :
    (getkey_simple tk key).1 = termkey_result.TERMKEY_RES_KEY ∧
      (getkey_simple tk key).2.2.type = termkey_type.TERMKEY_TYPE_UNICODE ∧
      (getkey_simple tk key).2.2.modifiers = 0 ∧
      (getkey_simple tk key).2.2.code = (cp : Int) ∧
      (getkey_simple tk key).2.2.utf8.take (utf8_seqlen cp) = window tk ∧
      (getkey_simple tk key).2.2.utf8[utf8_seqlen cp]? = some 0 ∧
      (getkey_simple tk key).2.1 = { tk with buffstart := 0, buffcount := 0 } ∧
      (getkey_simple tk key).2.1.buffstart = 0 ∧ (getkey_simple tk key).2.1.buffcount = 0 := by
  have hw2 : window tk = spec_utf8_encode_long cp :=
    hw.trans (fill_utf8_encode_long key0 cp hkey0 hcode hhi).1
  have hcount : tk.buffcount = (spec_utf8_encode_long cp).length := by
    rw [← window_length tk hinv, hw2]
  have hbytes : ∀ i, i < (spec_utf8_encode_long cp).length →
      CHARAT tk i = (spec_utf8_encode_long cp).getD i 0 := by
    intro i hi
    rw [CHARAT_window tk i (by omega), hw2]
  rw [getkey_simple_decodes_long tk key cp hutf8 (Nat.le_of_eq hcount.symm) hbytes hlo hhi
    hsur hfffe hffff, eat_bytes_drain tk _ (Nat.le_of_eq hcount)]
  obtain ⟨e1, e2⟩ := fill_utf8_encode_long
    { key with type := termkey_type.TERMKEY_TYPE_UNICODE, code := (cp : Int), modifiers := 0 }
    cp hkey rfl hhi
  refine ⟨rfl, (fill_utf8_fields _).1, (fill_utf8_fields _).2.2, (fill_utf8_fields _).2.1, ?_,
    ?_, rfl, rfl, rfl⟩
  · exact e1.trans hw2.symm
  · have h := congrArg (fun l => l[0]?) e2
    simpa using h

set_option maxRecDepth 100000 in
/-- C21 witness: the largest value, `cp = 0x7FFFFFFF`: `fill_utf8` writes
`FD BF BF BF BF BF`; pushed into a fresh UTF-8 decoder these six bytes decode to a Unicode
key with codepoint `0x7FFFFFFF`, no modifier and the same six bytes then NUL in `utf8`, and
the buffer is empty afterwards. -/
theorem getkey_simple_undoes_fill_utf8_witness :
    (fill_utf8 { blank_key with code := 0x7FFFFFFF }).utf8.take (utf8_seqlen 0x7FFFFFFF)
        = [0xFD, 0xBF, 0xBF, 0xBF, 0xBF, 0xBF] ∧
      window (decoder_holding TERMKEY_FLAG_UTF8 [0xFD, 0xBF, 0xBF, 0xBF, 0xBF, 0xBF])
        = [0xFD, 0xBF, 0xBF, 0xBF, 0xBF, 0xBF] ∧
      (getkey_simple (decoder_holding TERMKEY_FLAG_UTF8 [0xFD, 0xBF, 0xBF, 0xBF, 0xBF, 0xBF])
        blank_key).2.2.utf8 = [0xFD, 0xBF, 0xBF, 0xBF, 0xBF, 0xBF, 0] ∧
      (getkey_simple (decoder_holding TERMKEY_FLAG_UTF8 [0xFD, 0xBF, 0xBF, 0xBF, 0xBF, 0xBF])
        blank_key).1 = termkey_result.TERMKEY_RES_KEY ∧
      (getkey_simple (decoder_holding TERMKEY_FLAG_UTF8 [0xFD, 0xBF, 0xBF, 0xBF, 0xBF, 0xBF])
        blank_key).2.2.type = termkey_type.TERMKEY_TYPE_UNICODE ∧
      (getkey_simple (decoder_holding TERMKEY_FLAG_UTF8 [0xFD, 0xBF, 0xBF, 0xBF, 0xBF, 0xBF])
        blank_key).2.2.modifiers = 0 ∧
      (getkey_simple (decoder_holding TERMKEY_FLAG_UTF8 [0xFD, 0xBF, 0xBF, 0xBF, 0xBF, 0xBF])
        blank_key).2.2.code = 0x7FFFFFFF ∧
      (getkey_simple (decoder_holding TERMKEY_FLAG_UTF8 [0xFD, 0xBF, 0xBF, 0xBF, 0xBF, 0xBF])
        blank_key).2.1.buffstart = 0 ∧
      (getkey_simple (decoder_holding TERMKEY_FLAG_UTF8 [0xFD, 0xBF, 0xBF, 0xBF, 0xBF, 0xBF])
        blank_key).2.1.buffcount = 0 := by
  have h := getkey_simple_undoes_fill_utf8
    (decoder_holding TERMKEY_FLAG_UTF8 [0xFD, 0xBF, 0xBF, 0xBF, 0xBF, 0xBF]) blank_key
    { blank_key with code := 0x7FFFFFFF } 0x7FFFFFFF (by decide) (by decide) (by decide)
    (by decide) (by decide) (by decide) (by decide) (by decide) (by decide) (by decide)
    (by decide)
  exact ⟨by decide, by decide, by decide, h.1, h.2.1, h.2.2.1, h.2.2.2.1, h.2.2.2.2.2.2.2.1,
    h.2.2.2.2.2.2.2.2⟩

end Termkey
